import Mathlib

/-!
The terminal budget: session engine and currency conversion.

A shallow embedding of the Go sources `data/currency.go`, `data/wallet.go`,
`tui/app.go`, `tui/commands.go`, `tui/handlers.go` and `tui/helpers.go`.

* Go strings are byte sequences (`GoString`); `len` is the list length and
  `s[i:j]` is a slice of bytes.  Rune-level library functions decode UTF-8 the
  way the Go runtime does (an ill-formed byte decodes to U+FFFD, width 1).
* `float64` is a type parameter `F` with the arithmetic the code uses; what the
  library does with it (`strconv.ParseFloat`, `%.2f`, `json.Marshal`) comes in
  through `Lib`.  `Float64` is binary64 itself, with rounding to nearest,
  overflow, the infinities, NaN and the two zeros, for the places where exact
  arithmetic and `float64` differ.
* Files, clock, network and the iteration order of Go maps are fields of `World`.
  The clock does not advance within one call; a budget file is known by its name
  without `.json`; `os.ReadDir` and `os.UserHomeDir` succeed; what is stored is
  what `json.Unmarshal` gives back from what `json.Marshal` wrote.  A call of
  `os.WriteFile` that fails either leaves the file untouched (the open fails) or
  leaves it cut short (the write fails after the open), see `World.writeTruncates`.
* A closure kept in the model is the constructor of the place that builds it,
  with the values it captures (`Action`, `Continuation`).
* A Go panic (index or slice out of range) is the result `none`.
* `World.requests` and `World.actionsRun` are history variables: they record the
  requests made and count the confirmation actions run, and no code reads them.
-/

set_option autoImplicit false

namespace golib

/-- A byte, Go `uint8`. -/
abbrev Byte := Fin 256

/-- A Go `string`: an immutable sequence of bytes. -/
abbrev GoString := List Byte

/-- The replacement rune `utf8.RuneError` (U+FFFD). -/
def RuneError : Nat := 0xFFFD

/-- Encode one rune as `utf8.AppendRune` does: surrogates and values above
U+10FFFF are written as U+FFFD. -/
def encodeRune (r : Nat) : GoString :=
  if r ≤ 0x7F then [Fin.ofNat r]
  else if r ≤ 0x7FF then [Fin.ofNat (0xC0 + r / 64), Fin.ofNat (0x80 + r % 64)]
  else if 0x10FFFF < r ∨ (0xD800 ≤ r ∧ r ≤ 0xDFFF) then [0xEF, 0xBF, 0xBD]
  else if r ≤ 0xFFFF then
    [Fin.ofNat (0xE0 + r / 4096), Fin.ofNat (0x80 + r / 64 % 64), Fin.ofNat (0x80 + r % 64)]
  else
    [Fin.ofNat (0xF0 + r / 262144), Fin.ofNat (0x80 + r / 4096 % 64),
     Fin.ofNat (0x80 + r / 64 % 64), Fin.ofNat (0x80 + r % 64)]

/-- A string constant of the source, as its UTF-8 bytes. -/
def str (s : String) : GoString := s.toList.flatMap (fun c => encodeRune c.toNat)

/-- Continuation byte test (`locb <= b <= hicb`). -/
def isCont (b : Byte) : Bool := 0x80 ≤ b.val && b.val ≤ 0xBF

/-- Lower bound of the second byte after the first byte `b0` (`acceptRanges`). -/
def acceptLo (b0 : Nat) : Nat := if b0 = 0xE0 then 0xA0 else if b0 = 0xF0 then 0x90 else 0x80

/-- Upper bound of the second byte after the first byte `b0` (`acceptRanges`). -/
def acceptHi (b0 : Nat) : Nat := if b0 = 0xED then 0x9F else if b0 = 0xF4 then 0x8F else 0xBF

/-- Decode the first rune as `utf8.DecodeRuneInString` does: the rune and its
width in bytes; `(RuneError, 1)` on an ill-formed sequence, `(RuneError, 0)` on
the empty string. -/
def decodeRune : GoString → Nat × Nat
  | [] => (RuneError, 0)
  | s0 :: rest =>
    let b0 := s0.val
    if b0 < 0x80 then (b0, 1)
    else if b0 < 0xC2 ∨ 0xF4 < b0 then (RuneError, 1)
    else
      match rest with
      | [] => (RuneError, 1)
      | s1 :: rest1 =>
        let b1 := s1.val
        if b1 < acceptLo b0 ∨ acceptHi b0 < b1 then (RuneError, 1)
        else if b0 < 0xE0 then (b0 % 32 * 64 + b1 % 64, 2)
        else
          match rest1 with
          | [] => (RuneError, 1)
          | s2 :: rest2 =>
            let b2 := s2.val
            if !isCont s2 then (RuneError, 1)
            else if b0 < 0xF0 then (b0 % 16 * 4096 + b1 % 64 * 64 + b2 % 64, 3)
            else
              match rest2 with
              | [] => (RuneError, 1)
              | s3 :: _ =>
                if !isCont s3 then (RuneError, 1)
                else (b0 % 8 * 262144 + b1 % 64 * 4096 + b2 % 64 * 64 + s3.val % 64, 4)

/-- The runes of a string with the bytes each one was decoded from, in the
order of `for _, r := range s`; the first argument bounds the number of runes. -/
def runeItemsAux : Nat → GoString → List (Nat × GoString)
  | 0, _ => []
  | _, [] => []
  | fuel + 1, s =>
    let d := decodeRune s
    (d.1, s.take d.2) :: runeItemsAux fuel (s.drop d.2)

/-- The runes of a string, each with its bytes. -/
def runeItems (s : GoString) : List (Nat × GoString) := runeItemsAux s.length s

/-- The runes that `for _, r := range s` yields. -/
def runes (s : GoString) : List Nat := (runeItems s).map Prod.fst

/-- Unicode white space, `unicode.IsSpace`. -/
def isSpace (r : Nat) : Bool :=
  r = 0x09 || r = 0x0A || r = 0x0B || r = 0x0C || r = 0x0D || r = 0x20 || r = 0x85 || r = 0xA0
    || r = 0x1680 || (0x2000 ≤ r && r ≤ 0x200A) || r = 0x2028 || r = 0x2029 || r = 0x202F
    || r = 0x205F || r = 0x3000

/-- Concatenate the bytes of a run of decoded runes. -/
def itemBytes (xs : List (Nat × GoString)) : GoString := xs.flatMap Prod.snd

/-- Go `strings.TrimSpace`: drop leading and trailing white-space runes. -/
def TrimSpace (s : GoString) : GoString :=
  let sp := fun (x : Nat × GoString) => isSpace x.1
  itemBytes (((runeItems s).dropWhile sp).reverse.dropWhile sp).reverse

/-- Worker of `Fields`: `cur` is the field being read, in reverse. -/
def fieldsAux : List (Nat × GoString) → List (Nat × GoString) → List GoString
  | [], [] => []
  | [], cur => [itemBytes cur.reverse]
  | x :: xs, cur =>
    if isSpace x.1 then
      (if cur.isEmpty then [] else [itemBytes cur.reverse]) ++ fieldsAux xs []
    else fieldsAux xs (x :: cur)

/-- Go `strings.Fields`: the maximal runs of runes that are not white space. -/
def Fields (s : GoString) : List GoString := fieldsAux (runeItems s) []

/-- Worker of `Split`: `cur` is the piece being read, in reverse. -/
def splitAux (sep : Byte) : GoString → GoString → List GoString
  | [], cur => [cur.reverse]
  | b :: bs, cur => if b = sep then cur.reverse :: splitAux sep bs [] else splitAux sep bs (b :: cur)

/-- Go `strings.Split(s, sep)` for a separator of one ASCII byte. -/
def Split (s : GoString) (sep : Byte) : List GoString := splitAux sep s []

/-- Go `strings.Join`. -/
def Join : List GoString → GoString → GoString
  | [], _ => []
  | [a], _ => a
  | a :: b :: rest, sep => a ++ sep ++ Join (b :: rest) sep

/-- Go `unicode.ToUpper`; `tbl` is the case table of package `unicode` for the
runes above U+007F. -/
def unicodeToUpper (tbl : Nat → Nat) (r : Nat) : Nat :=
  if r ≤ 0x7F then (if 0x61 ≤ r ∧ r ≤ 0x7A then r - 32 else r) else tbl r

/-- Go `strings.ToUpper`, that is `strings.Map(unicode.ToUpper, s)`. -/
def ToUpper (tbl : Nat → Nat) (s : GoString) : GoString :=
  (runes s).flatMap (fun r => encodeRune (unicodeToUpper tbl r))

/-- Value of a run of ASCII digits, most significant first; `none` when a byte
is not a digit. -/
def digitsValue : GoString → Nat → Option Nat
  | [], acc => some acc
  | b :: bs, acc =>
    if 0x30 ≤ b.val ∧ b.val ≤ 0x39 then digitsValue bs (acc * 10 + (b.val - 0x30)) else none

/-- Go `strconv.Atoi` on a 64-bit platform: an optional sign and at least one
decimal digit, the value within `int`; `none` is a non-nil error. -/
def Atoi (s : GoString) : Option Int :=
  match s with
  | [] => none
  | b :: bs =>
    let neg := b = 0x2D
    let ds := if b = 0x2D ∨ b = 0x2B then bs else s
    if ds.isEmpty then none
    else
      match digitsValue ds 0 with
      | none => none
      | some n =>
        if neg then (if n ≤ 2 ^ 63 then some (-(n : Int)) else none)
        else (if n < 2 ^ 63 then some (n : Int) else none)

/-- Decimal digits of a natural number, as `%d` prints them. -/
def natDigits (n : Nat) : GoString := (Nat.toDigits 10 n).map (fun c => Fin.ofNat c.toNat)

/-- The verb `%d` of `fmt` for an `int`. -/
def fmtInt (i : Int) : GoString :=
  if i < 0 then 0x2D :: natDigits i.natAbs else natDigits i.natAbs

/-- Go `strings.HasPrefix`. -/
def startsWith (s p : GoString) : Bool := p.isPrefixOf s

/-- Equality of results `(value, error)` is decidable. -/
instance decEqExcept {ε α : Type} [DecidableEq ε] [DecidableEq α] : DecidableEq (Except ε α)
  | Except.ok a, Except.ok b =>
    if h : a = b then isTrue (by rw [h]) else isFalse (fun e => h (by injection e))
  | Except.error a, Except.error b =>
    if h : a = b then isTrue (by rw [h]) else isFalse (fun e => h (by injection e))
  | Except.ok _, Except.error _ => isFalse (fun e => by injection e)
  | Except.error _, Except.ok _ => isFalse (fun e => by injection e)

/-! The type `float64` (IEEE 754 binary64) and the library functions on it. -/

/-- A Go `float64` (IEEE 754 binary64): a finite value given by its sign bit and
its magnitude, which keeps the two zeros apart, an infinity, or NaN. -/
inductive Float64 where
  | finite (negative : Bool) (magnitude : ℚ)
  | inf (negative : Bool)
  | nan
  deriving DecidableEq

/-- The power `2 ^ e` for an integer exponent. -/
def pow2 (e : Int) : ℚ := if 0 ≤ e then 2 ^ e.toNat else 1 / 2 ^ (-e).toNat

/-- The exponent `k` with `2 ^ k ≤ n < 2 ^ (k + 1)` of a positive `n`, by
halving; the first argument bounds the number of halvings. -/
def log2Fuel : Nat → Nat → Nat
  | 0, _ => 0
  | fuel + 1, n => if n < 2 then 0 else log2Fuel fuel (n / 2) + 1

/-- The exponent `e` with `2 ^ e ≤ a < 2 ^ (e + 1)`, for a positive `a`. -/
def floorLog2 (a : ℚ) : Int :=
  let d : Int := (log2Fuel a.num.natAbs a.num.natAbs : Int) - (log2Fuel a.den a.den : Int)
  if pow2 d ≤ a then d else d - 1

/-- Round to the nearest integer, a tie to the even one. -/
def roundHalfEven (t : ℚ) : Int :=
  let n := ⌊t⌋
  if t - n > 1 / 2 ∨ (t - n = 1 / 2 ∧ n % 2 = 1) then n + 1 else n

/-- Round a magnitude to binary64, to nearest, ties to even: 53 significant
bits, the exponent at least -1022 (below it the values are subnormal);
`none` is an overflow, a result of `2 ^ 1024` or more. -/
def roundMagnitude (a : ℚ) : Option ℚ :=
  if a = 0 then some 0
  else
    let e := max (floorLog2 a) (-1022)
    let ulp := pow2 (e - 52)
    let r := (roundHalfEven (a / ulp) : ℚ) * ulp
    if r < pow2 1024 then some r else none

/-- The `float64` nearest to a magnitude, with the sign bit given. -/
def Float64.round (negative : Bool) (a : ℚ) : Float64 :=
  match roundMagnitude a with
  | some r => Float64.finite negative r
  | none => Float64.inf negative

/-- The exact value of a finite `float64`. -/
def signed (negative : Bool) (a : ℚ) : ℚ := if negative then -a else a

/-- Go `*` on `float64`. -/
def Float64.mul : Float64 → Float64 → Float64
  | Float64.nan, _ => Float64.nan
  | _, Float64.nan => Float64.nan
  | Float64.inf s, Float64.inf t => Float64.inf (xor s t)
  | Float64.inf s, Float64.finite t b => if b = 0 then Float64.nan else Float64.inf (xor s t)
  | Float64.finite s a, Float64.inf t => if a = 0 then Float64.nan else Float64.inf (xor s t)
  | Float64.finite s a, Float64.finite t b => Float64.round (xor s t) (a * b)

/-- Go `/` on `float64`. -/
def Float64.div : Float64 → Float64 → Float64
  | Float64.nan, _ => Float64.nan
  | _, Float64.nan => Float64.nan
  | Float64.inf _, Float64.inf _ => Float64.nan
  | Float64.inf s, Float64.finite t _ => Float64.inf (xor s t)
  | Float64.finite s _, Float64.inf t => Float64.finite (xor s t) 0
  | Float64.finite s a, Float64.finite t b =>
    if b = 0 then (if a = 0 then Float64.nan else Float64.inf (xor s t))
    else Float64.round (xor s t) (a / b)

/-- Go `+` on `float64`: an exact sum of zero is `+0`, unless both terms are `-0`. -/
def Float64.add : Float64 → Float64 → Float64
  | Float64.nan, _ => Float64.nan
  | _, Float64.nan => Float64.nan
  | Float64.inf s, Float64.inf t => if s = t then Float64.inf s else Float64.nan
  | Float64.inf s, Float64.finite _ _ => Float64.inf s
  | Float64.finite _ _, Float64.inf t => Float64.inf t
  | Float64.finite s a, Float64.finite t b =>
    let x := signed s a + signed t b
    if x = 0 then Float64.finite (s && t) 0 else Float64.round (decide (x < 0)) |x|

instance : Mul Float64 := ⟨Float64.mul⟩
instance : Div Float64 := ⟨Float64.div⟩
instance : Add Float64 := ⟨Float64.add⟩
instance : Zero Float64 := ⟨Float64.finite false 0⟩


/-- The verb `%.2f` of `fmt` on a `float64`. -/
def Float64.format2 : Float64 → GoString
  | Float64.nan => str "NaN"
  | Float64.inf s => if s then str "-Inf" else str "+Inf"
  | Float64.finite s a =>
    let n := (roundHalfEven (a * 100)).toNat
    (if s then str "-" else []) ++ natDigits (n / 100) ++ str "."
      ++ natDigits (n % 100 / 10) ++ natDigits (n % 10)

/-- The error of `json.Marshal` on a `float64`: NaN and the infinities have no
JSON text. -/
def Float64.jsonErr : Float64 → Option GoString
  | Float64.nan => some (str "json: unsupported value: NaN")
  | Float64.inf s =>
    some (str "json: unsupported value: " ++ (if s then str "-Inf" else str "+Inf"))
  | Float64.finite _ _ => none

/-- The leading decimal digits of a text: their value, their number, the rest. -/
def takeDigits : GoString → Nat → Nat → Nat × Nat × GoString
  | [], acc, n => (acc, n, [])
  | b :: bs, acc, n =>
    if 0x30 ≤ b.val ∧ b.val ≤ 0x39 then takeDigits bs (acc * 10 + (b.val - 0x30)) (n + 1)
    else (acc, n, b :: bs)

/-- A text without its sign, and whether the sign was `-`. -/
def takeSign (s : GoString) : Bool × GoString :=
  match s with
  | [] => (false, [])
  | b :: bs => if b = 0x2D then (true, bs) else if b = 0x2B then (false, bs) else (false, s)

/-- The value of a decimal text `digits[.digits][e[+-]digits]` with a digit
before the exponent, as Go reads a decimal floating-point literal. -/
def decimalValue (s : GoString) : Option ℚ :=
  let ip := takeDigits s 0 0
  let fp := match ip.2.2 with
    | [] => (0, 0, [])
    | b :: bs => if b = 0x2E then takeDigits bs 0 0 else (0, 0, b :: bs)
  if ip.2.1 + fp.2.1 = 0 then none
  else
    let mant : ℚ := (ip.1 : ℚ) + (fp.1 : ℚ) / 10 ^ fp.2.1
    match fp.2.2 with
    | [] => some mant
    | b :: bs =>
      if b = 0x65 ∨ b = 0x45 then
        let es := takeSign bs
        let ev := takeDigits es.2 0 0
        if ev.2.1 = 0 ∨ ev.2.2 ≠ [] then none
        else some (if es.1 then mant / 10 ^ ev.1 else mant * 10 ^ ev.1)
      else none

/-- ASCII letters in lower case. -/
def asciiLower (s : GoString) : GoString :=
  s.map (fun b => if 0x41 ≤ b.val ∧ b.val ≤ 0x5A then b + 0x20 else b)

/-- Go `strconv.ParseFloat(s, 64)` on the decimal texts and on the texts `NaN`,
`Inf` and `Infinity`: the nearest `float64`; a value out of range is an error. -/
def parseFloat64 (s : GoString) : Option Float64 :=
  if asciiLower s = str "nan" then some Float64.nan
  else
    let t := takeSign s
    if asciiLower t.2 = str "inf" ∨ asciiLower t.2 = str "infinity" then some (Float64.inf t.1)
    else
      match decimalValue t.2 with
      | none => none
      | some q =>
        match roundMagnitude q with
        | none => none
        | some r => some (Float64.finite t.1 r)

end golib

open golib

namespace data

/-- What the Go library does with a `float64` and with runes above U+007F. -/
structure Lib (F : Type) where
  /-- Upper-case table of package `unicode` for the runes above U+007F. -/
  upperTable : Nat → Nat
  /-- Go `strconv.ParseFloat(s, 64)`; `none` is a non-nil error. -/
  parseFloat : GoString → Option F
  /-- The verb `%.2f` of `fmt`. -/
  formatFloat2 : F → GoString
  /-- The error of `json.Marshal` on a NaN or an infinity; `none` on a finite value. -/
  jsonErr : F → Option GoString

/-- Go `type Wallet struct`. -/
structure Wallet (F : Type) where
  Name : GoString
  Owner : GoString
  Type_ : GoString
  Currency : GoString
  Balance : F
  deriving DecidableEq

/-- Go `type BudgetData struct`, the old file format. -/
structure BudgetData (F : Type) where
  Wallets : List (Wallet F)
  DefaultCurrency : GoString
  deriving DecidableEq

/-- Go `type BudgetFile struct`; a `time.Time` is an instant in nanoseconds. -/
structure BudgetFile (F : Type) where
  Name : GoString
  CreatedAt : Int
  UpdatedAt : Int
  Wallets : List (Wallet F)
  DefaultCurrency : GoString
  deriving DecidableEq

/-- A Go `map[string]float64`, as the list of its entries. -/
abbrev Rates (F : Type) := List (GoString × F)

/-- Go `type ExchangeRateCache struct`. -/
structure ExchangeRateCache (F : Type) where
  Rates : Rates F
  Base : GoString
  Timestamp : Int
  TTL : Int
  deriving DecidableEq

/-- What `~/.budget/files/<name>.json` holds. -/
inductive FileContent (F : Type) where
  /-- It unmarshals as a `BudgetFile`. -/
  | budgetFile (bf : BudgetFile F)
  /-- It unmarshals as a `BudgetData` only. -/
  | budgetData (bd : BudgetData F)
  /-- The call `os.ReadFile` fails with this error. -/
  | unreadable (err : GoString)
  /-- It unmarshals as neither; the error is the one of the second attempt. -/
  | unparsable (err : GoString)
  deriving DecidableEq

/-- What `~/.budget/exchange_cache.json` holds. -/
inductive CacheFile (F : Type) where
  | absent
  | stored (c : ExchangeRateCache F)
  /-- Reading or unmarshalling fails with this error. -/
  | broken (err : GoString)
  deriving DecidableEq

/-- Outcome of an `http.Get` followed by the decoding of the body. -/
inductive HttpReply (F : Type) where
  /-- The call `http.Get` returns this error. -/
  | failed (err : GoString)
  /-- A response with this status, whose body decodes to `body`. -/
  | response (status : Int) (body : Except GoString (Rates F))

/-- Everything outside the process: the budget directory, the cache file, the
clock, the disk and the network, and the order in which `range` visits a map. -/
structure World (F : Type) where
  /-- The files `<name>.json` of the budget directory, by name, in directory order. -/
  files : List (GoString × FileContent F)
  cacheFile : CacheFile F
  /-- The call `time.Now()`, in nanoseconds since the epoch. -/
  now : Int
  /-- Error of `os.MkdirAll`, if it fails. -/
  mkdirErr : Option GoString
  /-- Error of `os.WriteFile`, if it fails. -/
  writeErr : Option GoString
  /-- Where a failing `os.WriteFile` fails. The call opens the file with
  `O_WRONLY|O_CREATE|O_TRUNC` and then writes: with `true` the failure comes
  after the open (a full disk), so the file exists and holds only a part of
  the data, possibly none; with `false` the open itself fails and the file is
  untouched. -/
  writeTruncates : Bool
  /-- Error of `os.Remove`, if it fails. -/
  removeErr : Option GoString
  /-- The answer of the network to a request. -/
  httpGet : GoString → HttpReply F
  /-- The URLs requested so far, oldest first. -/
  requests : List GoString
  /-- How many staged confirmation actions have been run so far. -/
  actionsRun : Nat
  /-- The order in which `range` yields the keys of a map. -/
  rangeOrder : List GoString → List GoString

variable {F : Type}

/-- Go `encoding/json` on a string: an ill-formed byte is written as U+FFFD. -/
def jsonString (s : GoString) : GoString := (runes s).flatMap encodeRune

/-- A wallet after `json.Marshal` and `json.Unmarshal`. -/
def jsonWallet (x : Wallet F) : Wallet F :=
  { Name := jsonString x.Name, Owner := jsonString x.Owner, Type_ := jsonString x.Type_,
    Currency := jsonString x.Currency, Balance := x.Balance }

/-- A budget file after `json.Marshal` and `json.Unmarshal`. -/
def jsonBudgetFile (b : BudgetFile F) : BudgetFile F :=
  { Name := jsonString b.Name, CreatedAt := b.CreatedAt, UpdatedAt := b.UpdatedAt,
    Wallets := b.Wallets.map jsonWallet, DefaultCurrency := jsonString b.DefaultCurrency }

/-- The error of `json.Marshal` on a budget file: the one of the first balance
that is not finite. -/
def marshalErr (L : Lib F) (b : BudgetFile F) : Option GoString :=
  b.Wallets.findSome? (fun x => L.jsonErr x.Balance)

/-- The file of this name, if it exists. -/
def lookupFile (w : World F) (name : GoString) : Option (FileContent F) :=
  w.files.lookup name

/-- Replace the content of a file, or create the file. -/
def writeFile (fs : List (GoString × FileContent F)) (name : GoString) (c : FileContent F) :
    List (GoString × FileContent F) :=
  if (fs.lookup name).isSome then fs.map (fun e => if e.1 = name then (e.1, c) else e)
  else fs ++ [(name, c)]

/-- The error of `json.Unmarshal` on a file that was cut short: a proper prefix
of the JSON text of an object is never a JSON text. -/
def truncatedErr : GoString := str "unexpected end of JSON input"

/-- What a failed `os.WriteFile` leaves of the budget file `name`. -/
def failedWrite (w : World F) (name : GoString) : World F :=
  if w.writeTruncates then
    { w with files := writeFile w.files name (FileContent.unparsable truncatedErr) }
  else w

/-- Go `SaveBudgetFile`: stamp the update time and overwrite the whole file. -/
def SaveBudgetFile (L : Lib F) (w : World F) (budgetFile : BudgetFile F) :
    World F × Option GoString :=
  match w.mkdirErr with
  | some e => (w, some (str "failed to create budgets directory: " ++ e))
  | none =>
    let budgetFile := { budgetFile with UpdatedAt := w.now }
    match marshalErr L budgetFile with
    | some e => (w, some (str "failed to marshal budget file: " ++ e))
    | none =>
      match w.writeErr with
      | some e =>
        (failedWrite w budgetFile.Name,
          some (str "failed to write budget file \x27" ++ budgetFile.Name ++ str "\x27: " ++ e))
      | none =>
        ({ w with files := writeFile w.files budgetFile.Name
                    (FileContent.budgetFile (jsonBudgetFile budgetFile)) }, none)

/-- The old-format branch of `LoadBudgetFile`: convert, save in the new format. -/
def convertOldFormat (L : Lib F) (w : World F) (filename : GoString) (oldData : BudgetData F) :
    World F × Except GoString (BudgetFile F) :=
  let dc := match oldData.Wallets with
    | [] => oldData.DefaultCurrency
    | x :: _ => if oldData.DefaultCurrency = [] then x.Currency else oldData.DefaultCurrency
  let newBudgetFile : BudgetFile F :=
    { Name := filename, CreatedAt := w.now, UpdatedAt := w.now, Wallets := oldData.Wallets,
      DefaultCurrency := dc }
  ((SaveBudgetFile L w newBudgetFile).1, Except.ok newBudgetFile)

/-- Go `LoadBudgetFile`. -/
def LoadBudgetFile (L : Lib F) (w : World F) (filename : GoString) :
    World F × Except GoString (BudgetFile F) :=
  match lookupFile w filename with
  | none => (w, Except.error (str "budget file \x27" ++ filename ++ str "\x27 does not exist"))
  | some (FileContent.unreadable e) =>
    (w, Except.error (str "failed to read budget file \x27" ++ filename ++ str "\x27: " ++ e))
  | some (FileContent.budgetFile bf) =>
    if bf.Name ≠ [] then (w, Except.ok bf)
    else convertOldFormat L w filename { Wallets := bf.Wallets, DefaultCurrency := bf.DefaultCurrency }
  | some (FileContent.budgetData bd) => convertOldFormat L w filename bd
  | some (FileContent.unparsable e) =>
    (w, Except.error (str "failed to parse budget file \x27" ++ filename
      ++ str "\x27 in any known format: " ++ e))

/-- Go `sort.Slice` by `UpdatedAt`, most recent first (files updated at the same
instant keep their directory order here). -/
def sortByUpdatedAt (l : List (BudgetFile F)) : List (BudgetFile F) :=
  l.insertionSort (fun a b => b.UpdatedAt ≤ a.UpdatedAt)

/-- The loop of `ListBudgetFiles`: load every file, skip those that fail. -/
def loadAll (L : Lib F) : World F → List GoString → World F × List (BudgetFile F)
  | w, [] => (w, [])
  | w, filename :: rest =>
    match LoadBudgetFile L w filename with
    | (w1, Except.error _) => loadAll L w1 rest
    | (w1, Except.ok budgetFile) =>
      let r := loadAll L w1 rest
      (r.1, budgetFile :: r.2)

/-- Go `ListBudgetFiles`. -/
def ListBudgetFiles (L : Lib F) (w : World F) : World F × Except GoString (List (BudgetFile F)) :=
  match w.mkdirErr with
  | some e => (w, Except.error (str "failed to create budgets directory: " ++ e))
  | none =>
    let r := loadAll L w (w.files.map Prod.fst)
    (r.1, Except.ok (sortByUpdatedAt r.2))

/-- Go `CreateBudgetFile`. -/
def CreateBudgetFile (w : World F) (filename : GoString) : World F × Option GoString :=
  match w.mkdirErr with
  | some e => (w, some (str "failed to create budgets directory: " ++ e))
  | none =>
    if (lookupFile w filename).isSome then
      (w, some (str "budget file \x27" ++ filename ++ str "\x27 already exists"))
    else
      let budgetFile : BudgetFile F :=
        { Name := filename, CreatedAt := w.now, UpdatedAt := w.now, Wallets := [],
          DefaultCurrency := str "USD" }
      match w.writeErr with
      | some e =>
        (failedWrite w filename,
          some (str "failed to write budget file \x27" ++ filename ++ str "\x27: " ++ e))
      | none =>
        ({ w with files := writeFile w.files filename
                    (FileContent.budgetFile (jsonBudgetFile budgetFile)) }, none)

/-- Go `normalizeCurrency`. -/
def normalizeCurrency (L : Lib F) (currency : GoString) : Except GoString GoString :=
  let normalized := ToUpper L.upperTable (TrimSpace currency)
  if normalized.length ≠ 3 then
    Except.error (str "currency code must be exactly 3 characters, got \x27" ++ currency ++ str "\x27")
  else if (runes normalized).any (fun char => char < 0x41 || char > 0x5A) then
    Except.error (str "currency code must contain only letters, got \x27" ++ currency ++ str "\x27")
  else Except.ok normalized

/-- Go `CreateWallet`. -/
def CreateWallet (L : Lib F) (w : World F) (filename name owner walletType currency : GoString)
    (balance : F) : World F × Option GoString :=
  match LoadBudgetFile L w filename with
  | (w1, Except.error err) => (w1, some err)
  | (w1, Except.ok data) =>
    if data.Wallets.any (fun wallet => wallet.Name = name) then
      (w1, some (str "wallet with name \x27" ++ name ++ str "\x27 already exists"))
    else
      match normalizeCurrency L currency with
      | Except.error validationErr => (w1, some (str "invalid currency: " ++ validationErr))
      | Except.ok currency =>
        let newWallet : Wallet F :=
          { Name := name, Owner := owner, Type_ := walletType, Currency := currency,
            Balance := balance }
        SaveBudgetFile L w1 { data with Wallets := data.Wallets ++ [newWallet] }

/-- The message of an index that is out of range, in package `data`. -/
def walletIndexErr (index : Int) (n : Nat) : GoString :=
  str "wallet index " ++ fmtInt index ++ str " is out of range (0-" ++ fmtInt ((n : Int) - 1)
    ++ str ")"

/-- Go `AdjustWalletByIndex`. -/
def AdjustWalletByIndex [Add F] (L : Lib F) (w : World F) (filename : GoString) (index : Int)
    (amount : F) : World F × Option GoString :=
  match LoadBudgetFile L w filename with
  | (w1, Except.error err) => (w1, some err)
  | (w1, Except.ok data) =>
    if index < 0 ∨ index ≥ data.Wallets.length then
      (w1, some (walletIndexErr index data.Wallets.length))
    else
      SaveBudgetFile L w1 { data with
        Wallets := data.Wallets.modify (fun x => { x with Balance := x.Balance + amount })
          index.toNat }

/-- Go `SetWalletBalanceByIndex`. -/
def SetWalletBalanceByIndex (L : Lib F) (w : World F) (filename : GoString) (index : Int)
    (balance : F) : World F × Option GoString :=
  match LoadBudgetFile L w filename with
  | (w1, Except.error err) => (w1, some err)
  | (w1, Except.ok data) =>
    if index < 0 ∨ index ≥ data.Wallets.length then
      (w1, some (walletIndexErr index data.Wallets.length))
    else
      SaveBudgetFile L w1 { data with
        Wallets := data.Wallets.modify (fun x => { x with Balance := balance }) index.toNat }

/-- Go `DeleteWalletByIndex`. -/
def DeleteWalletByIndex (L : Lib F) (w : World F) (filename : GoString) (index : Int) :
    World F × Option GoString :=
  match LoadBudgetFile L w filename with
  | (w1, Except.error err) => (w1, some err)
  | (w1, Except.ok data) =>
    if index < 0 ∨ index ≥ data.Wallets.length then
      (w1, some (walletIndexErr index data.Wallets.length))
    else
      SaveBudgetFile L w1 { data with Wallets := data.Wallets.eraseIdx index.toNat }

/-- Go `DeleteBudgetFile`. -/
def DeleteBudgetFile (w : World F) (filename : GoString) : World F × Option GoString :=
  if (lookupFile w filename).isNone then
    (w, some (str "budget file \x27" ++ filename ++ str "\x27 does not exist"))
  else
    match w.removeErr with
    | some e =>
      (w, some (str "failed to delete budget file \x27" ++ filename ++ str "\x27: " ++ e))
    | none => ({ w with files := w.files.filter (fun e => e.1 ≠ filename) }, none)

end data

namespace data

variable {F : Type}

/-- The result of an arithmetic operation on `int64`: the value modulo 2^64, in
the signed range. -/
def wrapInt64 (z : Int) : Int := (z + 2 ^ 63) % 2 ^ 64 - 2 ^ 63

/-- The call `time.Now().Unix()`: whole seconds since the epoch. -/
def unixNow (w : World F) : Int := w.now / 1000000000

/-- One `http.Get`: the request is recorded, the world answers. -/
def httpGet (w : World F) (url : GoString) : World F × HttpReply F :=
  ({ w with requests := w.requests ++ [url] }, w.httpGet url)

/-- Go `fetchFromFrankfurter`, up to the field `Rates` of the response. -/
def fetchFromFrankfurter (w : World F) (baseCurrency : GoString) :
    World F × Except GoString (Rates F) :=
  let url := str "https://api.frankfurter.dev/v1/latest?base=" ++ baseCurrency
  match httpGet w url with
  | (w1, HttpReply.failed err) =>
    (w1, Except.error (str "failed to fetch from Frankfurter: " ++ err))
  | (w1, HttpReply.response status body) =>
    if status ≠ 200 then
      (w1, Except.error (str "Frankfurter API returned status " ++ fmtInt status))
    else
      match body with
      | Except.error err =>
        (w1, Except.error (str "failed to decode Frankfurter response: " ++ err))
      | Except.ok rates => (w1, Except.ok rates)

/-- Go `fetchFromOpenER`, up to the field `Rates` of the response. -/
def fetchFromOpenER (w : World F) (baseCurrency : GoString) :
    World F × Except GoString (Rates F) :=
  let url := str "https://open.er-api.com/v6/latest/" ++ baseCurrency
  match httpGet w url with
  | (w1, HttpReply.failed err) =>
    (w1, Except.error (str "failed to fetch from Open ER: " ++ err))
  | (w1, HttpReply.response status body) =>
    if status ≠ 200 then
      (w1, Except.error (str "Open ER API returned status " ++ fmtInt status))
    else
      match body with
      | Except.error err =>
        (w1, Except.error (str "failed to decode Open ER response: " ++ err))
      | Except.ok rates => (w1, Except.ok rates)

/-- Go `fetchExchangeRates`. -/
def fetchExchangeRates (L : Lib F) (w : World F) (baseCurrency : GoString) :
    World F × Except GoString (Rates F) :=
  match normalizeCurrency L baseCurrency with
  | Except.error err => (w, Except.error err)
  | Except.ok baseCurrency =>
    match fetchFromFrankfurter w baseCurrency with
    | (w1, Except.ok rates) => (w1, Except.ok rates)
    | (w1, Except.error _) =>
      match fetchFromOpenER w1 baseCurrency with
      | (w2, Except.ok rates) => (w2, Except.ok rates)
      | (w2, Except.error err) => (w2, Except.error (str "both APIs failed: " ++ err))

/-- Go `loadCache`: `ok none` is the pair `(nil, nil)` of a missing file. -/
def loadCache (w : World F) : Except GoString (Option (ExchangeRateCache F)) :=
  match w.cacheFile with
  | CacheFile.absent => Except.ok none
  | CacheFile.broken err => Except.error err
  | CacheFile.stored cache => Except.ok (some cache)

/-- A cache record after `json.Marshal` and `json.Unmarshal`. -/
def jsonCache (c : ExchangeRateCache F) : ExchangeRateCache F :=
  { c with Rates := c.Rates.map (fun e => (jsonString e.1, e.2)), Base := jsonString c.Base }

/-- Go `saveCache`. -/
def saveCache (L : Lib F) (w : World F) (cache : ExchangeRateCache F) : World F × Option GoString :=
  match w.mkdirErr with
  | some e => (w, some e)
  | none =>
    match cache.Rates.findSome? (fun e => L.jsonErr e.2) with
    | some e => (w, some e)
    | none =>
      match w.writeErr with
      | some e =>
        (if w.writeTruncates then { w with cacheFile := CacheFile.broken truncatedErr } else w,
          some e)
      | none => ({ w with cacheFile := CacheFile.stored (jsonCache cache) }, none)

/-- Go `isCacheValid`. -/
def isCacheValid (w : World F) (cache : Option (ExchangeRateCache F)) : Bool :=
  match cache with
  | none => false
  | some cache =>
    let now := unixNow w
    decide (wrapInt64 (now - cache.Timestamp) < cache.TTL)

/-- The cache file answers a request for `baseCurrency`: it holds a record for
this base whose age `now - Timestamp`, computed on `int64`, is below its TTL. -/
def CacheHit (w : World F) (baseCurrency : GoString) : Prop :=
  ∃ c, w.cacheFile = CacheFile.stored c ∧ c.Base = baseCurrency
    ∧ wrapInt64 (unixNow w - c.Timestamp) < c.TTL

/-- The second half of `getExchangeRates`, after the cache check: fetch, store
the answer in the cache file (the error of `saveCache` is dropped), return it. -/
def fetchAndStore (L : Lib F) (w : World F) (baseCurrency : GoString) :
    World F × Except GoString (Rates F) :=
  match fetchExchangeRates L w baseCurrency with
  | (w1, Except.error err) => (w1, Except.error err)
  | (w1, Except.ok rates) =>
    let newCache : ExchangeRateCache F :=
      { Rates := rates, Base := baseCurrency, Timestamp := unixNow w1, TTL := 3600 }
    ((saveCache L w1 newCache).1, Except.ok rates)

/-- Go `getExchangeRates`. -/
def getExchangeRates (L : Lib F) (w : World F) (baseCurrency : GoString) :
    World F × Except GoString (Rates F) :=
  match loadCache w with
  | Except.ok (some cache) =>
    if cache.Base = baseCurrency ∧ isCacheValid w (some cache) = true then (w, Except.ok cache.Rates)
    else fetchAndStore L w baseCurrency
  | _ => fetchAndStore L w baseCurrency

/-- Go `ConvertCurrency`. -/
def ConvertCurrency [Mul F] [Div F] (L : Lib F) (w : World F) (amount : F)
    (fromCurrency toCurrency baseCurrency : GoString) : World F × Except GoString F :=
  match normalizeCurrency L fromCurrency with
  | Except.error err => (w, Except.error err)
  | Except.ok fromCurrency =>
    match normalizeCurrency L toCurrency with
    | Except.error err => (w, Except.error err)
    | Except.ok toCurrency =>
      match normalizeCurrency L baseCurrency with
      | Except.error err => (w, Except.error err)
      | Except.ok baseCurrency =>
        if fromCurrency = toCurrency then (w, Except.ok amount)
        else
          match getExchangeRates L w baseCurrency with
          | (w1, Except.error err) => (w1, Except.error err)
          | (w1, Except.ok rates) =>
            let toStep (baseAmount : F) : Except GoString F :=
              if toCurrency = baseCurrency then Except.ok baseAmount
              else
                match rates.lookup toCurrency with
                | none => Except.error (str "no exchange rate found for " ++ toCurrency)
                | some toRate => Except.ok (baseAmount * toRate)
            if fromCurrency = baseCurrency then (w1, toStep amount)
            else
              match rates.lookup fromCurrency with
              | none => (w1, Except.error (str "no exchange rate found for " ++ fromCurrency))
              | some fromRate => (w1, toStep (amount / fromRate))

/-- The conversion in the words of the specification (section 4.2), for codes
already normalized and a rate table `rates` for `base`: from `f` to the base by
dividing by `rates[f]` unless `f` is the base, from the base to `t` by
multiplying by `rates[t]` unless `t` is the base; `none` when a rate that is
needed is absent. -/
def specConvert [Mul F] [Div F] (rates : Rates F) (amount : F) (f t base : GoString) : Option F :=
  let baseAmount := if f = base then some amount else (rates.lookup f).map (fun r => amount / r)
  match baseAmount with
  | none => none
  | some x => if t = base then some x else (rates.lookup t).map (fun r => x * r)

end data

namespace tui

open data

variable {F : Type}

/-- Go `type screen int` with its five constants. -/
inductive screen where
  | greetingScreen
  | budgetCreationScreen
  | walletScreen
  | walletCreationScreen
  | confirmationScreen
  deriving DecidableEq, Repr

/-- The closures stored in `confirmationAction`, by the place that builds them,
with the values they capture.  The closure of `handleDeleteCommand` reads
`m.currentPath` through the captured pointer, whose target is not written again
after the command returns: `path` is the current path at staging time. -/
inductive Action where
  | deleteWallet (path : GoString) (idx : Int)
  | deleteBudget (name : GoString)
  deriving DecidableEq

/-- The closures stored in `onConfirm`, by the place that builds them. -/
inductive Continuation where
  | reloadWallets
  | refreshFiles
  deriving DecidableEq

/-- A `tea.Cmd` as the code returns it: `nil` or `tea.Quit`. -/
inductive Cmd where
  | none
  | quit
  deriving DecidableEq

/-- A `tea.Msg`; a key message is given by its `String()`. -/
inductive Msg where
  | windowSize (width height : Int)
  | key (s : GoString)
  | other

/-- Go `type model struct`. -/
structure model (F : Type) where
  currentScreen : screen
  greeting : GoString
  currentPath : GoString
  wallets : List (Wallet F)
  err : Option GoString
  width : Int
  height : Int
  commandInput : GoString
  commandResult : GoString
  cursorPos : Int
  hiddenIndexes : Finset Int
  filterOwner : GoString
  filterType : GoString
  filterCurrency : GoString
  displayCurrency : GoString
  availableFiles : List (BudgetFile F)
  selectedFileIndex : Int
  isNewFile : Bool
  creationStep : Int
  creationData : Wallet F
  creationInput : GoString
  creationCursorPos : Int
  creationPrefilled : Bool
  creationOptions : List GoString
  selectedOption : Int
  isCustomInput : Bool
  confirmationMessage : GoString
  confirmationAction : Option Action
  onConfirm : Option Continuation
  originScreen : screen

/-- Go `xs[i]`; `none` is the panic of an index out of range. -/
def index {α : Type} (xs : List α) (i : Int) : Option α :=
  if 0 ≤ i ∧ i < xs.length then xs[i.toNat]? else none

/-- Go `s[:i]`; `none` is the panic of a bound out of range. -/
def sliceTo (s : GoString) (i : Int) : Option GoString :=
  if 0 ≤ i ∧ i ≤ s.length then some (s.take i.toNat) else none

/-- Go `s[i:]`; `none` is the panic of a bound out of range. -/
def sliceFrom (s : GoString) (i : Int) : Option GoString :=
  if 0 ≤ i ∧ i ≤ s.length then some (s.drop i.toNat) else none

/-- Go `CleanSlates`. -/
def CleanSlates (m : model F) : model F :=
  { m with
    commandInput := [], cursorPos := 0,
    creationInput := [], creationCursorPos := 0, creationStep := 0, selectedOption := 0,
    isCustomInput := false,
    selectedFileIndex := 0, isNewFile := false,
    confirmationMessage := [], confirmationAction := none, onConfirm := none,
    originScreen := screen.greetingScreen,
    err := none }

/-- Go `loadWallets`; on an error the returned slice is `nil`. -/
def loadWallets (L : Lib F) (w : World F) (m : model F) :
    World F × List (Wallet F) × Option GoString :=
  if m.currentPath = [] then (w, [], none)
  else
    match LoadBudgetFile L w m.currentPath with
    | (w1, Except.error err) => (w1, [], some err)
    | (w1, Except.ok budgetFile) => (w1, budgetFile.Wallets, none)

/-- The statement `m.wallets, m.err = m.loadWallets()`. -/
def reloadWallets (L : Lib F) (w : World F) (m : model F) : World F × model F :=
  let r := loadWallets L w m
  (r.1, { m with wallets := r.2.1, err := r.2.2 })

/-- The message of an index that is out of range, in package `tui`. -/
def indexRangeMsg (idx : Int) (n : Nat) : GoString :=
  str "Index " ++ fmtInt idx ++ str " is out of range (0-" ++ fmtInt ((n : Int) - 1) ++ str ")"

/-- The loop of `handleHideCommand` over the remaining tokens; `hiddenCount`
counts the indexes hidden so far. -/
def hideLoop (m : model F) : List GoString → Int → model F × GoString
  | [], hiddenCount => (m, str "Hidden " ++ fmtInt hiddenCount ++ str " wallet(s)")
  | idxStr :: rest, hiddenCount =>
    let idxStr := TrimSpace idxStr
    match Atoi idxStr with
    | none => (m, str "Invalid index: " ++ idxStr)
    | some idx =>
      if idx < 0 ∨ idx ≥ m.wallets.length then (m, indexRangeMsg idx m.wallets.length)
      else hideLoop { m with hiddenIndexes := insert idx m.hiddenIndexes } rest (hiddenCount + 1)

/-- Go `handleHideCommand`. -/
def handleHideCommand (m : model F) (indexStr : GoString) : model F × GoString :=
  hideLoop m (Split indexStr 0x2C) 0

/-- Go `handleCurrencyCommand`. -/
def handleCurrencyCommand (L : Lib F) (m : model F) (currency : GoString) : model F × GoString :=
  let currency := ToUpper L.upperTable currency
  ({ m with displayCurrency := currency }, str "Display currency changed to " ++ currency)

/-- The zero value `Wallet{}`. -/
def emptyWallet [Zero F] : Wallet F :=
  { Name := [], Owner := [], Type_ := [], Currency := [], Balance := 0 }

/-- Go `handleNewWalletCommand`. -/
def handleNewWalletCommand [Zero F] (m : model F) : model F × GoString :=
  ({ m with
     creationStep := 0, creationData := emptyWallet, creationInput := [], creationCursorPos := 0,
     creationPrefilled := false, creationOptions := [], selectedOption := 0,
     isCustomInput := false, currentScreen := screen.walletCreationScreen }, [])

/-- Go `handleAdjustCommand`. -/
def handleAdjustCommand [Add F] (L : Lib F) (w : World F) (m : model F)
    (indexStr amountStr : GoString) : Option (World F × model F × GoString) :=
  match Atoi indexStr with
  | none => some (w, m, str "Invalid index: " ++ indexStr)
  | some idx =>
    if idx < 0 ∨ idx ≥ m.wallets.length then some (w, m, indexRangeMsg idx m.wallets.length)
    else
      let isSet := !(startsWith amountStr (str "+") || startsWith amountStr (str "-"))
      match L.parseFloat amountStr with
      | none => some (w, m, str "Invalid amount: " ++ amountStr)
      | some amount =>
        let r := if isSet then SetWalletBalanceByIndex L w m.currentPath idx amount
                 else AdjustWalletByIndex L w m.currentPath idx amount
        match r.2 with
        | some dataErr => some (r.1, m, str "Failed to adjust wallet: " ++ dataErr)
        | none =>
          let r2 := reloadWallets L r.1 m
          match r2.2.err with
          | some e => some (r2.1, r2.2, str "Wallet adjusted, but failed to reload: " ++ e)
          | none =>
            match index r2.2.wallets idx with
            | none => none
            | some x =>
              if isSet then
                some (r2.1, r2.2, str "Set " ++ x.Name ++ str " balance to " ++ L.formatFloat2 amount)
              else
                some (r2.1, r2.2, str "Adjusted " ++ x.Name ++ str " by " ++ L.formatFloat2 amount)

/-- Go `handleDeleteCommand`: nothing is deleted, a confirmation is staged.  The
range check and the two reads of `m.wallets[idx]` are one lookup here. -/
def handleDeleteCommand (m : model F) (indexStr : GoString) : model F × GoString :=
  match Atoi indexStr with
  | none => (m, str "Invalid index: " ++ indexStr)
  | some idx =>
    match index m.wallets idx with
    | none => (m, indexRangeMsg idx m.wallets.length)
    | some x =>
      ({ m with
         confirmationMessage := str "Are you sure you want to delete wallet \x27" ++ x.Name
           ++ str "\x27 (owned by " ++ x.Owner ++ str ")?",
         originScreen := screen.walletScreen,
         confirmationAction := some (Action.deleteWallet m.currentPath idx),
         onConfirm := some Continuation.reloadWallets,
         currentScreen := screen.confirmationScreen }, [])

/-- Go `HandleCommand`. -/
def HandleCommand [Zero F] [Add F] (L : Lib F) (w : World F) (m : model F) (cmd : GoString) :
    Option (World F × model F × GoString) :=
  match Fields cmd with
  | [] =>
    let r := reloadWallets L w m
    some (r.1, r.2, str "Display refreshed")
  | p0 :: args =>
    if p0 = str "help" then
      some (w, m, str "Available commands:\nadjust 0 +100 | delete 1 | hide 0,2\nnew | filter owner alice | currency USD")
    else if p0 = str "filter" then
      match args with
      | [] => some (w, m, str "Usage: filter owner <name> | filter type <type> | filter currency <code> | filter reset")
      | p1 :: rest =>
        if p1 = str "reset" then
          some (w, { m with filterOwner := [], filterType := [], filterCurrency := [],
                            hiddenIndexes := ∅ }, str "Filters cleared")
        else if rest.isEmpty then
          some (w, m, str "Usage: filter owner <name> | filter type <type> | filter currency <code>")
        else
          let filterValue := Join rest (str " ")
          if p1 = str "owner" then
            some (w, { m with filterOwner := filterValue }, str "Filtering by owner: " ++ filterValue)
          else if p1 = str "type" then
            some (w, { m with filterType := filterValue }, str "Filtering by type: " ++ filterValue)
          else if p1 = str "currency" then
            some (w, { m with filterCurrency := ToUpper L.upperTable filterValue },
              str "Filtering by currency: " ++ ToUpper L.upperTable filterValue)
          else
            some (w, m, str "Usage: filter owner <name> | filter type <type> | filter currency <code>")
    else if p0 = str "hide" then
      match args with
      | [] => some (w, m, str "Usage: hide 0,2,3 (comma-separated indexes)")
      | p1 :: _ => let r := handleHideCommand m p1; some (w, r.1, r.2)
    else if p0 = str "currency" then
      match args with
      | [] => some (w, m, str "Usage: currency <CURRENCY_CODE>")
      | p1 :: _ => let r := handleCurrencyCommand L m p1; some (w, r.1, r.2)
    else if p0 = str "new" then
      let r := handleNewWalletCommand m; some (w, r.1, r.2)
    else if p0 = str "adjust" then
      match args with
      | p1 :: p2 :: _ => handleAdjustCommand L w m p1 p2
      | _ => some (w, m, str "Usage: adjust <index> <amount> (e.g., adjust 0 +100, adjust 1 -50, adjust 2 500)")
    else if p0 = str "delete" then
      match args with
      | [] => some (w, m, str "Usage: delete <index>")
      | p1 :: _ => let r := handleDeleteCommand m p1; some (w, r.1, r.2)
    else
      some (w, m, str "Unknown command: " ++ p0 ++ str ". Type \x27help\x27 for available commands.")

/-- The keys of a Go map filled from `values`, in the order `range` yields them,
followed by the entry for free text. -/
def distinctOptions (w : World F) (values : List GoString) (custom : GoString) : List GoString :=
  w.rangeOrder values.dedup ++ [custom]

/-- The common shape of `populateTypeOptions`, `populateCurrencyOptions` and
`populateOwnerOptions`: `field` reads the wallet field, `onError` is the list
used when the file does not load, `defaults` the list of an empty budget. -/
def populateOptions (L : Lib F) (w : World F) (m : model F) (field : Wallet F → GoString)
    (onError defaults : List GoString) (custom : GoString) : World F × model F :=
  match LoadBudgetFile L w m.currentPath with
  | (w1, Except.error _) => (w1, { m with creationOptions := onError })
  | (w1, Except.ok budgetFile) =>
    let options :=
      if budgetFile.Wallets.isEmpty then defaults ++ [custom]
      else distinctOptions w1 (budgetFile.Wallets.map field) custom
    let m1 := { m with creationOptions := options }
    (w1, if m1.selectedOption ≥ m1.creationOptions.length then { m1 with selectedOption := 0 } else m1)

/-- Go `populateTypeOptions`. -/
def populateTypeOptions (L : Lib F) (w : World F) (m : model F) : World F × model F :=
  populateOptions L w m (fun x => x.Type_)
    [str "cash", str "bank", str "invest", str "custom: enter new type..."]
    [str "bank", str "cash", str "invest"] (str "custom: enter new type...")

/-- Go `populateCurrencyOptions`. -/
def populateCurrencyOptions (L : Lib F) (w : World F) (m : model F) : World F × model F :=
  populateOptions L w m (fun x => x.Currency)
    [str "USD", str "EUR", str "GBP", str "custom: enter currency code..."]
    [str "USD", str "EUR", str "GBP"] (str "custom: enter currency code...")

/-- Go `populateOwnerOptions`. -/
def populateOwnerOptions (L : Lib F) (w : World F) (m : model F) : World F × model F :=
  populateOptions L w m (fun x => x.Owner)
    [str "User", str "custom: enter owner name..."]
    [str "me"] (str "custom: enter owner name...")

/-- The tail of `handleCreationStep`, "move to next step". -/
def nextCreationStep (L : Lib F) (w : World F) (m : model F) : World F × model F :=
  let m1 := { m with
    creationStep := m.creationStep + 1, creationInput := [], creationCursorPos := 0,
    selectedOption := 0, isCustomInput := false }
  if m1.creationStep = 1 then populateTypeOptions L w m1
  else if m1.creationStep = 2 then populateCurrencyOptions L w m1
  else if m1.creationStep = 3 then populateOwnerOptions L w m1
  else (w, { m1 with creationOptions := [] })

/-- The cases 1, 2 and 3 of `handleCreationStep`: `set` stores the value in the
draft, `commit` is applied to free text. -/
def handleOptionStep (L : Lib F) (w : World F) (m : model F) (input : GoString)
    (set : model F → GoString → model F) (commit : GoString → GoString) :
    Option (World F × model F × Cmd) :=
  if m.isCustomInput then
    if input = [] then some (w, m, Cmd.none)
    else
      let r := nextCreationStep L w (set m (commit input))
      some (r.1, r.2, Cmd.none)
  else if m.selectedOption < (m.creationOptions.length : Int) - 1 then
    match index m.creationOptions m.selectedOption with
    | none => none
    | some o =>
      let r := nextCreationStep L w (set m o)
      some (r.1, r.2, Cmd.none)
  else some (w, { m with isCustomInput := true }, Cmd.none)

/-- Go `handleCreationStep`. -/
def handleCreationStep [Zero F] (L : Lib F) (w : World F) (m : model F) :
    Option (World F × model F × Cmd) :=
  let input := TrimSpace m.creationInput
  if m.creationStep = 0 then
    if input = [] then some (w, m, Cmd.none)
    else
      let r := nextCreationStep L w { m with creationData := { m.creationData with Name := input } }
      some (r.1, r.2, Cmd.none)
  else if m.creationStep = 1 then
    handleOptionStep L w m input
      (fun m v => { m with creationData := { m.creationData with Type_ := v } }) id
  else if m.creationStep = 2 then
    handleOptionStep L w m input
      (fun m v => { m with creationData := { m.creationData with Currency := v } })
      (ToUpper L.upperTable)
  else if m.creationStep = 3 then
    handleOptionStep L w m input
      (fun m v => { m with creationData := { m.creationData with Owner := v } }) id
  else if m.creationStep = 4 then
    match (if input = [] then some (0 : F) else L.parseFloat input) with
    | none => some (w, m, Cmd.none)
    | some balance =>
      let m1 := { m with creationData := { m.creationData with Balance := balance } }
      match CreateWallet L w m1.currentPath m1.creationData.Name m1.creationData.Owner
          m1.creationData.Type_ m1.creationData.Currency m1.creationData.Balance with
      | (w1, some _) => some (w1, m1, Cmd.none)
      | (w1, none) =>
        let r := reloadWallets L w1 { m1 with currentScreen := screen.walletScreen }
        some (r.1, r.2, Cmd.none)
  else
    let r := nextCreationStep L w m
    some (r.1, r.2, Cmd.none)

/-- The statement `x, m.err = data.ListBudgetFiles()` followed by the wrapping
of the error; on an error the list is `nil`. -/
def refreshFiles (L : Lib F) (w : World F) (m : model F) : World F × model F :=
  match ListBudgetFiles L w with
  | (w1, Except.ok files) => (w1, { m with availableFiles := files, err := none })
  | (w1, Except.error e) =>
    (w1, { m with availableFiles := [], err := some (str "failed to list budget files: " ++ e) })

/-- The call `m.confirmationAction()`: the run is counted, then the body of
the closure is executed. -/
def runAction (L : Lib F) (w : World F) (action : Action) : World F × Option GoString :=
  let w0 := { w with actionsRun := w.actionsRun + 1 }
  match action with
  | Action.deleteWallet path idx => DeleteWalletByIndex L w0 path idx
  | Action.deleteBudget name => DeleteBudgetFile w0 name

/-- Run a staged `onConfirm` on the current model. -/
def runContinuation (L : Lib F) (w : World F) (m : model F) :
    Continuation → World F × model F × Cmd
  | Continuation.reloadWallets =>
    let r := reloadWallets L w m
    let m1 := match r.2.err with
      | some e => { r.2 with err := some (str "wallet deleted, but failed to reload: " ++ e) }
      | none => r.2
    (r.1, { m1 with hiddenIndexes := ∅ }, Cmd.none)
  | Continuation.refreshFiles =>
    let r := refreshFiles L w m
    (r.1, { r.2 with selectedFileIndex := 0, isNewFile := false }, Cmd.none)

/-- Go `handleNewFileCreation`. -/
def handleNewFileCreation (m : model F) : model F :=
  { m with currentScreen := screen.budgetCreationScreen, creationCursorPos := 0,
           creationInput := [], creationStep := 0 }

/-- Go `handleGreetingInput`. -/
def handleGreetingInput (w : World F) (m : model F) (msg : GoString) :
    Option (World F × model F × Cmd) :=
  if msg = str "enter" then
    if m.isNewFile then some (w, handleNewFileCreation m, Cmd.none)
    else
      match index m.availableFiles m.selectedFileIndex with
      | none => none
      | some selectedFile =>
        some (w, { m with currentPath := selectedFile.Name, wallets := selectedFile.Wallets,
                          currentScreen := screen.walletScreen }, Cmd.none)
  else if msg = str "esc" then some (w, m, Cmd.quit)
  else if msg = str "d" ∨ msg = str "delete" then
    if m.availableFiles.length > 0 ∧ m.isNewFile = false then
      match index m.availableFiles m.selectedFileIndex with
      | none => none
      | some selectedFile =>
        some (w, { m with
          confirmationMessage := str "Are you sure you want to delete the budget file \x27"
            ++ selectedFile.Name ++ str "\x27?",
          originScreen := screen.greetingScreen,
          confirmationAction := some (Action.deleteBudget selectedFile.Name),
          onConfirm := some Continuation.refreshFiles,
          currentScreen := screen.confirmationScreen }, Cmd.none)
    else some (w, m, Cmd.none)
  else if msg = str "up" ∨ msg = str "down" then
    let totalOptions : Int := m.availableFiles.length + 1
    let m1 :=
      if msg = str "up" ∧ m.selectedFileIndex > 0 then
        { m with selectedFileIndex := m.selectedFileIndex - 1 }
      else if msg = str "down" ∧ m.selectedFileIndex < totalOptions - 1 then
        { m with selectedFileIndex := m.selectedFileIndex + 1 }
      else m
    let m2 := { m1 with isNewFile := decide (m1.selectedFileIndex = m1.availableFiles.length) }
    some (w, if m2.isNewFile then m2 else { m2 with creationInput := [], creationCursorPos := 0 },
      Cmd.none)
  else some (w, m, Cmd.none)

/-- The backspace of the three text inputs: the new text and cursor. -/
def backspaceAt (input : GoString) (pos : Int) : Option (GoString × Int) :=
  if input.length > 0 ∧ pos > 0 then
    match sliceTo input (pos - 1), sliceFrom input pos with
    | some a, some b => some (a ++ b, pos - 1)
    | _, _ => none
  else some (input, pos)

/-- The text insertion of the three text inputs: the new text and cursor. -/
def insertAt (input : GoString) (pos : Int) (s : GoString) : Option (GoString × Int) :=
  match sliceTo input pos, sliceFrom input pos with
  | some a, some b => some (a ++ s ++ b, pos + 1)
  | _, _ => none

/-- Go `handleBudgetFileCreation`. -/
def handleBudgetFileCreation (w : World F) (m : model F) : World F × model F × Cmd :=
  let filename := m.creationInput
  if filename = [] then (w, m, Cmd.none)
  else
    match CreateBudgetFile w filename with
    | (w1, some _) => (w1, m, Cmd.none)
    | (w1, none) =>
      (w1, { m with currentPath := filename, wallets := [], currentScreen := screen.walletScreen,
                    creationCursorPos := 0, creationInput := [], isNewFile := false }, Cmd.none)

/-- Go `handleBudgetCreationInput`. -/
def handleBudgetCreationInput (L : Lib F) (w : World F) (m : model F) (msg : GoString) :
    Option (World F × model F × Cmd) :=
  if msg = str "enter" then some (handleBudgetFileCreation w m)
  else if msg = str "esc" then
    let r := refreshFiles L w { m with currentScreen := screen.greetingScreen }
    some (r.1, CleanSlates r.2, Cmd.none)
  else if msg = str "backspace" then
    (backspaceAt m.creationInput m.creationCursorPos).map
      (fun r => (w, { m with creationInput := r.1, creationCursorPos := r.2 }, Cmd.none))
  else if msg = str "left" then
    some (w, if m.creationCursorPos > 0 then { m with creationCursorPos := m.creationCursorPos - 1 }
             else m, Cmd.none)
  else if msg = str "right" then
    some (w, if m.creationCursorPos < m.creationInput.length then
               { m with creationCursorPos := m.creationCursorPos + 1 }
             else m, Cmd.none)
  else
    (insertAt m.creationInput m.creationCursorPos msg).map
      (fun r => (w, { m with creationInput := r.1, creationCursorPos := r.2 }, Cmd.none))

/-- The common end of the branches of `handleConfirmationInput`: clean the
slates and go back to the origin screen. -/
def backToOrigin (m : model F) : model F :=
  let originScreen := m.originScreen
  { CleanSlates m with currentScreen := originScreen }

/-- The state in which `backToOrigin` leaves the text inputs, the wizard cursor
and the pending confirmation: all cleared. -/
def Idle (m : model F) : Prop :=
  m.commandInput = [] ∧ m.cursorPos = 0 ∧ m.creationInput = [] ∧ m.creationCursorPos = 0
    ∧ m.creationStep = 0 ∧ m.confirmationAction = none ∧ m.onConfirm = none

/-- Go `handleConfirmationInput`. -/
def handleConfirmationInput (L : Lib F) (w : World F) (m : model F) (msg : GoString) :
    Option (World F × model F × Cmd) :=
  if msg = str "y" ∨ msg = str "Y" then
    match m.confirmationAction with
    | some action =>
      match runAction L w action with
      | (w1, some err) =>
        some (w1, backToOrigin { m with err := some (str "action failed: " ++ err) }, Cmd.none)
      | (w1, none) =>
        match m.onConfirm with
        | some onConfirmFunc => some (runContinuation L w1 (backToOrigin m) onConfirmFunc)
        | none => some (w1, backToOrigin m, Cmd.none)
    | none => some (w, backToOrigin m, Cmd.none)
  else if msg = str "n" ∨ msg = str "N" ∨ msg = str "esc" then
    some (w, backToOrigin m, Cmd.none)
  else some (w, m, Cmd.none)

/-- Go `handleWalletInput`. -/
def handleWalletInput [Zero F] [Add F] (L : Lib F) (w : World F) (m : model F) (msg : GoString) :
    Option (World F × model F × Cmd) :=
  if msg = str "enter" then
    (HandleCommand L w m m.commandInput).map
      (fun r => (r.1, { r.2.1 with commandResult := r.2.2, commandInput := [], cursorPos := 0 },
        Cmd.none))
  else if msg = str "esc" then
    let r := refreshFiles L w { m with currentScreen := screen.greetingScreen }
    some (r.1, CleanSlates r.2, Cmd.none)
  else if msg = str "backspace" then
    (backspaceAt m.commandInput m.cursorPos).map
      (fun r => (w, { m with commandInput := r.1, cursorPos := r.2 }, Cmd.none))
  else if msg = str "left" then
    some (w, if m.cursorPos > 0 then { m with cursorPos := m.cursorPos - 1 } else m, Cmd.none)
  else if msg = str "right" then
    some (w, if m.cursorPos < m.commandInput.length then { m with cursorPos := m.cursorPos + 1 }
             else m, Cmd.none)
  else
    (insertAt m.commandInput m.cursorPos msg).map
      (fun r => (w, { m with commandInput := r.1, cursorPos := r.2 }, Cmd.none))

/-- The guard of the text keys of the wizard: a text step or free-text mode. -/
def textStep (m : model F) : Bool :=
  m.creationStep = 0 || m.creationStep = 4 || m.isCustomInput

/-- Go `handleWalletCreationInput`. -/
def handleWalletCreationInput [Zero F] (L : Lib F) (w : World F) (m : model F) (msg : GoString) :
    Option (World F × model F × Cmd) :=
  if msg = str "enter" then handleCreationStep L w m
  else if msg = str "esc" then
    let r := reloadWallets L w { m with currentScreen := screen.walletScreen }
    some (r.1, CleanSlates r.2, Cmd.none)
  else if msg = str "backspace" then
    if m.creationInput.length > 0 ∧ m.creationCursorPos > 0 ∧ textStep m = true then
      (backspaceAt m.creationInput m.creationCursorPos).map
        (fun r => (w, { m with creationInput := r.1, creationCursorPos := r.2 }, Cmd.none))
    else some (w, m, Cmd.none)
  else if msg = str "left" then
    some (w, if m.creationCursorPos > 0 ∧ textStep m = true then
               { m with creationCursorPos := m.creationCursorPos - 1 }
             else m, Cmd.none)
  else if msg = str "right" then
    some (w, if m.creationCursorPos < m.creationInput.length ∧ textStep m = true then
               { m with creationCursorPos := m.creationCursorPos + 1 }
             else m, Cmd.none)
  else if msg = str "up" ∨ msg = str "down" then
    if m.creationOptions.length > 0 then
      let m1 :=
        if msg = str "up" ∧ m.selectedOption > 0 then
          { m with selectedOption := m.selectedOption - 1 }
        else if msg = str "down" ∧ m.selectedOption < (m.creationOptions.length : Int) - 1 then
          { m with selectedOption := m.selectedOption + 1 }
        else m
      let m2 := { m1 with
        isCustomInput := decide (m1.selectedOption = (m1.creationOptions.length : Int) - 1) }
      some (w, if m2.isCustomInput then m2 else { m2 with creationInput := [], creationCursorPos := 0 },
        Cmd.none)
    else some (w, m, Cmd.none)
  else
    if textStep m = true then
      (insertAt m.creationInput m.creationCursorPos msg).map
        (fun r => (w, { m with creationInput := r.1, creationCursorPos := r.2 }, Cmd.none))
    else some (w, m, Cmd.none)

/-- Go `Update`. -/
def Update [Zero F] [Add F] (L : Lib F) (w : World F) (m : model F) :
    Msg → Option (World F × model F × Cmd)
  | Msg.windowSize width height => some (w, { m with width := width, height := height }, Cmd.none)
  | Msg.key msg =>
    if msg = str "ctrl+c" then some (w, m, Cmd.quit)
    else
      match m.currentScreen with
      | screen.greetingScreen => handleGreetingInput w m msg
      | screen.budgetCreationScreen => handleBudgetCreationInput L w m msg
      | screen.confirmationScreen => handleConfirmationInput L w m msg
      | screen.walletScreen => handleWalletInput L w m msg
      | screen.walletCreationScreen => handleWalletCreationInput L w m msg
  | Msg.other => some (w, m, Cmd.none)

/-- The `initialModel` of `RunTUI`, for the greeting drawn and the files found. -/
def initialModel [Zero F] (greeting : GoString) (availableFiles : List (BudgetFile F)) : model F :=
  { currentScreen := screen.greetingScreen, greeting := greeting, currentPath := [], wallets := [],
    err := none, width := 80, height := 24, commandInput := [], commandResult := [],
    cursorPos := 0, hiddenIndexes := ∅, filterOwner := [], filterType := [], filterCurrency := [],
    displayCurrency := [], availableFiles := availableFiles, selectedFileIndex := 0,
    isNewFile := false, creationStep := 0, creationData := emptyWallet, creationInput := [],
    creationCursorPos := 0, creationPrefilled := false, creationOptions := [],
    selectedOption := 0, isCustomInput := false, confirmationMessage := [],
    confirmationAction := none, onConfirm := none, originScreen := screen.greetingScreen }

end tui

/-! The screens: the table of the specification and the reachable sessions. -/

namespace tui

open golib data

variable {F : Type}

/-- The transition table of the screens as the specification gives it: the
successors of each screen, those of Confirmation being the origin screen, which
is Wallet or Greeting. -/
def specTransition (origin : screen) (s s1 : screen) : Prop :=
  match s with
  | screen.greetingScreen =>
    s1 = screen.budgetCreationScreen ∨ s1 = screen.walletScreen ∨ s1 = screen.confirmationScreen
  | screen.budgetCreationScreen => s1 = screen.walletScreen ∨ s1 = screen.greetingScreen
  | screen.walletScreen =>
    s1 = screen.walletCreationScreen ∨ s1 = screen.greetingScreen
      ∨ s1 = screen.confirmationScreen
  | screen.walletCreationScreen => s1 = screen.walletScreen
  | screen.confirmationScreen =>
    s1 = origin ∧ (origin = screen.walletScreen ∨ origin = screen.greetingScreen)

/-- The table can be evaluated. -/
instance decSpecTransition (origin s s1 : screen) : Decidable (specTransition origin s s1) := by
  cases s <;> unfold specTransition <;> infer_instance

/-- The sessions a run of the program can be in: the initial one, and those
`Update` returns from one of them on a message, whatever the world is then. -/
inductive Reachable [Zero F] [Add F] (L : Lib F) : model F → Prop where
  | init (greeting : GoString) (availableFiles : List (BudgetFile F)) :
    Reachable L (initialModel greeting availableFiles)
  | step (w w1 : World F) (m m1 : model F) (msg : Msg) (c : Cmd) :
    Reachable L m → Update L w m msg = some (w1, m1, c) → Reachable L m1

/-- The origin screen is Wallet or Greeting. -/
def originOk (m : model F) : Prop :=
  m.originScreen = screen.walletScreen ∨ m.originScreen = screen.greetingScreen

/-- One step from `m` to `m1` respects the table: the screen is unchanged or a
successor the table allows, and the origin of `m1` is Wallet or Greeting. -/
def screenStep (m m1 : model F) : Prop :=
  (m1.currentScreen = m.currentScreen
    ∨ specTransition m.originScreen m.currentScreen m1.currentScreen)
  ∧ originOk m1

end tui

/-! The total line of the wallet table. -/

namespace data

open golib

variable {F : Type}

/-- Go `GetDefaultCurrency`. -/
def GetDefaultCurrency (data : BudgetFile F) : Except GoString GoString :=
  if data.DefaultCurrency ≠ [] then Except.ok data.DefaultCurrency
  else
    match data.Wallets with
    | x :: _ => Except.ok x.Currency
    | [] => Except.error (str "no default currency set and no wallets exist")

end data

namespace tui

open golib data

variable {F : Type}

/-- The loop of `calculateTotal` over the wallets from index `i` on: a hidden
or filtered wallet is skipped, a visible one is counted and its balance is
added, converted to the target currency when the currency differs and the
conversion succeeds. -/
def totalLoop [Add F] [Mul F] [Div F] (L : Lib F) (m : model F)
    (targetCurrency defaultCurrency : GoString) :
    List (Wallet F) → Nat → World F → F → Int → World F × F × Int
  | [], _, w, total, visibleCount => (w, total, visibleCount)
  | wallet :: rest, i, w, total, visibleCount =>
    if (i : Int) ∈ m.hiddenIndexes then
      totalLoop L m targetCurrency defaultCurrency rest (i + 1) w total visibleCount
    else if m.filterOwner ≠ [] ∧ wallet.Owner ≠ m.filterOwner then
      totalLoop L m targetCurrency defaultCurrency rest (i + 1) w total visibleCount
    else if m.filterType ≠ [] ∧ wallet.Type_ ≠ m.filterType then
      totalLoop L m targetCurrency defaultCurrency rest (i + 1) w total visibleCount
    else if m.filterCurrency ≠ [] ∧ wallet.Currency ≠ m.filterCurrency then
      totalLoop L m targetCurrency defaultCurrency rest (i + 1) w total visibleCount
    else if wallet.Currency = targetCurrency then
      totalLoop L m targetCurrency defaultCurrency rest (i + 1) w (total + wallet.Balance)
        (visibleCount + 1)
    else
      match ConvertCurrency L w wallet.Balance wallet.Currency targetCurrency defaultCurrency with
      | (w1, Except.error _) =>
        totalLoop L m targetCurrency defaultCurrency rest (i + 1) w1 (total + wallet.Balance)
          (visibleCount + 1)
      | (w1, Except.ok converted) =>
        totalLoop L m targetCurrency defaultCurrency rest (i + 1) w1 (total + converted)
          (visibleCount + 1)

/-- The end of `calculateTotal`: the count on the left, the total and the
currency on the right, 64 columns wide when they fit. -/
def totalLine (L : Lib F) (total : F) (visibleCount : Int) (targetCurrency : GoString) :
    GoString :=
  let walletCount := fmtInt visibleCount ++ str " wallet"
  let leftSide := if visibleCount ≠ 1 then walletCount ++ str "s" else walletCount
  let rightSide := L.formatFloat2 total ++ str " " ++ targetCurrency
  let spacing : Int := 64 - leftSide.length - rightSide.length
  let spacing := if spacing < 1 then 1 else spacing
  leftSide ++ List.replicate spacing.toNat (0x20 : Byte) ++ rightSide

/-- Go `calculateTotal`. -/
def calculateTotal [Zero F] [Add F] [Mul F] [Div F] (L : Lib F) (w : World F) (m : model F) :
    World F × GoString :=
  if m.wallets.length = 0 then (w, str "0 wallets                                     0.00")
  else
    match LoadBudgetFile L w m.currentPath with
    | (w1, Except.error err) => (w1, str "Error loading budget data: " ++ err)
    | (w1, Except.ok budgetData) =>
      match GetDefaultCurrency budgetData with
      | Except.error err => (w1, str "Error getting default currency: " ++ err)
      | Except.ok defaultCurrency =>
        let targetCurrency :=
          if m.displayCurrency ≠ [] then m.displayCurrency else defaultCurrency
        let r := totalLoop L m targetCurrency defaultCurrency m.wallets 0 w1 0 0
        (r.1, totalLine L r.2.1 r.2.2 targetCurrency)

/-- The wallets the specification calls visible, in the order of the snapshot:
those whose index is not hidden and that satisfy every filter that is set. -/
def specVisibleWallets (m : model F) : List (Wallet F) :=
  (m.wallets.enum.filter (fun p =>
    decide ((p.1 : Int) ∉ m.hiddenIndexes)
      && decide (m.filterOwner = [] ∨ p.2.Owner = m.filterOwner)
      && decide (m.filterType = [] ∨ p.2.Type_ = m.filterType)
      && decide (m.filterCurrency = [] ∨ p.2.Currency = m.filterCurrency))).map Prod.snd

/-- The amounts the specification adds up for the wallets `xs`, in order: the
balance when the currency is the target currency, the converted amount when the
conversion succeeds, the balance when it fails.  A conversion may read or
refresh the rate cache, so the world is passed along. -/
def specAddends [Mul F] [Div F] (L : Lib F) (targetCurrency defaultCurrency : GoString) :
    World F → List (Wallet F) → World F × List F
  | w, [] => (w, [])
  | w, x :: xs =>
    if x.Currency = targetCurrency then
      let r := specAddends L targetCurrency defaultCurrency w xs
      (r.1, x.Balance :: r.2)
    else
      match ConvertCurrency L w x.Balance x.Currency targetCurrency defaultCurrency with
      | (w1, Except.ok converted) =>
        let r := specAddends L targetCurrency defaultCurrency w1 xs
        (r.1, converted :: r.2)
      | (w1, Except.error _) =>
        let r := specAddends L targetCurrency defaultCurrency w1 xs
        (r.1, x.Balance :: r.2)

end tui

/-! Runs under conditions on the worlds and the messages, and the invariants of
the text cursors and of the suggestion list. -/

namespace tui

open golib data

variable {F : Type}

/-- The sessions reachable from the initial one by messages that satisfy
`okMsg`, each handled in a world that satisfies `okWorld`. -/
inductive ReachableVia [Zero F] [Add F] (L : Lib F) (okWorld : World F → Prop)
    (okMsg : Msg → Prop) : model F → Prop where
  | init (greeting : GoString) (availableFiles : List (BudgetFile F)) :
    ReachableVia L okWorld okMsg (initialModel greeting availableFiles)
  | step (w w1 : World F) (m m1 : model F) (msg : Msg) (c : Cmd) :
    ReachableVia L okWorld okMsg m → okWorld w → okMsg msg →
    Update L w m msg = some (w1, m1, c) → ReachableVia L okWorld okMsg m1

/-- A message that is not a key, or a key whose string is not empty. -/
def nonEmptyKey : Msg → Prop
  | Msg.key k => k ≠ []
  | _ => True

/-- The condition on a message can be evaluated. -/
instance decNonEmptyKey (msg : Msg) : Decidable (nonEmptyKey msg) := by
  cases msg <;> unfold nonEmptyKey <;> infer_instance

/-- A world in which `range` over a map yields each key once. -/
def rangeIsPerm (w : World F) : Prop :=
  ∀ keys : List GoString, (w.rangeOrder keys).Perm keys

/-- Both text cursors are inside their texts. -/
def cursorsOk (m : model F) : Prop :=
  0 ≤ m.cursorPos ∧ m.cursorPos ≤ m.commandInput.length
  ∧ 0 ≤ m.creationCursorPos ∧ m.creationCursorPos ≤ m.creationInput.length

/-- The suggestion list has two entries or more, the selection is an index of
it, and free text is on exactly on its last entry. -/
def suggestionsOk (m : model F) : Prop :=
  2 ≤ m.creationOptions.length
  ∧ 0 ≤ m.selectedOption ∧ m.selectedOption < (m.creationOptions.length : Int)
  ∧ (m.isCustomInput = true ↔ m.selectedOption = (m.creationOptions.length : Int) - 1)

/-- On the wizard at the steps 1 to 3 the suggestions are in order. -/
def wizardOk (m : model F) : Prop :=
  m.currentScreen = screen.walletCreationScreen → 1 ≤ m.creationStep → m.creationStep ≤ 3 →
    suggestionsOk m

end tui

/-! Sample data for the worked examples. -/

namespace sample

open golib data tui

/-- A library instance over the rationals: exact arithmetic, the identity as
case table above U+007F, decimal integers as the amounts that parse. -/
def lib : Lib ℚ :=
  { upperTable := fun r => r,
    parseFloat := fun s => (Atoi s).map (fun i => (i : ℚ)),
    formatFloat2 := fun _ => str "?",
    jsonErr := fun _ => none }

/-- Three wallets of the budget `home`. -/
def homeWallets : List (Wallet ℚ) :=
  [ { Name := str "Cash", Owner := str "ann", Type_ := str "cash", Currency := str "USD", Balance := 250 },
    { Name := str "Bank", Owner := str "ann", Type_ := str "bank", Currency := str "USD", Balance := 1500 },
    { Name := str "Fund", Owner := str "bob", Type_ := str "bank", Currency := str "EUR", Balance := 800 } ]

/-- The budget file `home`. -/
def home : BudgetFile ℚ :=
  { Name := str "home", CreatedAt := 100, UpdatedAt := 300, Wallets := homeWallets,
    DefaultCurrency := str "USD" }

/-- The budget file `trip`, with one wallet. -/
def trip : BudgetFile ℚ :=
  { Name := str "trip", CreatedAt := 100, UpdatedAt := 200,
    Wallets := [ { Name := str "Pocket", Owner := str "bob", Type_ := str "cash",
                   Currency := str "EUR", Balance := 40 } ],
    DefaultCurrency := str "EUR" }

/-- A world with the two budgets, no cache file, a working disk and no network. -/
def world : World ℚ :=
  { files := [(str "home", FileContent.budgetFile home), (str "trip", FileContent.budgetFile trip)],
    cacheFile := CacheFile.absent,
    now := 1700000000000000000,
    mkdirErr := none, writeErr := none, writeTruncates := true, removeErr := none,
    httpGet := fun _ => HttpReply.failed (str "no route to host"),
    requests := [],
    actionsRun := 0,
    rangeOrder := fun keys => keys }

/-- A rate table for the base `USD`. -/
def usdRates : Rates ℚ := [(str "EUR", 2), (str "GBP", 4)]

/-- The world with a cache file for `USD` written 1000 seconds ago. -/
def cachedWorld : World ℚ :=
  { world with
    cacheFile := CacheFile.stored
      ({ Rates := usdRates, Base := str "USD", Timestamp := 1699999000, TTL := 3600 }) }

/-- The world with a cache file for `USD` written `ttl + 1` seconds ago. -/
def staleWorld : World ℚ :=
  { world with
    cacheFile := CacheFile.stored
      ({ Rates := usdRates, Base := str "USD", Timestamp := 1699996399, TTL := 3600 }) }

/-- The world with a fresh cache file for the base `EUR`, where the first
provider answers for `USD` and every other request fails. -/
def online : World ℚ :=
  { world with
    cacheFile := CacheFile.stored
      ({ Rates := [(str "USD", 1)], Base := str "EUR", Timestamp := 1699999000, TTL := 3600 }),
    httpGet := fun url =>
      if url = str "https://api.frankfurter.dev/v1/latest?base=USD" then
        HttpReply.response 200 (Except.ok usdRates)
      else HttpReply.failed (str "no route to host") }

/-- The world whose disk is full: every write fails after the open, which
leaves the file cut short. -/
def fullDisk : World ℚ := { world with writeErr := some (str "no space left on device") }

/-- The session at start-up, both budgets listed. -/
def start : model ℚ := initialModel (str "hi there!") [home, trip]

/-- The session on the Wallet screen of `home`, nothing hidden. -/
def onHome : model ℚ :=
  { start with currentScreen := screen.walletScreen, currentPath := str "home",
               wallets := homeWallets }

/-- The session on the Wallet screen of `home` with wallets 0 and 2 hidden. -/
def onHomeHidden : model ℚ := { onHome with hiddenIndexes := {0, 2} }

/-- The session after `delete 1` on `onHomeHidden`: a confirmation is pending. -/
def staged : model ℚ := (handleDeleteCommand onHomeHidden (str "1")).1

/-- The wallets stored in a budget file, if it is there in the new format. -/
def storedWallets (w : World ℚ) (name : GoString) : Option (List (Wallet ℚ)) :=
  match lookupFile w name with
  | some (FileContent.budgetFile bf) => some bf.Wallets
  | _ => none

/-- The names of the wallets stored in a budget file, in order. -/
def storedNames (w : World ℚ) (name : GoString) : Option (List GoString) :=
  (storedWallets w name).map (fun l => l.map (fun x => x.Name))

/-- Key presses that open `home` from the start screen and hide its wallet 0. -/
def openHomeHide0 : List GoString :=
  [str "enter", str "h", str "i", str "d", str "e", str " ", str "0", str "enter"]

/-- Key presses that leave the Wallet screen and open the second budget listed. -/
def switchBudget : List GoString := [str "esc", str "down", str "enter"]

/-- Key presses that run the wizard from the Wallet screen: `new`, the name `x`,
the first suggestion for type, currency and owner, and an empty balance. -/
def createWalletX : List GoString :=
  [str "n", str "e", str "w", str "enter", str "x", str "enter", str "enter", str "enter",
   str "enter", str "enter"]

/-- The budget file `fresh`, without wallets. -/
def fresh : BudgetFile ℚ :=
  { Name := str "fresh", CreatedAt := 400, UpdatedAt := 400, Wallets := [],
    DefaultCurrency := str "USD" }

/-- The world with the budget `fresh` next to the other two. -/
def freshWorld : World ℚ :=
  { world with files := world.files ++ [(str "fresh", FileContent.budgetFile fresh)] }

/-- The wizard just opened on `fresh`: step 0, nothing typed. -/
def wizardOnFresh : model ℚ :=
  (handleNewWalletCommand
    { start with currentScreen := screen.walletScreen, currentPath := str "fresh" }).1

/-- The wizard on `home` at a given step with a given text typed. -/
def wizardOnHome (step : Int) (text : String) : model ℚ :=
  { (handleNewWalletCommand onHome).1 with creationStep := step, creationInput := str text }

/-- A complete draft of a wallet called `name`. -/
def draft (name : String) : Wallet ℚ :=
  { Name := str name, Owner := str "ann", Type_ := str "cash", Currency := str "usd",
    Balance := 0 }

/-- The wizard on `home` at the step Balance, with the draft `draft name` and
the text `text`. -/
def atBalance (name text : String) : model ℚ :=
  { wizardOnHome 4 text with creationData := draft name }

/-- The wizard on `home` after the name `Car` was entered: the step Type. -/
def atType : model ℚ :=
  (nextCreationStep lib world { wizardOnHome 0 "Car" with creationData := draft "Car" }).2

/-- The session after the key `k` in the world `world`; a key on which `Update`
panics leaves the session as it is. -/
def press (m : model ℚ) (k : String) : model ℚ :=
  match Update lib world m (Msg.key (str k)) with
  | some r => r.2.1
  | none => m

/-- The session after the keys `ks`, each handled in the world `world`. -/
def pressAll (m : model ℚ) (ks : List String) : model ℚ := ks.foldl press m

/-- The world with the budget `trip` only. -/
def tripOnly : World ℚ := { world with files := [(str "trip", FileContent.budgetFile trip)] }

/-- Feed key messages to `Update` one after the other. -/
def runKeys (L : Lib ℚ) : World ℚ → model ℚ → List GoString → Option (World ℚ × model ℚ)
  | w, m, [] => some (w, m)
  | w, m, k :: ks =>
    match Update L w m (Msg.key k) with
    | none => none
    | some r => runKeys L r.1 r.2.1 ks

/-- A library instance over `float64`: the identity as case table above U+007F;
the amounts that parse are the decimal texts and `NaN`, `Inf`, `Infinity`. -/
def floatLib : Lib Float64 :=
  { upperTable := fun r => r,
    parseFloat := parseFloat64,
    formatFloat2 := Float64.format2,
    jsonErr := Float64.jsonErr }

/-- The `float64` that the text `1e308` denotes. -/
def float1e308 : Float64 := Float64.finite false (5010420900022432 * 2 ^ 971)

/-- A budget file over `float64` with one wallet of balance `1e308`. -/
def floatHome : BudgetFile Float64 :=
  { Name := str "home", CreatedAt := 100, UpdatedAt := 300,
    Wallets := [{ Name := str "Cash", Owner := str "ann", Type_ := str "cash",
                  Currency := str "USD", Balance := float1e308 }],
    DefaultCurrency := str "USD" }

/-- A world over `float64`: the budget `floatHome`, a working disk, no network
and a fresh cache file for the base `USD` with the rate 10 for `EUR`. -/
def floatWorld : World Float64 :=
  { files := [(str "home", FileContent.budgetFile floatHome)],
    cacheFile := CacheFile.stored
      ({ Rates := [(str "EUR", Float64.finite false 10)], Base := str "USD",
         Timestamp := 1699999000, TTL := 3600 }),
    now := 1700000000000000000,
    mkdirErr := none, writeErr := none, writeTruncates := true, removeErr := none,
    httpGet := fun _ => HttpReply.failed (str "no route to host"),
    requests := [],
    actionsRun := 0,
    rangeOrder := fun keys => keys }

/-- The session on the Wallet screen of `floatHome`. -/
def floatSession : model Float64 :=
  { initialModel (str "hi there!") [floatHome] with
    currentScreen := screen.walletScreen, currentPath := str "home",
    wallets := floatHome.Wallets }

/-- A name that is not valid UTF-8: the single byte `0xFF`. -/
def badName : GoString := [0xFF]

/-- The world after a wallet called `badName` was created in `home`. -/
def badNameWorld : World ℚ :=
  (CreateWallet lib world (str "home") badName (str "ann") (str "cash") (str "USD") 5).1

end sample

/-! Theorems. -/

open golib data tui

section strings

theorem acceptLo_cases (b0 : Nat) :
    (b0 = 0xE0 ∧ acceptLo b0 = 0xA0) ∨ (b0 = 0xF0 ∧ acceptLo b0 = 0x90)
      ∨ (b0 ≠ 0xE0 ∧ b0 ≠ 0xF0 ∧ acceptLo b0 = 0x80) := by
  unfold acceptLo; split_ifs <;> omega

theorem acceptHi_le (b0 : Nat) : acceptHi b0 ≤ 0xBF := by
  unfold acceptHi; split_ifs <;> omega

/-- An ASCII byte decodes to itself, width 1. -/
theorem decodeRune_ascii (b : Byte) (rest : GoString) (h : b.val < 0x80) :
    decodeRune (b :: rest) = (b.val, 1) := by
  simp [decodeRune, h]

/-- A first byte outside ASCII never decodes to an ASCII rune. -/
theorem decodeRune_high (b : Byte) (rest : GoString) (h : 0x80 ≤ b.val) :
    0x80 ≤ (decodeRune (b :: rest)).1 := by
  have hb := b.isLt
  have hlo := acceptLo_cases b.val
  have hhi := acceptHi_le b.val
  rcases rest with _ | ⟨s1, _ | ⟨s2, _ | ⟨s3, r⟩⟩⟩
  all_goals
    simp only [decodeRune, isCont, RuneError]
    split_ifs <;> simp <;> omega

/-- The runes of a string are all within `A..Z` exactly when its bytes are. -/
theorem runeItemsAux_upper (n : Nat) (s : GoString) (hn : s.length ≤ n) :
    ((runeItemsAux n s).map Prod.fst).any (fun char => decide (char < 0x41) || decide (char > 0x5A))
        = false
      ↔ ∀ b ∈ s, 0x41 ≤ b.val ∧ b.val ≤ 0x5A := by
  induction n generalizing s with
  | zero =>
    have : s = [] := List.length_eq_zero.mp (Nat.le_zero.mp hn)
    subst this
    simp [runeItemsAux]
  | succ k ih =>
    cases s with
    | nil => simp [runeItemsAux]
    | cons b rest =>
      have hk : rest.length ≤ k := by simpa using hn
      by_cases hb : b.val < 0x80
      · have hd := decodeRune_ascii b rest hb
        simp only [runeItemsAux, hd, List.map_cons, List.any_cons, List.drop_succ_cons,
          List.drop_zero, Bool.or_eq_false_iff, ih rest hk, List.mem_cons, forall_eq_or_imp]
        simp only [decide_eq_false_iff_not, not_lt, gt_iff_lt]
      · have hd := decodeRune_high b rest (by omega)
        simp only [runeItemsAux, List.map_cons, List.any_cons, Bool.or_eq_false_iff,
          List.mem_cons, forall_eq_or_imp, decide_eq_false_iff_not, not_lt, gt_iff_lt]
        constructor
        · intro h; omega
        · intro h; omega

theorem runes_upper_iff (s : GoString) :
    (runes s).any (fun char => decide (char < 0x41) || decide (char > 0x5A)) = false
      ↔ ∀ b ∈ s, 0x41 ≤ b.val ∧ b.val ≤ 0x5A :=
  runeItemsAux_upper s.length s (Nat.le_refl _)

theorem runeItemsAux_ascii (n : Nat) (s : GoString) (hn : s.length ≤ n)
    (h : ∀ b ∈ s, b.val < 0x80) : (runeItemsAux n s).map Prod.fst = s.map (fun b => b.val) := by
  induction n generalizing s with
  | zero =>
    have : s = [] := List.length_eq_zero.mp (Nat.le_zero.mp hn)
    subst this
    simp [runeItemsAux]
  | succ k ih =>
    cases s with
    | nil => simp [runeItemsAux]
    | cons b rest =>
      have hk : rest.length ≤ k := by simpa using hn
      have hb : b.val < 0x80 := h b (List.mem_cons_self _ _)
      have hd := decodeRune_ascii b rest hb
      have hr : ∀ c ∈ rest, c.val < 0x80 := fun c hc => h c (List.mem_cons_of_mem _ hc)
      simp only [runeItemsAux, hd, List.map_cons, List.drop_succ_cons, List.drop_zero, ih rest hk hr]

/-- Three characters `A..Z` are three bytes `A..Z`, and conversely. -/
theorem code_runes_iff_bytes (n : GoString) :
    ((runes n).length = 3 ∧ ∀ r ∈ runes n, 0x41 ≤ r ∧ r ≤ 0x5A)
      ↔ (n.length = 3 ∧ ∀ b ∈ n, 0x41 ≤ b.val ∧ b.val ≤ 0x5A) := by
  have key : (∀ r ∈ runes n, 0x41 ≤ r ∧ r ≤ 0x5A) ↔ ∀ b ∈ n, 0x41 ≤ b.val ∧ b.val ≤ 0x5A := by
    rw [← runes_upper_iff]
    simp only [List.any_eq_false, Bool.or_eq_true, decide_eq_true_eq, not_or, not_lt, gt_iff_lt]
  have len : (∀ b ∈ n, 0x41 ≤ b.val ∧ b.val ≤ 0x5A) → (runes n).length = n.length := by
    intro h
    have := runeItemsAux_ascii n.length n (Nat.le_refl _) (fun b hb => by have := h b hb; omega)
    simp only [runes, runeItems, this, List.length_map]
  constructor
  · rintro ⟨h3, hr⟩
    have hb := key.mp hr
    exact ⟨by rw [← len hb]; exact h3, hb⟩
  · rintro ⟨h3, hb⟩
    exact ⟨by rw [len hb]; exact h3, key.mpr hb⟩

end strings

section currency

/-- C9: `normalizeCurrency` succeeds exactly when the trimmed, upper-cased text
is three characters long, each a letter `A..Z` (equivalently: three such
bytes); on success it returns that text, otherwise one of its two
invalid-code errors. -/
theorem normalizeCurrency_spec {F : Type} (L : Lib F) (currency : GoString) :
    ((∃ r, normalizeCurrency L currency = Except.ok r)
        ↔ ((runes (ToUpper L.upperTable (TrimSpace currency))).length = 3
            ∧ ∀ r ∈ runes (ToUpper L.upperTable (TrimSpace currency)), 0x41 ≤ r ∧ r ≤ 0x5A))
    ∧ (∀ r, normalizeCurrency L currency = Except.ok r
        → r = ToUpper L.upperTable (TrimSpace currency)
          ∧ r.length = 3 ∧ ∀ b ∈ r, 0x41 ≤ b.val ∧ b.val ≤ 0x5A)
    ∧ ((∀ r, normalizeCurrency L currency ≠ Except.ok r)
        → normalizeCurrency L currency = Except.error
            (str "currency code must be exactly 3 characters, got \x27" ++ currency ++ str "\x27")
          ∨ normalizeCurrency L currency = Except.error
            (str "currency code must contain only letters, got \x27" ++ currency ++ str "\x27")) := by
  rw [code_runes_iff_bytes]
  generalize hn : ToUpper L.upperTable (TrimSpace currency) = n
  have hu := runes_upper_iff n
  unfold normalizeCurrency
  simp only [hn]
  by_cases h3 : n.length = 3
  · by_cases hb : ∀ b ∈ n, 0x41 ≤ b.val ∧ b.val ≤ 0x5A
    · have ha := hu.mpr hb
      simp only [h3, ha]
      simp
      exact ⟨hb, h3, hb⟩
    · have ha : (runes n).any (fun char => decide (char < 0x41) || decide (char > 0x5A)) = true := by
        by_contra hc
        exact hb (hu.mp (by simpa using hc))
      simp [h3, ha, hb]
  · simp [h3]

theorem normalizeCurrency_spec_witness :
    normalizeCurrency sample.lib (str " usd ") = Except.ok (str "USD")
      ∧ str "USD" = ToUpper sample.lib.upperTable (TrimSpace (str " usd ")) :=
  ⟨by decide, ((normalizeCurrency_spec sample.lib (str " usd ")).2.1 (str "USD") (by decide)).1⟩

variable {F : Type}

/-- C6: when `from` and `to` normalize to the same code (and the base code is
valid), `ConvertCurrency` returns the amount itself and the world as it was: no
request is recorded and the cache file is neither read for the result nor
rewritten, whatever the cache and the network are. -/
theorem ConvertCurrency_same_code [Mul F] [Div F] (L : Lib F) (w : World F) (amount : F)
    (fromCurrency toCurrency baseCurrency code base : GoString)
    (hf : normalizeCurrency L fromCurrency = Except.ok code)
    (ht : normalizeCurrency L toCurrency = Except.ok code)
    (hb : normalizeCurrency L baseCurrency = Except.ok base) :
    ConvertCurrency L w amount fromCurrency toCurrency baseCurrency = (w, Except.ok amount) := by
  simp [ConvertCurrency, hf, ht, hb]

theorem ConvertCurrency_same_code_witness :
    ConvertCurrency sample.lib sample.world (7 : ℚ) (str " usd ") (str "USD") (str "eur")
      = (sample.world, Except.ok 7) :=
  ConvertCurrency_same_code sample.lib sample.world 7 (str " usd ") (str "USD") (str "eur")
    (str "USD") (str "EUR") (by decide) (by decide) (by decide)

/-- C7: for distinct normalized codes and the rate table `R` obtained for the
base, `ConvertCurrency` returns what the specification words (`specConvert`):
`b * R[to]`, or `b` when `to` is the base, with `b` the amount when `from` is
the base and `amount / R[from]` otherwise; it fails, with the rate-not-found
error of the missing code, exactly when a code other than the base is absent
from `R`; the entry of the base itself has no influence. -/
theorem ConvertCurrency_via_base [Mul F] [Div F] (L : Lib F) (w : World F) (amount : F)
    (fromCurrency toCurrency baseCurrency f t b : GoString) (R : Rates F)
    (hf : normalizeCurrency L fromCurrency = Except.ok f)
    (ht : normalizeCurrency L toCurrency = Except.ok t)
    (hb : normalizeCurrency L baseCurrency = Except.ok b)
    (hne : f ≠ t)
    (hR : (getExchangeRates L w b).2 = Except.ok R) :
    (ConvertCurrency L w amount fromCurrency toCurrency baseCurrency).1 = (getExchangeRates L w b).1
    ∧ (∀ v, specConvert R amount f t b = some v →
        (ConvertCurrency L w amount fromCurrency toCurrency baseCurrency).2 = Except.ok v)
    ∧ (specConvert R amount f t b = none ↔
        ((f ≠ b ∧ R.lookup f = none) ∨ (t ≠ b ∧ R.lookup t = none)))
    ∧ (specConvert R amount f t b = none →
        (f ≠ b ∧ R.lookup f = none ∧
          (ConvertCurrency L w amount fromCurrency toCurrency baseCurrency).2
            = Except.error (str "no exchange rate found for " ++ f))
        ∨ (t ≠ b ∧ R.lookup t = none ∧
          (ConvertCurrency L w amount fromCurrency toCurrency baseCurrency).2
            = Except.error (str "no exchange rate found for " ++ t)))
    ∧ (∀ R2 : Rates F, (∀ k, k ≠ b → R2.lookup k = R.lookup k) →
        specConvert R2 amount f t b = specConvert R amount f t b) := by
  rcases hg : getExchangeRates L w b with ⟨w1, res⟩
  rw [hg] at hR
  simp only at hR
  subst hR
  refine ⟨?_, ?_, ?_, ?_, ?_⟩
  · simp only [ConvertCurrency, hf, ht, hb, hne, if_false, hg]
    split_ifs <;> (try rfl) <;> (split <;> rfl)
  · intro v hv
    simp only [ConvertCurrency, hf, ht, hb, hne, if_false, hg]
    unfold specConvert at hv
    by_cases hfb : f = b
    · by_cases htb : t = b
      · simp_all
      · cases hl : R.lookup t <;> simp_all
    · cases hl : R.lookup f
      · simp_all
      · by_cases htb : t = b
        · simp_all
        · cases hl2 : R.lookup t <;> simp_all
  · unfold specConvert
    by_cases hfb : f = b
    · by_cases htb : t = b
      · exact absurd (hfb.trans htb.symm) hne
      · cases hl : R.lookup t <;> simp_all
    · cases hl : R.lookup f
      · simp_all
      · by_cases htb : t = b
        · simp_all
        · cases hl2 : R.lookup t <;> simp_all
  · intro hnone
    simp only [ConvertCurrency, hf, ht, hb, hne, if_false, hg]
    unfold specConvert at hnone
    by_cases hfb : f = b
    · by_cases htb : t = b
      · exact absurd (hfb.trans htb.symm) hne
      · cases hl : R.lookup t <;> simp_all
    · cases hl : R.lookup f
      · simp_all
      · by_cases htb : t = b
        · simp_all
        · cases hl2 : R.lookup t <;> simp_all
  · intro R2 hR2
    unfold specConvert
    by_cases hfb : f = b
    · by_cases htb : t = b
      · simp [hfb, htb]
      · simp [hfb, htb, hR2 t htb]
    · by_cases htb : t = b
      · simp [hfb, htb, hR2 f hfb]
      · simp [hfb, htb, hR2 f hfb, hR2 t htb]



theorem ConvertCurrency_via_base_witness :
    (ConvertCurrency sample.lib sample.cachedWorld (10 : ℚ) (str "eur") (str "gbp") (str "usd")).2
      = Except.ok 20 :=
  (ConvertCurrency_via_base sample.lib sample.cachedWorld 10 (str "eur") (str "gbp") (str "usd")
    (str "EUR") (str "GBP") (str "USD") sample.usdRates (by decide) (by decide) (by decide)
    (by decide) (by decide)).2.1 20 (by decide!)

/-- C8: over exact arithmetic (any field), converting `x` from `A` to `B` with
base `A` and the result back from `B` to `A` gives `x` again, when both calls
obtain the same rate table for `A` and the rate of `B` in it is not zero. -/
theorem ConvertCurrency_round_trip [Field F] (L : Lib F) (w : World F) (x r : F)
    (A B a b : GoString) (R : Rates F)
    (hA : normalizeCurrency L A = Except.ok a)
    (hB : normalizeCurrency L B = Except.ok b)
    (hne : a ≠ b)
    (h1 : (getExchangeRates L w a).2 = Except.ok R)
    (h2 : (getExchangeRates L (getExchangeRates L w a).1 a).2 = Except.ok R)
    (hr : R.lookup b = some r) (hr0 : r ≠ 0) :
    ∃ y, (ConvertCurrency L w x A B A).2 = Except.ok y
      ∧ (ConvertCurrency L (ConvertCurrency L w x A B A).1 y B A A).2 = Except.ok x := by
  rcases hg : getExchangeRates L w a with ⟨w1, res⟩
  rw [hg] at h1 h2
  simp only at h1 h2
  subst h1
  rcases hg2 : getExchangeRates L w1 a with ⟨w2, res2⟩
  rw [hg2] at h2
  simp only at h2
  subst h2
  refine ⟨x * r, ?_, ?_⟩
  · simp [ConvertCurrency, hA, hB, hne, hg, hr, Ne.symm hne]
  · have hw : (ConvertCurrency L w x A B A).1 = w1 := by
      simp [ConvertCurrency, hA, hB, hne, hg, hr, Ne.symm hne]
    rw [hw]
    simp [ConvertCurrency, hA, hB, hne, hg2, hr, Ne.symm hne, mul_div_assoc, div_self hr0]

theorem ConvertCurrency_round_trip_witness :
    ∃ y, (ConvertCurrency sample.lib sample.cachedWorld (10 : ℚ) (str "USD") (str "EUR")
            (str "USD")).2 = Except.ok y
      ∧ (ConvertCurrency sample.lib
          (ConvertCurrency sample.lib sample.cachedWorld (10 : ℚ) (str "USD") (str "EUR")
            (str "USD")).1 y (str "EUR") (str "USD") (str "USD")).2 = Except.ok 10 :=
  ConvertCurrency_round_trip sample.lib sample.cachedWorld 10 2 (str "USD") (str "EUR")
    (str "USD") (str "EUR") sample.usdRates (by decide) (by decide) (by decide) (by decide)
    (by decide) (by decide) (by decide)

/-- The claim of C8 fails in `float64`: with the rate 10 for `EUR` in the table
of the base `USD`, converting `1e308` to `EUR` overflows to `+Inf`, and
converting `+Inf` back gives `+Inf`, which is within no tolerance of `1e308`. -/
theorem ConvertCurrency_float64_overflow :
    (ConvertCurrency sample.floatLib sample.floatWorld sample.float1e308
        (str "USD") (str "EUR") (str "USD")).2 = Except.ok (Float64.inf false)
    ∧ (ConvertCurrency sample.floatLib
        (ConvertCurrency sample.floatLib sample.floatWorld sample.float1e308
          (str "USD") (str "EUR") (str "USD")).1
        (Float64.inf false) (str "EUR") (str "USD") (str "USD")).2
      = Except.ok (Float64.inf false) := by
  decide!

theorem saveCache_requests (L : Lib F) (w : World F) (c : ExchangeRateCache F) :
    (saveCache L w c).1.requests = w.requests := by
  unfold saveCache
  split
  · rfl
  · split
    · rfl
    · split
      · dsimp only
        split <;> rfl
      · rfl

theorem fetchFromFrankfurter_requests (w : World F) (b : GoString) :
    (fetchFromFrankfurter w b).1.requests
      = w.requests ++ [str "https://api.frankfurter.dev/v1/latest?base=" ++ b] := by
  simp only [fetchFromFrankfurter, httpGet]
  cases w.httpGet (str "https://api.frankfurter.dev/v1/latest?base=" ++ b) with
  | failed e => rfl
  | response st body =>
    simp only
    split_ifs
    · rfl
    · cases body <;> rfl

theorem fetchFromOpenER_requests (w : World F) (b : GoString) :
    (fetchFromOpenER w b).1.requests
      = w.requests ++ [str "https://open.er-api.com/v6/latest/" ++ b] := by
  simp only [fetchFromOpenER, httpGet]
  cases w.httpGet (str "https://open.er-api.com/v6/latest/" ++ b) with
  | failed e => rfl
  | response st body =>
    simp only
    split_ifs
    · rfl
    · cases body <;> rfl

theorem fetchExchangeRates_requests (L : Lib F) (w : World F) (baseCurrency b : GoString)
    (hb : normalizeCurrency L baseCurrency = Except.ok b) :
    ∃ more, (fetchExchangeRates L w baseCurrency).1.requests
      = w.requests ++ (str "https://api.frankfurter.dev/v1/latest?base=" ++ b) :: more := by
  have h1 := fetchFromFrankfurter_requests w b
  simp only [fetchExchangeRates, hb]
  rcases hf : fetchFromFrankfurter w b with ⟨w1, r1⟩
  rw [hf] at h1
  cases r1 with
  | ok rates => exact ⟨[], by simpa using h1⟩
  | error e =>
    have h2 := fetchFromOpenER_requests w1 b
    simp only
    rcases ho : fetchFromOpenER w1 b with ⟨w2, r2⟩
    rw [ho] at h2
    simp only at h1 h2
    cases r2 <;> exact ⟨[str "https://open.er-api.com/v6/latest/" ++ b], by simp [h1, h2]⟩

theorem fetchExchangeRates_invalid (L : Lib F) (w : World F) (baseCurrency e : GoString)
    (hb : normalizeCurrency L baseCurrency = Except.error e) :
    fetchExchangeRates L w baseCurrency = (w, Except.error e) := by
  simp only [fetchExchangeRates, hb]

/-- Without a cache hit `getExchangeRates` is its fetch branch. -/
theorem getExchangeRates_miss (L : Lib F) (w : World F) (baseCurrency : GoString)
    (h : ¬ CacheHit w baseCurrency) :
    getExchangeRates L w baseCurrency = fetchAndStore L w baseCurrency := by
  cases hc : w.cacheFile with
  | absent => simp only [getExchangeRates, loadCache, hc]
  | broken e => simp only [getExchangeRates, loadCache, hc]
  | stored c =>
    have : ¬ (c.Base = baseCurrency ∧ isCacheValid w (some c) = true) := by
      rintro ⟨h1, h2⟩
      exact h ⟨c, hc, h1, by simpa [isCacheValid] using h2⟩
    simp only [getExchangeRates, loadCache, hc, if_neg this]

theorem fetchAndStore_requests (L : Lib F) (w : World F) (baseCurrency : GoString) :
    (fetchAndStore L w baseCurrency).1.requests
      = (fetchExchangeRates L w baseCurrency).1.requests := by
  unfold fetchAndStore
  rcases fetchExchangeRates L w baseCurrency with ⟨w1, r⟩
  cases r with
  | error e => rfl
  | ok rates => simp only [saveCache_requests]

theorem getExchangeRates_hit (L : Lib F) (w : World F) (baseCurrency : GoString)
    (c : ExchangeRateCache F) (hc : w.cacheFile = CacheFile.stored c) (hb : c.Base = baseCurrency)
    (hv : wrapInt64 (unixNow w - c.Timestamp) < c.TTL) :
    getExchangeRates L w baseCurrency = (w, Except.ok c.Rates) := by
  unfold getExchangeRates loadCache
  simp [hc, hb, isCacheValid, hv]

/-- On a miss with a valid base the first provider is asked. -/
theorem getExchangeRates_miss_requests (L : Lib F) (w : World F) (baseCurrency b : GoString)
    (hb : normalizeCurrency L baseCurrency = Except.ok b) (h : ¬ CacheHit w baseCurrency) :
    ∃ more, (getExchangeRates L w baseCurrency).1.requests
      = w.requests ++ (str "https://api.frankfurter.dev/v1/latest?base=" ++ b) :: more := by
  obtain ⟨more, hm⟩ := fetchExchangeRates_requests L w baseCurrency b hb
  rw [getExchangeRates_miss L w baseCurrency h, fetchAndStore_requests]
  exact ⟨more, hm⟩

/-- On a miss the result is never the cached one with the request log untouched. -/
theorem getExchangeRates_miss_not_silent (L : Lib F) (w : World F) (baseCurrency : GoString)
    (h : ¬ CacheHit w baseCurrency) (rates : Rates F)
    (hr : (getExchangeRates L w baseCurrency).2 = Except.ok rates) :
    (getExchangeRates L w baseCurrency).1.requests ≠ w.requests := by
  cases hn : normalizeCurrency L baseCurrency with
  | error e =>
    rw [getExchangeRates_miss L w baseCurrency h] at hr
    simp [fetchAndStore, fetchExchangeRates_invalid L w baseCurrency e hn] at hr
  | ok b =>
    obtain ⟨more, hm⟩ := getExchangeRates_miss_requests L w baseCurrency b hn h
    rw [hm]
    intro hcontra
    have := congrArg List.length hcontra
    simp at this

theorem wrapInt64_of_range (z : Int) (h1 : -2 ^ 63 ≤ z) (h2 : z < 2 ^ 63) : wrapInt64 z = z := by
  unfold wrapInt64
  omega

/-- C10: `getExchangeRates` returns the rates of the cache file and asks no
provider exactly when the file loads, its base is the requested one and
`now - Timestamp < TTL` (in the `int64` arithmetic of the code, which is the
difference of the two numbers whenever that fits `int64`); then the world is
left as it was.  Otherwise, for a valid base, the first provider is asked: so
it is for a record written `TTL + 1` seconds ago (`TTL + 1` within `int64`) and
for a record stored for another base, expired or not. -/
theorem getExchangeRates_cache_reuse (L : Lib F) (w : World F) (baseCurrency : GoString) :
    (CacheHit w baseCurrency ↔
        ∃ c, w.cacheFile = CacheFile.stored c
          ∧ (getExchangeRates L w baseCurrency).2 = Except.ok c.Rates
          ∧ (getExchangeRates L w baseCurrency).1.requests = w.requests)
    ∧ (∀ c, w.cacheFile = CacheFile.stored c → c.Base = baseCurrency →
        wrapInt64 (unixNow w - c.Timestamp) < c.TTL →
        getExchangeRates L w baseCurrency = (w, Except.ok c.Rates))
    ∧ (∀ b, normalizeCurrency L baseCurrency = Except.ok b → ¬ CacheHit w baseCurrency →
        ∃ more, (getExchangeRates L w baseCurrency).1.requests
          = w.requests ++ (str "https://api.frankfurter.dev/v1/latest?base=" ++ b) :: more)
    ∧ (∀ c, w.cacheFile = CacheFile.stored c → c.Timestamp = unixNow w - c.TTL - 1 →
        -2 ^ 63 ≤ c.TTL + 1 → c.TTL + 1 < 2 ^ 63 → ¬ CacheHit w baseCurrency)
    ∧ (∀ c, w.cacheFile = CacheFile.stored c → c.Base ≠ baseCurrency →
        ¬ CacheHit w baseCurrency)
    ∧ (∀ c, w.cacheFile = CacheFile.stored c →
        -2 ^ 63 ≤ unixNow w - c.Timestamp → unixNow w - c.Timestamp < 2 ^ 63 →
        (CacheHit w baseCurrency ↔ c.Base = baseCurrency ∧ unixNow w - c.Timestamp < c.TTL)) := by
  refine ⟨⟨?_, ?_⟩, ?_, ?_, ?_, ?_, ?_⟩
  · rintro ⟨c, hc, hb, hv⟩
    refine ⟨c, hc, ?_, ?_⟩ <;> rw [getExchangeRates_hit L w baseCurrency c hc hb hv]
  · rintro ⟨c, _, hr, hq⟩
    by_contra hm
    exact getExchangeRates_miss_not_silent L w baseCurrency hm c.Rates hr hq
  · intro c hc hb hv
    exact getExchangeRates_hit L w baseCurrency c hc hb hv
  · intro b hb hm
    exact getExchangeRates_miss_requests L w baseCurrency b hb hm
  · rintro c hc ht h1 h2 ⟨c2, hc2, _, hv⟩
    rw [hc] at hc2
    cases hc2
    have : unixNow w - c.Timestamp = c.TTL + 1 := by rw [ht]; ring
    rw [this, wrapInt64_of_range _ h1 h2] at hv
    omega
  · rintro c hc hb ⟨c2, hc2, hb2, _⟩
    rw [hc] at hc2
    cases hc2
    exact hb hb2
  · intro c hc h1 h2
    constructor
    · rintro ⟨c2, hc2, hb2, hv⟩
      rw [hc] at hc2
      cases hc2
      rw [wrapInt64_of_range _ h1 h2] at hv
      exact ⟨hb2, hv⟩
    · rintro ⟨hb, hv⟩
      exact ⟨c, hc, hb, by rw [wrapInt64_of_range _ h1 h2]; exact hv⟩

theorem getExchangeRates_cache_reuse_witness :
    ∃ more, (getExchangeRates sample.lib sample.staleWorld (str "USD")).1.requests
      = sample.staleWorld.requests
        ++ (str "https://api.frankfurter.dev/v1/latest?base=" ++ str "USD") :: more :=
  (getExchangeRates_cache_reuse sample.lib sample.staleWorld (str "USD")).2.2.1 (str "USD")
    (by decide)
    ((getExchangeRates_cache_reuse sample.lib sample.staleWorld (str "USD")).2.2.2.1
      { Rates := sample.usdRates, Base := str "USD", Timestamp := 1699996399, TTL := 3600 }
      rfl (by decide) (by decide) (by decide))

end currency

section session

variable {F : Type}

theorem lookup_writeFile (fs : List (GoString × FileContent F)) (name : GoString)
    (c : FileContent F) : (writeFile fs name c).lookup name = some c := by
  unfold writeFile
  split
  · rename_i h
    induction fs with
    | nil => simp at h
    | cons e rest ih =>
      rcases e with ⟨k, v⟩
      by_cases hk : k = name
      · subst hk
        simp [List.lookup_cons]
      · have hne : (name == k) = false := by simpa using fun h => hk h.symm
        simp only [List.lookup_cons, hne] at h
        simp [List.lookup_cons, hk, hne, ih h]
  · rename_i h
    induction fs with
    | nil => simp [List.lookup_cons]
    | cons e rest ih =>
      rcases e with ⟨k, v⟩
      by_cases hk : name = k
      · subst hk
        simp [List.lookup_cons] at h
      · have hne : (name == k) = false := by simpa using hk
        simp only [List.lookup_cons, hne] at h
        simp [List.lookup_cons, hne, ih h]

theorem map_eraseIdx {α β : Type} (f : α → β) (l : List α) (n : Nat) :
    (l.eraseIdx n).map f = (l.map f).eraseIdx n := by
  induction l generalizing n with
  | nil => rfl
  | cons a rest ih =>
    cases n with
    | zero => rfl
    | succ k => simp [List.eraseIdx, ih]

/-- A file in the new format whose name is not empty loads as it is, and the
world is left alone. -/
theorem LoadBudgetFile_stored (L : Lib F) (w : World F) (filename : GoString) (bf : BudgetFile F)
    (hfile : lookupFile w filename = some (FileContent.budgetFile bf)) (hname : bf.Name ≠ []) :
    LoadBudgetFile L w filename = (w, Except.ok bf) := by
  simp [LoadBudgetFile, hfile, hname]

/-- On a working disk `SaveBudgetFile` stores the file under its name, stamped. -/
theorem SaveBudgetFile_ok (L : Lib F) (w : World F) (bf : BudgetFile F)
    (hmk : w.mkdirErr = none) (hwr : w.writeErr = none) (hfin : marshalErr L bf = none) :
    SaveBudgetFile L w bf =
      ({ w with
         files := writeFile w.files bf.Name
                    (FileContent.budgetFile (jsonBudgetFile { bf with UpdatedAt := w.now })) },
       none) := by
  have : marshalErr L { bf with UpdatedAt := w.now } = none := hfin
  simp [SaveBudgetFile, hmk, hwr, this]

/-- What `jsonBudgetFile bf = bf` says field by field. -/
theorem jsonBudgetFile_fixed (bf : BudgetFile F) (hjson : jsonBudgetFile bf = bf) :
    jsonString bf.Name = bf.Name ∧ bf.Wallets.map jsonWallet = bf.Wallets
      ∧ jsonString bf.DefaultCurrency = bf.DefaultCurrency :=
  ⟨congrArg BudgetFile.Name hjson, congrArg BudgetFile.Wallets hjson,
    congrArg BudgetFile.DefaultCurrency hjson⟩

/-- On a working disk, deleting wallet `n` of a stored, well-formed file
rewrites that file without the wallet and touches nothing else. -/
theorem DeleteWalletByIndex_ok (L : Lib F) (w : World F) (path : GoString) (bf : BudgetFile F)
    (n : Nat)
    (hfile : lookupFile w path = some (FileContent.budgetFile bf))
    (hname : bf.Name = path) (hpath : path ≠ [])
    (hjson : jsonBudgetFile bf = bf) (hfin : marshalErr L bf = none)
    (hmk : w.mkdirErr = none) (hwr : w.writeErr = none) (hn : n < bf.Wallets.length) :
    DeleteWalletByIndex L w path (n : Int) =
      ({ w with
         files := writeFile w.files path
                    (FileContent.budgetFile
                      { bf with UpdatedAt := w.now, Wallets := bf.Wallets.eraseIdx n }) },
       none) := by
  subst hname
  obtain ⟨h1, h2, h3⟩ := jsonBudgetFile_fixed bf hjson
  have hload := LoadBudgetFile_stored L w bf.Name bf hfile hpath
  have hfin2 : marshalErr L { bf with Wallets := bf.Wallets.eraseIdx n } = none := by
    unfold marshalErr at hfin ⊢
    exact List.Sublist.findSome?_eq_none (List.eraseIdx_sublist _ _) hfin
  have hidx : ¬ ((n : Int) < 0 ∨ (n : Int) ≥ (bf.Wallets.length : Int)) := by omega
  simp only [DeleteWalletByIndex, hload, if_neg hidx, Int.toNat_ofNat,
    SaveBudgetFile_ok L w _ hmk hwr hfin2]
  simp only [jsonBudgetFile, map_eraseIdx, h1, h2, h3]

/-- The storage functions change nothing of the world but the budget files. -/
theorem SaveBudgetFile_frame (L : Lib F) (w : World F) (bf : BudgetFile F) :
    ∃ fs, (SaveBudgetFile L w bf).1 = { w with files := fs } := by
  unfold SaveBudgetFile
  split
  · exact ⟨w.files, rfl⟩
  · dsimp only
    split
    · exact ⟨w.files, rfl⟩
    · split
      · unfold failedWrite
        split
        · exact ⟨_, rfl⟩
        · exact ⟨w.files, rfl⟩
      · exact ⟨_, rfl⟩

theorem LoadBudgetFile_frame (L : Lib F) (w : World F) (filename : GoString) :
    ∃ fs, (LoadBudgetFile L w filename).1 = { w with files := fs } := by
  unfold LoadBudgetFile
  split
  · exact ⟨w.files, rfl⟩
  · exact ⟨w.files, rfl⟩
  · split
    · exact ⟨w.files, rfl⟩
    · exact SaveBudgetFile_frame L w _
  · exact SaveBudgetFile_frame L w _
  · exact ⟨w.files, rfl⟩

theorem frame_trans (w w1 w2 : World F) (h1 : ∃ fs, w1 = { w with files := fs })
    (h2 : ∃ fs, w2 = { w1 with files := fs }) : ∃ fs, w2 = { w with files := fs } := by
  obtain ⟨f1, rfl⟩ := h1
  obtain ⟨f2, rfl⟩ := h2
  exact ⟨f2, rfl⟩

theorem DeleteWalletByIndex_frame (L : Lib F) (w : World F) (filename : GoString) (i : Int) :
    ∃ fs, (DeleteWalletByIndex L w filename i).1 = { w with files := fs } := by
  have h := LoadBudgetFile_frame L w filename
  unfold DeleteWalletByIndex
  rcases hl : LoadBudgetFile L w filename with ⟨w1, r⟩
  rw [hl] at h
  cases r with
  | error e => exact h
  | ok bf =>
    simp only
    split_ifs
    · exact h
    · exact frame_trans w w1 _ h (SaveBudgetFile_frame L w1 _)

theorem DeleteBudgetFile_frame (w : World F) (filename : GoString) :
    ∃ fs, (DeleteBudgetFile w filename).1 = { w with files := fs } := by
  unfold DeleteBudgetFile
  split_ifs
  · exact ⟨w.files, rfl⟩
  · split
    · exact ⟨w.files, rfl⟩
    · exact ⟨_, rfl⟩

theorem loadAll_frame (L : Lib F) (w : World F) (names : List GoString) :
    ∃ fs, (loadAll L w names).1 = { w with files := fs } := by
  induction names generalizing w with
  | nil => exact ⟨w.files, rfl⟩
  | cons a rest ih =>
    have h := LoadBudgetFile_frame L w a
    unfold loadAll
    rcases hl : LoadBudgetFile L w a with ⟨w1, r⟩
    rw [hl] at h
    cases r with
    | error e => exact frame_trans w w1 _ h (ih w1)
    | ok bf => exact frame_trans w w1 _ h (ih w1)

theorem ListBudgetFiles_frame (L : Lib F) (w : World F) :
    ∃ fs, (ListBudgetFiles L w).1 = { w with files := fs } := by
  unfold ListBudgetFiles
  split
  · exact ⟨w.files, rfl⟩
  · exact loadAll_frame L w _

theorem runAction_frame (L : Lib F) (w : World F) (a : Action) :
    ∃ fs, (runAction L w a).1 = { w with files := fs, actionsRun := w.actionsRun + 1 } := by
  cases a with
  | deleteWallet path idx =>
    obtain ⟨fs, h⟩ := DeleteWalletByIndex_frame L { w with actionsRun := w.actionsRun + 1 } path idx
    exact ⟨fs, by simp only [runAction, h]⟩
  | deleteBudget name =>
    obtain ⟨fs, h⟩ := DeleteBudgetFile_frame { w with actionsRun := w.actionsRun + 1 } name
    exact ⟨fs, by simp only [runAction, h]⟩

theorem reloadWallets_frame (L : Lib F) (w : World F) (m : model F) :
    (∃ fs, (reloadWallets L w m).1 = { w with files := fs })
    ∧ ∃ ws e, (reloadWallets L w m).2 = { m with wallets := ws, err := e } := by
  unfold reloadWallets loadWallets
  split_ifs
  · exact ⟨⟨w.files, rfl⟩, _, _, rfl⟩
  · have h := LoadBudgetFile_frame L w m.currentPath
    rcases hl : LoadBudgetFile L w m.currentPath with ⟨w1, r⟩
    rw [hl] at h
    cases r with
    | error e => exact ⟨h, _, _, rfl⟩
    | ok bf => exact ⟨h, _, _, rfl⟩

theorem refreshFiles_frame (L : Lib F) (w : World F) (m : model F) :
    (∃ fs, (refreshFiles L w m).1 = { w with files := fs })
    ∧ ∃ fl e, (refreshFiles L w m).2 = { m with availableFiles := fl, err := e } := by
  have h := ListBudgetFiles_frame L w
  unfold refreshFiles
  rcases hl : ListBudgetFiles L w with ⟨w1, r⟩
  rw [hl] at h
  cases r with
  | error e => exact ⟨h, _, _, rfl⟩
  | ok fl => exact ⟨h, _, _, rfl⟩

theorem backToOrigin_idle (m : model F) :
    Idle (backToOrigin m) ∧ (backToOrigin m).currentScreen = m.originScreen :=
  ⟨⟨rfl, rfl, rfl, rfl, rfl, rfl, rfl⟩, rfl⟩

theorem runContinuation_idle (L : Lib F) (w : World F) (m : model F) (c : Continuation)
    (hm : Idle m) :
    (∃ fs, (runContinuation L w m c).1 = { w with files := fs })
    ∧ Idle (runContinuation L w m c).2.1
    ∧ (runContinuation L w m c).2.1.currentScreen = m.currentScreen
    ∧ (runContinuation L w m c).2.2 = Cmd.none := by
  obtain ⟨h1, h2, h3, h4, h5, h6, h7⟩ := hm
  cases c with
  | reloadWallets =>
    obtain ⟨hw, ws, e, hr⟩ := reloadWallets_frame L w m
    simp only [runContinuation, hr]
    refine ⟨hw, ?_, ?_, trivial⟩
    · cases e <;> exact ⟨h1, h2, h3, h4, h5, h6, h7⟩
    · cases e <;> rfl
  | refreshFiles =>
    obtain ⟨hw, fl, e, hr⟩ := refreshFiles_frame L w m
    simp only [runContinuation, hr]
    exact ⟨hw, ⟨h1, h2, h3, h4, h5, h6, h7⟩, trivial, trivial⟩

/-- A `y` or `Y` on a screen other than Confirmation, with the inputs cleared,
is at most a character typed: the world is not touched. -/
theorem Update_yes_idle [Zero F] [Add F] (L : Lib F) (w : World F) (m : model F) (k : GoString)
    (hk : k = str "y" ∨ k = str "Y") (hm : Idle m)
    (hs : m.currentScreen ≠ screen.confirmationScreen) :
    ∃ m2, Update L w m (Msg.key k) = some (w, m2, Cmd.none)
      ∧ m2.confirmationAction = none ∧ m2.onConfirm = none
      ∧ m2.currentScreen = m.currentScreen := by
  obtain ⟨h1, h2, h3, h4, h5, h6, h7⟩ := hm
  have e1 : str "y" ≠ str "ctrl+c" ∧ str "Y" ≠ str "ctrl+c" := by decide
  have e2 : str "y" ≠ str "enter" ∧ str "Y" ≠ str "enter" := by decide
  have e3 : str "y" ≠ str "esc" ∧ str "Y" ≠ str "esc" := by decide
  have e4 : str "y" ≠ str "d" ∧ str "Y" ≠ str "d" := by decide
  have e5 : str "y" ≠ str "delete" ∧ str "Y" ≠ str "delete" := by decide
  have e6 : str "y" ≠ str "up" ∧ str "Y" ≠ str "up" := by decide
  have e7 : str "y" ≠ str "down" ∧ str "Y" ≠ str "down" := by decide
  have e8 : str "y" ≠ str "backspace" ∧ str "Y" ≠ str "backspace" := by decide
  have e9 : str "y" ≠ str "left" ∧ str "Y" ≠ str "left" := by decide
  have e10 : str "y" ≠ str "right" ∧ str "Y" ≠ str "right" := by decide
  cases hsc : m.currentScreen with
  | confirmationScreen => exact absurd hsc hs
  | greetingScreen =>
    rcases hk with rfl | rfl <;>
      exact ⟨m, by simp [Update, hsc, handleGreetingInput, e1, e2, e3, e4, e5, e6, e7], h6, h7, hsc⟩
  | budgetCreationScreen =>
    rcases hk with rfl | rfl
    · exact ⟨{ m with creationInput := str "y", creationCursorPos := 1 },
        by simp [Update, hsc, handleBudgetCreationInput, e1, e2, e3, e8, e9, e10, insertAt,
          sliceTo, sliceFrom, h3, h4], h6, h7, hsc⟩
    · exact ⟨{ m with creationInput := str "Y", creationCursorPos := 1 },
        by simp [Update, hsc, handleBudgetCreationInput, e1, e2, e3, e8, e9, e10, insertAt,
          sliceTo, sliceFrom, h3, h4], h6, h7, hsc⟩
  | walletScreen =>
    rcases hk with rfl | rfl
    · exact ⟨{ m with commandInput := str "y", cursorPos := 1 },
        by simp [Update, hsc, handleWalletInput, e1, e2, e3, e8, e9, e10, insertAt,
          sliceTo, sliceFrom, h1, h2], h6, h7, hsc⟩
    · exact ⟨{ m with commandInput := str "Y", cursorPos := 1 },
        by simp [Update, hsc, handleWalletInput, e1, e2, e3, e8, e9, e10, insertAt,
          sliceTo, sliceFrom, h1, h2], h6, h7, hsc⟩
  | walletCreationScreen =>
    rcases hk with rfl | rfl
    · exact ⟨{ m with creationInput := str "y", creationCursorPos := 1 },
        by simp [Update, hsc, handleWalletCreationInput, e1, e2, e3, e6, e7, e8, e9, e10,
          insertAt, sliceTo, sliceFrom, textStep, h3, h4, h5], h6, h7, hsc⟩
    · exact ⟨{ m with creationInput := str "Y", creationCursorPos := 1 },
        by simp [Update, hsc, handleWalletCreationInput, e1, e2, e3, e6, e7, e8, e9, e10,
          insertAt, sliceTo, sliceFrom, textStep, h3, h4, h5], h6, h7, hsc⟩

/-- C2: on the Confirmation screen with an action staged (the origin recorded
at staging is another screen), a `y` or `Y` runs the staged action once (the
count of runs grows by one and nothing but the budget files changes), clears
action and continuation and shows the origin screen; any later `y` or `Y` given
to `Update`, in whatever world, leaves that world as it is: the action is not
run again. -/
theorem confirm_yes_runs_once [Zero F] [Add F] (L : Lib F) (w : World F) (m : model F)
    (a : Action) (k : GoString)
    (hk : k = str "y" ∨ k = str "Y")
    (hs : m.currentScreen = screen.confirmationScreen)
    (ha : m.confirmationAction = some a)
    (ho : m.originScreen ≠ screen.confirmationScreen) :
    ∃ w1 m1, Update L w m (Msg.key k) = some (w1, m1, Cmd.none)
      ∧ (∃ fs, w1 = { w with files := fs, actionsRun := w.actionsRun + 1 })
      ∧ m1.confirmationAction = none ∧ m1.onConfirm = none
      ∧ m1.currentScreen = m.originScreen
      ∧ ∀ (w2 : World F) (k2 : GoString), k2 = str "y" ∨ k2 = str "Y" →
          ∃ m2, Update L w2 m1 (Msg.key k2) = some (w2, m2, Cmd.none)
            ∧ m2.confirmationAction = none ∧ m2.onConfirm = none := by
  have e1 : str "y" ≠ str "ctrl+c" ∧ str "Y" ≠ str "ctrl+c" := by decide
  have hkc : k ≠ str "ctrl+c" := by rcases hk with rfl | rfl <;> simp [e1]
  have hU : Update L w m (Msg.key k) = handleConfirmationInput L w m k := by
    simp only [Update, hkc, if_false, hs]
  obtain ⟨fs, hfs⟩ := runAction_frame L w a
  obtain ⟨hidle, horigin⟩ := backToOrigin_idle m
  -- what is left to show once the resulting state is known to be idle
  have finish : ∀ (w1 : World F) (m1 : model F),
      handleConfirmationInput L w m k = some (w1, m1, Cmd.none) →
      (∃ fs, w1 = { w with files := fs, actionsRun := w.actionsRun + 1 }) →
      Idle m1 → m1.currentScreen = m.originScreen →
      ∃ w1 m1, Update L w m (Msg.key k) = some (w1, m1, Cmd.none)
        ∧ (∃ fs, w1 = { w with files := fs, actionsRun := w.actionsRun + 1 })
        ∧ m1.confirmationAction = none ∧ m1.onConfirm = none
        ∧ m1.currentScreen = m.originScreen
        ∧ ∀ (w2 : World F) (k2 : GoString), k2 = str "y" ∨ k2 = str "Y" →
            ∃ m2, Update L w2 m1 (Msg.key k2) = some (w2, m2, Cmd.none)
              ∧ m2.confirmationAction = none ∧ m2.onConfirm = none := by
    intro w1 m1 hres hw1 hid hsc
    refine ⟨w1, m1, hU.trans hres, hw1, hid.2.2.2.2.2.1, hid.2.2.2.2.2.2, hsc, ?_⟩
    intro w2 k2 hk2
    obtain ⟨m2, h1, h2, h3, _⟩ := Update_yes_idle L w2 m1 k2 hk2 hid (by rw [hsc]; exact ho)
    exact ⟨m2, h1, h2, h3⟩
  rcases hr : runAction L w a with ⟨wa, res⟩
  rw [hr] at hfs
  simp only at hfs
  cases res with
  | some err =>
    refine finish wa (backToOrigin { m with err := some (str "action failed: " ++ err) }) ?_
      ⟨fs, hfs⟩ (backToOrigin_idle _).1 (backToOrigin_idle _).2
    simp only [handleConfirmationInput, hk, if_true, ha, hr]
  | none =>
    cases hc : m.onConfirm with
    | none =>
      refine finish wa (backToOrigin m) ?_ ⟨fs, hfs⟩ hidle horigin
      simp only [handleConfirmationInput, hk, if_true, ha, hr, hc]
    | some c =>
      obtain ⟨⟨fs2, hw2⟩, hid2, hsc2, hcmd⟩ := runContinuation_idle L wa (backToOrigin m) c hidle
      refine finish (runContinuation L wa (backToOrigin m) c).1
        (runContinuation L wa (backToOrigin m) c).2.1 ?_ ⟨fs2, ?_⟩ hid2 (hsc2.trans horigin)
      · simp only [handleConfirmationInput, hk, if_true, ha, hr, hc]
        rw [← hcmd]
      · rw [hw2, hfs]

theorem confirm_yes_runs_once_witness :
    (∃ w1 m1, Update sample.lib sample.world sample.staged (Msg.key (str "y"))
        = some (w1, m1, Cmd.none)
      ∧ (∃ fs, w1 = { sample.world with files := fs, actionsRun := sample.world.actionsRun + 1 })
      ∧ m1.confirmationAction = none ∧ m1.onConfirm = none
      ∧ m1.currentScreen = sample.staged.originScreen
      ∧ ∀ (w2 : World ℚ) (k2 : GoString), k2 = str "y" ∨ k2 = str "Y" →
          ∃ m2, Update sample.lib w2 m1 (Msg.key k2) = some (w2, m2, Cmd.none)
            ∧ m2.confirmationAction = none ∧ m2.onConfirm = none)
    ∧ (sample.runKeys sample.lib sample.world sample.staged [str "y", str "y"]).map
        (fun r => (sample.storedWallets r.1 (str "home"), r.1.actionsRun))
        = some (some [sample.homeWallets[0], sample.homeWallets[2]], 1) :=
  ⟨confirm_yes_runs_once sample.lib sample.world sample.staged
      (Action.deleteWallet (str "home") 1) (str "y") (Or.inl rfl) (by decide) (by decide)
      (by decide),
    by decide⟩

/-- C4: on a working disk, for a stored, well-formed budget file whose wallets
are the snapshot of the session, staging `delete n` (any token that parses to
an index `n` in range) and confirming with `y` rewrites the file with wallet
`n` removed and the others in their order, makes the snapshot equal to what is
stored, and empties the hidden set, whatever it held. -/
theorem delete_then_confirm [Zero F] [Add F] (L : Lib F) (w : World F) (m : model F)
    (bf : BudgetFile F) (tok : GoString) (n : Nat)
    (hpath : m.currentPath ≠ [])
    (hfile : lookupFile w m.currentPath = some (FileContent.budgetFile bf))
    (hname : bf.Name = m.currentPath)
    (hjson : jsonBudgetFile bf = bf) (hfin : marshalErr L bf = none)
    (hsnap : m.wallets = bf.Wallets)
    (hmk : w.mkdirErr = none) (hwr : w.writeErr = none)
    (htok : Atoi tok = some (n : Int)) (hn : n < bf.Wallets.length) :
    ∃ w2 m2 bf2,
      Update L w (handleDeleteCommand m tok).1 (Msg.key (str "y")) = some (w2, m2, Cmd.none)
      ∧ lookupFile w2 m.currentPath = some (FileContent.budgetFile bf2)
      ∧ bf2.Wallets = bf.Wallets.eraseIdx n
      ∧ m2.wallets = bf2.Wallets
      ∧ m2.hiddenIndexes = ∅
      ∧ m2.currentScreen = screen.walletScreen
      ∧ bf2.Wallets.length = bf.Wallets.length - 1
      ∧ (∀ j, j < n → bf2.Wallets[j]? = bf.Wallets[j]?)
      ∧ (∀ j, n ≤ j → bf2.Wallets[j]? = bf.Wallets[j + 1]?) := by
  obtain ⟨h1, h2, h3⟩ := jsonBudgetFile_fixed bf hjson
  have hidx : index m.wallets (n : Int) = m.wallets[n]? := by
    have : (0 : Int) ≤ n ∧ (n : Int) < (m.wallets.length : Int) := by rw [hsnap]; omega
    simp [index, this]
  obtain ⟨x, hx⟩ : ∃ x, m.wallets[n]? = some x := by
    rw [hsnap]
    exact ⟨bf.Wallets[n], List.getElem?_eq_getElem hn⟩
  have hdel := DeleteWalletByIndex_ok L { w with actionsRun := w.actionsRun + 1 } m.currentPath bf n
    hfile hname hpath hjson hfin hmk hwr hn
  have hyc : str "y" ≠ str "ctrl+c" := by decide
  have hlook : lookupFile
      { w with
        actionsRun := w.actionsRun + 1,
        files := writeFile w.files m.currentPath
                   (FileContent.budgetFile
                     { bf with UpdatedAt := w.now, Wallets := bf.Wallets.eraseIdx n }) }
      m.currentPath
      = some (FileContent.budgetFile
          { bf with UpdatedAt := w.now, Wallets := bf.Wallets.eraseIdx n }) :=
    lookup_writeFile _ _ _
  refine ⟨{ w with
            actionsRun := w.actionsRun + 1,
            files := writeFile w.files m.currentPath
                       (FileContent.budgetFile
                         { bf with UpdatedAt := w.now, Wallets := bf.Wallets.eraseIdx n }) },
    { backToOrigin (handleDeleteCommand m tok).1 with
      wallets := bf.Wallets.eraseIdx n, err := none, hiddenIndexes := ∅ },
    { bf with UpdatedAt := w.now, Wallets := bf.Wallets.eraseIdx n }, ?_, hlook, rfl, rfl, rfl, ?_,
    ?_, ?_, ?_⟩
  · have hload := LoadBudgetFile_stored L _ m.currentPath _ hlook (by simpa [hname] using hpath)
    simp only [handleDeleteCommand, htok, hidx, hx, Update, hyc, if_false,
      handleConfirmationInput, true_or, if_true, runAction, hdel, runContinuation,
      reloadWallets, loadWallets, backToOrigin, CleanSlates, hpath, hload]
  · simp [handleDeleteCommand, htok, hidx, hx, backToOrigin, CleanSlates]
  · simp only [List.length_eraseIdx, hn, if_true]
  · intro j hj
    exact List.getElem?_eraseIdx_of_lt _ _ _ hj
  · intro j hj
    exact List.getElem?_eraseIdx_of_ge _ _ _ hj

theorem delete_then_confirm_witness :
    ∃ w2 m2 bf2,
      Update sample.lib sample.world (handleDeleteCommand sample.onHomeHidden (str "1")).1
          (Msg.key (str "y")) = some (w2, m2, Cmd.none)
      ∧ lookupFile w2 sample.onHomeHidden.currentPath = some (FileContent.budgetFile bf2)
      ∧ bf2.Wallets = sample.home.Wallets.eraseIdx 1
      ∧ m2.wallets = bf2.Wallets
      ∧ m2.hiddenIndexes = ∅
      ∧ m2.currentScreen = screen.walletScreen
      ∧ bf2.Wallets.length = sample.home.Wallets.length - 1
      ∧ (∀ j, j < 1 → bf2.Wallets[j]? = sample.home.Wallets[j]?)
      ∧ (∀ j, 1 ≤ j → bf2.Wallets[j]? = sample.home.Wallets[j + 1]?) :=
  delete_then_confirm sample.lib sample.world sample.onHomeHidden sample.home (str "1") 1
    (by decide) (by decide) (by decide) (by decide) (by decide) (by decide) (by decide)
    (by decide) (by decide) (by decide)

/-- A token in range followed by a bad token: the command stops at the bad
token with the first index already hidden. -/
theorem hideLoop_valid_then_invalid (m : model F) (t1 t2 : GoString) (rest : List GoString)
    (i : Int) (count : Int)
    (h1 : Atoi (TrimSpace t1) = some i) (hi : 0 ≤ i ∧ i < m.wallets.length)
    (h2 : Atoi (TrimSpace t2) = none
      ∨ ∃ j, Atoi (TrimSpace t2) = some j ∧ (j < 0 ∨ j ≥ m.wallets.length)) :
    (hideLoop m (t1 :: t2 :: rest) count).1.hiddenIndexes = insert i m.hiddenIndexes := by
  have hin : ¬ (i < 0 ∨ i ≥ (m.wallets.length : Int)) := by omega
  rcases h2 with h2 | ⟨j, h2, hj⟩
  · simp only [hideLoop, h1, if_neg hin, h2]
  · simp only [hideLoop, h1, if_neg hin, h2, if_pos hj]

/-- C1 (defect of the code): on the three-wallet budget with nothing hidden,
`hide 0,99` answers that index 99 is out of range, yet index 0 has been hidden:
the loop hides each index before it looks at the next token. -/
theorem handleHideCommand_partial_effect :
    sample.onHome.wallets.length = 3 ∧ sample.onHome.hiddenIndexes = ∅
    ∧ (handleHideCommand sample.onHome (str "0,99")).2 = str "Index 99 is out of range (0-2)"
    ∧ (handleHideCommand sample.onHome (str "0,99")).1.hiddenIndexes = {0}
    ∧ (HandleCommand sample.lib sample.world sample.onHome (str "hide 0,99")).map
        (fun r => (r.2.1.hiddenIndexes, r.2.2))
        = some ({0}, str "Index 99 is out of range (0-2)") := by
  refine ⟨by decide, by decide, by decide, by decide, by decide⟩

/-- When the staged action fails, a `y` or `Y` leaves the continuation alone
(snapshot, hidden set and file list are as before) and shows the origin screen;
the error field is `nil` afterwards, the assignment to `m.err` being undone by
`CleanSlates`. -/
theorem confirm_yes_failed_action [Zero F] [Add F] (L : Lib F) (w : World F) (m : model F)
    (a : Action) (e k : GoString)
    (hk : k = str "y" ∨ k = str "Y")
    (hs : m.currentScreen = screen.confirmationScreen)
    (ha : m.confirmationAction = some a)
    (hfail : (runAction L w a).2 = some e) :
    ∃ m1, Update L w m (Msg.key k) = some ((runAction L w a).1, m1, Cmd.none)
      ∧ m1.err = none
      ∧ m1.currentScreen = m.originScreen
      ∧ m1.wallets = m.wallets ∧ m1.hiddenIndexes = m.hiddenIndexes
      ∧ m1.availableFiles = m.availableFiles := by
  have e1 : str "y" ≠ str "ctrl+c" ∧ str "Y" ≠ str "ctrl+c" := by decide
  have hkc : k ≠ str "ctrl+c" := by rcases hk with rfl | rfl <;> simp [e1]
  rcases hr : runAction L w a with ⟨wa, res⟩
  rw [hr] at hfail
  simp only at hfail
  subst hfail
  refine ⟨backToOrigin { m with err := some (str "action failed: " ++ e) }, ?_, rfl, rfl, rfl, rfl,
    rfl⟩
  simp only [Update, hkc, if_false, hs, handleConfirmationInput, hk, if_true, ha, hr]

/-- C3 (defect of the code): a wallet delete is staged on `home` and confirmed
with `y` while the disk is full.  The action fails with a write error, the
continuation is not run (wallets and hidden set untouched) and the session is
back on the Wallet screen, but the error field is `nil`: `CleanSlates` runs
after the assignment of `m.err` and clears it. -/
theorem confirm_failure_is_not_recorded :
    (handleDeleteCommand sample.onHome (str "1")).1.confirmationAction
      = some (Action.deleteWallet (str "home") 1)
    ∧ (runAction sample.lib sample.fullDisk (Action.deleteWallet (str "home") 1)).2
      = some (str "failed to write budget file \x27home\x27: no space left on device")
    ∧ (Update sample.lib sample.fullDisk (handleDeleteCommand sample.onHome (str "1")).1
        (Msg.key (str "y"))).map (fun r => (r.2.1.err, r.2.1.currentScreen, r.2.1.wallets))
      = some (none, screen.walletScreen, sample.homeWallets) := by
  refine ⟨by decide, by decide, by decide⟩

/-- C5 (defect of the code): the hidden set is emptied by a confirmed delete
only.  After `hide 0` on `home`, leaving for the Greeting screen and opening
`trip` shows the one wallet of `trip` with index 0 still hidden; and after
`hide 0` on `home`, a wallet created with the wizard grows the snapshot to four
wallets with index 0 still hidden. -/
theorem hidden_set_survives_new_snapshot :
    (sample.runKeys sample.lib sample.world sample.start
        (sample.openHomeHide0 ++ sample.switchBudget)).map
      (fun r => (r.2.currentScreen, r.2.currentPath, r.2.wallets.length, r.2.hiddenIndexes))
      = some (screen.walletScreen, str "trip", 1, {0})
    ∧ (sample.runKeys sample.lib sample.world sample.start
        (sample.openHomeHide0 ++ sample.createWalletX)).map
      (fun r => (r.2.currentScreen, r.2.currentPath, r.2.wallets.length, r.2.hiddenIndexes))
      = some (screen.walletScreen, str "home", 4, {0}) := by
  refine ⟨by decide, by decide⟩

end session

section commands
variable {F : Type}

/-- A command line whose first field is `delete` and that has a second field
is handed to `handleDeleteCommand`; the world is not touched. -/
theorem HandleCommand_delete [Zero F] [Add F] (L : Lib F) (w : World F) (m : model F)
    (cmd tok : GoString) (rest : List GoString)
    (hf : Fields cmd = str "delete" :: tok :: rest) :
    HandleCommand L w m cmd
      = some (w, (handleDeleteCommand m tok).1, (handleDeleteCommand m tok).2) := by
  have h1 : str "delete" ≠ str "help" := by decide
  have h2 : str "delete" ≠ str "filter" := by decide
  have h3 : str "delete" ≠ str "hide" := by decide
  have h4 : str "delete" ≠ str "currency" := by decide
  have h5 : str "delete" ≠ str "new" := by decide
  have h6 : str "delete" ≠ str "adjust" := by decide
  simp only [HandleCommand, hf, h1, h2, h3, h4, h5, h6, if_false, if_true]

/-- C13: `delete` with a token that parses to an index `n` of the snapshot
changes neither the world nor the snapshot: the session differs from the one
before only in the pending confirmation (a prompt naming wallet `n` and its
owner, the delete of index `n` of the current path as action, the reload as
continuation), the origin screen `Wallet` and the current screen
`Confirmation`; with a token that is no integer, or an index out of range,
the session is returned as it was, with an error message. -/
theorem delete_command_stages_only [Zero F] [Add F] (L : Lib F) (w : World F) (m : model F)
    (cmd tok : GoString) (rest : List GoString)
    (hf : Fields cmd = str "delete" :: tok :: rest) :
    HandleCommand L w m cmd
      = some (w, (handleDeleteCommand m tok).1, (handleDeleteCommand m tok).2)
    ∧ (∀ (n : Nat) (x : Wallet F), Atoi tok = some (n : Int) → m.wallets[n]? = some x →
        handleDeleteCommand m tok =
          ({ m with
             confirmationMessage := str "Are you sure you want to delete wallet \x27" ++ x.Name
               ++ str "\x27 (owned by " ++ x.Owner ++ str ")?",
             originScreen := screen.walletScreen,
             confirmationAction := some (Action.deleteWallet m.currentPath n),
             onConfirm := some Continuation.reloadWallets,
             currentScreen := screen.confirmationScreen }, []))
    ∧ (Atoi tok = none → handleDeleteCommand m tok = (m, str "Invalid index: " ++ tok))
    ∧ (∀ i : Int, Atoi tok = some i → (i < 0 ∨ i ≥ m.wallets.length) →
        handleDeleteCommand m tok = (m, indexRangeMsg i m.wallets.length)) := by
  refine ⟨HandleCommand_delete L w m cmd tok rest hf, ?_, ?_, ?_⟩
  · intro n x htok hx
    have hlt : n < m.wallets.length := by
      by_contra h
      rw [List.getElem?_eq_none (by omega)] at hx
      cases hx
    have hidx : index m.wallets (n : Int) = some x := by
      have : (0 : Int) ≤ n ∧ (n : Int) < (m.wallets.length : Int) := by omega
      simp [index, this, hx]
    simp only [handleDeleteCommand, htok, hidx]
  · intro htok
    simp only [handleDeleteCommand, htok]
  · intro i htok hi
    have hidx : index m.wallets i = none := by
      have : ¬ ((0 : Int) ≤ i ∧ i < (m.wallets.length : Int)) := by omega
      simp [index, this]
    simp only [handleDeleteCommand, htok, hidx]

theorem delete_command_stages_only_witness :
    HandleCommand sample.lib sample.world sample.onHomeHidden (str "delete 1")
      = some (sample.world, (handleDeleteCommand sample.onHomeHidden (str "1")).1,
          (handleDeleteCommand sample.onHomeHidden (str "1")).2)
    ∧ (handleDeleteCommand sample.onHomeHidden (str "1")).1.confirmationMessage
      = str "Are you sure you want to delete wallet \x27Bank\x27 (owned by ann)?"
    ∧ (handleDeleteCommand sample.onHomeHidden (str "7")).2 = str "Index 7 is out of range (0-2)" :=
  ⟨(delete_command_stages_only sample.lib sample.world sample.onHomeHidden (str "delete 1")
      (str "1") [] (by decide)).1,
    by decide, by decide⟩

/-- C14: on the Confirmation screen `n`, `N` and `esc` leave the world as it is
(no action is run, no file touched), keep the snapshot and the hidden set,
clear prompt, action and continuation, and show the origin screen. -/
theorem confirm_no_discards [Zero F] [Add F] (L : Lib F) (w : World F) (m : model F)
    (k : GoString) (hk : k = str "n" ∨ k = str "N" ∨ k = str "esc")
    (hs : m.currentScreen = screen.confirmationScreen) :
    ∃ m1, Update L w m (Msg.key k) = some (w, m1, Cmd.none)
      ∧ m1.wallets = m.wallets ∧ m1.hiddenIndexes = m.hiddenIndexes
      ∧ m1.confirmationMessage = [] ∧ m1.confirmationAction = none ∧ m1.onConfirm = none
      ∧ m1.currentScreen = m.originScreen := by
  have e1 : str "n" ≠ str "ctrl+c" ∧ str "N" ≠ str "ctrl+c" ∧ str "esc" ≠ str "ctrl+c" := by
    decide
  have e2 : str "n" ≠ str "y" ∧ str "N" ≠ str "y" ∧ str "esc" ≠ str "y" := by decide
  have e3 : str "n" ≠ str "Y" ∧ str "N" ≠ str "Y" ∧ str "esc" ≠ str "Y" := by decide
  refine ⟨backToOrigin m, ?_, rfl, rfl, rfl, rfl, rfl, rfl⟩
  rcases hk with rfl | rfl | rfl <;>
    simp [Update, hs, handleConfirmationInput, e1, e2, e3]

theorem confirm_no_discards_witness :
    ∃ m1, Update sample.lib sample.world sample.staged (Msg.key (str "n"))
        = some (sample.world, m1, Cmd.none)
      ∧ m1.wallets = sample.staged.wallets ∧ m1.hiddenIndexes = sample.staged.hiddenIndexes
      ∧ m1.confirmationMessage = [] ∧ m1.confirmationAction = none ∧ m1.onConfirm = none
      ∧ m1.currentScreen = sample.staged.originScreen :=
  confirm_no_discards sample.lib sample.world sample.staged (str "n") (Or.inl rfl) (by decide)
end commands

section wizard
variable {F : Type}

/-- What `populateOptions` leaves in the world and in the session: the world of
the load, and the session with the new suggestion list (and possibly the
selection reset). -/
theorem populateOptions_result (L : Lib F) (w : World F) (m : model F)
    (field : Wallet F → GoString) (onError defaults : List GoString) (custom : GoString) :
    (populateOptions L w m field onError defaults custom).1 = (LoadBudgetFile L w m.currentPath).1
    ∧ ∃ opts,
        opts = (match (LoadBudgetFile L w m.currentPath).2 with
          | Except.error _ => onError
          | Except.ok budgetFile =>
            if budgetFile.Wallets.isEmpty then defaults ++ [custom]
            else distinctOptions (LoadBudgetFile L w m.currentPath).1
                   (budgetFile.Wallets.map field) custom)
        ∧ ((populateOptions L w m field onError defaults custom).2 = { m with creationOptions := opts }
          ∨ (populateOptions L w m field onError defaults custom).2
              = { m with creationOptions := opts, selectedOption := 0 }) := by
  unfold populateOptions
  rcases LoadBudgetFile L w m.currentPath with ⟨w1, r⟩
  cases r with
  | error e => exact ⟨rfl, _, rfl, Or.inl rfl⟩
  | ok bf =>
    dsimp only
    split_ifs <;> first
      | exact ⟨rfl, _, rfl, Or.inl rfl⟩
      | exact ⟨rfl, _, rfl, Or.inr rfl⟩

/-- The suggestion list that `populateOptions` computes depends on the session
through the current path only. -/
theorem populateOptions_options_congr (L : Lib F) (w : World F) (m m2 : model F)
    (field : Wallet F → GoString) (onError defaults : List GoString) (custom : GoString)
    (h : m.currentPath = m2.currentPath) :
    (populateOptions L w m field onError defaults custom).2.creationOptions
      = (populateOptions L w m2 field onError defaults custom).2.creationOptions := by
  obtain ⟨_, o1, ho1, h1⟩ := populateOptions_result L w m field onError defaults custom
  obtain ⟨_, o2, ho2, h2⟩ := populateOptions_result L w m2 field onError defaults custom
  have e1 : (populateOptions L w m field onError defaults custom).2.creationOptions = o1 := by
    rcases h1 with h1 | h1 <;> rw [h1]
  have e2 : (populateOptions L w m2 field onError defaults custom).2.creationOptions = o2 := by
    rcases h2 with h2 | h2 <;> rw [h2]
  rw [e1, e2, ho1, ho2, h]

/-- The step forward of the wizard: the world is the one `LoadBudgetFile` leaves
(or the same world, past step 3) and the session differs in the step, the
cleared text input and selection, and the new suggestion list only. -/
theorem nextCreationStep_result (L : Lib F) (w : World F) (m : model F) :
    ∃ opts, (nextCreationStep L w m).2 =
      { m with creationStep := m.creationStep + 1, creationInput := [], creationCursorPos := 0,
               selectedOption := 0, isCustomInput := false, creationOptions := opts }
      ∧ ((nextCreationStep L w m).1 = w
          ∨ (nextCreationStep L w m).1 = (LoadBudgetFile L w m.currentPath).1) := by
  unfold nextCreationStep
  dsimp only
  split_ifs
  · obtain ⟨hw, o, _, h⟩ := populateOptions_result L w
      { m with creationStep := m.creationStep + 1, creationInput := [], creationCursorPos := 0,
               selectedOption := 0, isCustomInput := false } (fun x => x.Type_)
      [str "cash", str "bank", str "invest", str "custom: enter new type..."]
      [str "bank", str "cash", str "invest"] (str "custom: enter new type...")
    refine ⟨o, ?_, Or.inr hw⟩
    rcases h with h | h <;> exact h
  · obtain ⟨hw, o, _, h⟩ := populateOptions_result L w
      { m with creationStep := m.creationStep + 1, creationInput := [], creationCursorPos := 0,
               selectedOption := 0, isCustomInput := false } (fun x => x.Currency)
      [str "USD", str "EUR", str "GBP", str "custom: enter currency code..."]
      [str "USD", str "EUR", str "GBP"] (str "custom: enter currency code...")
    refine ⟨o, ?_, Or.inr hw⟩
    rcases h with h | h <;> exact h
  · obtain ⟨hw, o, _, h⟩ := populateOptions_result L w
      { m with creationStep := m.creationStep + 1, creationInput := [], creationCursorPos := 0,
               selectedOption := 0, isCustomInput := false } (fun x => x.Owner)
      [str "User", str "custom: enter owner name..."]
      [str "me"] (str "custom: enter owner name...")
    refine ⟨o, ?_, Or.inr hw⟩
    rcases h with h | h <;> exact h
  · exact ⟨[], rfl, Or.inl rfl⟩

/-- The suggestion list after a step forward is the one the `populate` function
of the new step computes from the world as it is (the empty list past step 3). -/
theorem nextCreationStep_options (L : Lib F) (w : World F) (m : model F) :
    (nextCreationStep L w m).2.creationOptions =
      if m.creationStep + 1 = 1 then (populateTypeOptions L w m).2.creationOptions
      else if m.creationStep + 1 = 2 then (populateCurrencyOptions L w m).2.creationOptions
      else if m.creationStep + 1 = 3 then (populateOwnerOptions L w m).2.creationOptions
      else [] := by
  unfold nextCreationStep
  dsimp only
  split_ifs
  · exact populateOptions_options_congr L w _ m _ _ _ _ rfl
  · exact populateOptions_options_congr L w _ m _ _ _ _ rfl
  · exact populateOptions_options_congr L w _ m _ _ _ _ rfl
  · rfl

/-- C16: for a budget file that loads and has no wallets, the suggestion lists
of the steps Type, Currency and Owner are `bank, cash, invest`, `USD, EUR, GBP`
and `me`, each followed by its one custom entry (4, 4 and 2 entries); they are
what the wizard shows on entering steps 1, 2 and 3, and nothing else of the
world or the session enters into them. -/
theorem empty_budget_suggestions (L : Lib F) (w : World F) (m : model F)
    (bf : BudgetFile F)
    (hload : (LoadBudgetFile L w m.currentPath).2 = Except.ok bf)
    (hempty : bf.Wallets = []) :
    (populateTypeOptions L w m).2.creationOptions
      = [str "bank", str "cash", str "invest", str "custom: enter new type..."]
    ∧ (populateCurrencyOptions L w m).2.creationOptions
      = [str "USD", str "EUR", str "GBP", str "custom: enter currency code..."]
    ∧ (populateOwnerOptions L w m).2.creationOptions
      = [str "me", str "custom: enter owner name..."]
    ∧ (m.creationStep = 0 → (nextCreationStep L w m).2.creationOptions
        = [str "bank", str "cash", str "invest", str "custom: enter new type..."])
    ∧ (m.creationStep = 1 → (nextCreationStep L w m).2.creationOptions
        = [str "USD", str "EUR", str "GBP", str "custom: enter currency code..."])
    ∧ (m.creationStep = 2 → (nextCreationStep L w m).2.creationOptions
        = [str "me", str "custom: enter owner name..."]) := by
  have key : ∀ (field : Wallet F → GoString) (onError defaults : List GoString)
      (custom : GoString),
      (populateOptions L w m field onError defaults custom).2.creationOptions
        = defaults ++ [custom] := by
    intro field onError defaults custom
    obtain ⟨_, o, ho, h⟩ := populateOptions_result L w m field onError defaults custom
    rw [hload] at ho
    simp only [hempty, List.isEmpty_nil, if_true] at ho
    rcases h with h | h <;> rw [h, ho]
  have h1 := key (fun x => x.Type_)
    [str "cash", str "bank", str "invest", str "custom: enter new type..."]
    [str "bank", str "cash", str "invest"] (str "custom: enter new type...")
  have h2 := key (fun x => x.Currency)
    [str "USD", str "EUR", str "GBP", str "custom: enter currency code..."]
    [str "USD", str "EUR", str "GBP"] (str "custom: enter currency code...")
  have h3 := key (fun x => x.Owner)
    [str "User", str "custom: enter owner name..."]
    [str "me"] (str "custom: enter owner name...")
  refine ⟨h1, h2, h3, ?_, ?_, ?_⟩
  · intro hs
    rw [nextCreationStep_options, hs]
    exact h1
  · intro hs
    rw [nextCreationStep_options, hs]
    exact h2
  · intro hs
    rw [nextCreationStep_options, hs]
    exact h3

theorem empty_budget_suggestions_witness :
    (populateTypeOptions sample.lib sample.freshWorld sample.wizardOnFresh).2.creationOptions
      = [str "bank", str "cash", str "invest", str "custom: enter new type..."]
    ∧ (nextCreationStep sample.lib sample.freshWorld sample.wizardOnFresh).2.creationOptions.length
      = 4 :=
  ⟨(empty_budget_suggestions sample.lib sample.freshWorld sample.wizardOnFresh sample.fresh
      (by decide) (by decide)).1,
    by decide⟩

end wizard

section trim

theorem decodeRune_width_pos (b : Byte) (rest : GoString) : 1 ≤ (decodeRune (b :: rest)).2 := by
  rcases rest with _ | ⟨s1, _ | ⟨s2, _ | ⟨s3, r⟩⟩⟩
  all_goals
    simp only [decodeRune]
    split_ifs <;> simp

theorem runeItemsAux_bytes_ne_nil (n : Nat) (s : GoString) :
    ∀ x ∈ runeItemsAux n s, x.2 ≠ [] := by
  induction n generalizing s with
  | zero => intro x hx; simp [runeItemsAux] at hx
  | succ k ih =>
    cases s with
    | nil => intro x hx; simp [runeItemsAux] at hx
    | cons b rest =>
      intro x hx
      simp only [runeItemsAux, List.mem_cons] at hx
      rcases hx with rfl | hx
      · have hw := decodeRune_width_pos b rest
        obtain ⟨j, hj⟩ : ∃ j, (decodeRune (b :: rest)).2 = j + 1 := ⟨_, (Nat.sub_add_cancel hw).symm⟩
        simp [hj]
      · exact ih _ x hx

theorem itemBytes_eq_nil (xs : List (Nat × GoString)) (h : ∀ x ∈ xs, x.2 ≠ []) :
    itemBytes xs = [] ↔ xs = [] := by
  cases xs with
  | nil => simp [itemBytes]
  | cons a rest =>
    have := h a (List.mem_cons_self _ _)
    simp [itemBytes, this]

/-- `TrimSpace` gives the empty string exactly on the strings made of white
space only (the empty string among them). -/
theorem TrimSpace_eq_nil_iff (s : GoString) :
    TrimSpace s = [] ↔ ∀ r ∈ runes s, isSpace r = true := by
  have hne := runeItemsAux_bytes_ne_nil s.length s
  have hall : (∀ r ∈ runes s, isSpace r = true)
      ↔ ∀ x ∈ runeItems s, (fun (x : Nat × GoString) => isSpace x.1) x = true := by
    simp [runes]
  rw [hall, ← List.dropWhile_eq_nil_iff]
  unfold TrimSpace
  dsimp only
  generalize hl : (runeItems s).dropWhile (fun (x : Nat × GoString) => isSpace x.1) = l
  have hsub : ∀ x ∈ (l.reverse.dropWhile (fun (x : Nat × GoString) => isSpace x.1)).reverse,
      x.2 ≠ [] := by
    intro x hx
    have h1 : x ∈ l.reverse := (List.dropWhile_sublist _).subset (List.mem_reverse.mp hx)
    have h2 : x ∈ runeItems s := by
      rw [← hl] at h1
      exact (List.dropWhile_sublist _).subset (List.mem_reverse.mp h1)
    exact hne x h2
  rw [itemBytes_eq_nil _ hsub, List.reverse_eq_nil_iff, List.dropWhile_eq_nil_iff]
  subst hl
  constructor
  · intro h
    by_contra hcon
    have hhead := List.head_dropWhile_not (fun (x : Nat × GoString) => isSpace x.1) (runeItems s)
      hcon
    have hmem := List.head_mem hcon
    have := h _ (List.mem_reverse.mpr hmem)
    simp_all
  · intro h x hx
    rw [h] at hx
    simp at hx

end trim

section wizardSteps
variable {F : Type}

/-- On the WalletCreation screen the key `enter` is `handleCreationStep`. -/
theorem Update_enter_wizard [Zero F] [Add F] (L : Lib F) (w : World F) (m : model F)
    (hscr : m.currentScreen = screen.walletCreationScreen) :
    Update L w m (Msg.key (str "enter")) = handleCreationStep L w m := by
  have h1 : str "enter" ≠ str "ctrl+c" := by decide
  simp only [Update, h1, if_false, hscr, handleWalletCreationInput, if_true]

/-- C17: at step 0 `enter` on a text that is empty or white space only returns
the world and the session as they were; on any other text it stores the
trimmed text as the name of the draft and moves to step 1 (text input and
selection cleared, the other draft fields kept). -/
theorem wizard_name_step [Zero F] [Add F] (L : Lib F) (w : World F) (m : model F)
    (hscr : m.currentScreen = screen.walletCreationScreen) (hs : m.creationStep = 0) :
    ((∀ r ∈ runes m.creationInput, isSpace r = true) →
        Update L w m (Msg.key (str "enter")) = some (w, m, Cmd.none))
    ∧ (¬ (∀ r ∈ runes m.creationInput, isSpace r = true) →
        TrimSpace m.creationInput ≠ []
        ∧ ∃ w1 opts, Update L w m (Msg.key (str "enter")) =
            some (w1,
              { m with
                creationData := { m.creationData with Name := TrimSpace m.creationInput },
                creationStep := 1, creationInput := [], creationCursorPos := 0,
                selectedOption := 0, isCustomInput := false, creationOptions := opts },
              Cmd.none)) := by
  rw [Update_enter_wizard L w m hscr, ← TrimSpace_eq_nil_iff]
  constructor
  · intro h
    simp only [handleCreationStep, hs, if_true, h]
  · intro h
    refine ⟨h, ?_⟩
    obtain ⟨opts, ho, _⟩ := nextCreationStep_result L w
      { m with creationData := { m.creationData with Name := TrimSpace m.creationInput } }
    refine ⟨(nextCreationStep L w
      { m with creationData := { m.creationData with Name := TrimSpace m.creationInput } }).1,
      opts, ?_⟩
    simp only [hs, zero_add] at ho
    simp only [handleCreationStep, hs, if_true, h, if_false, ho]

theorem handleCreationStep_type [Zero F] (L : Lib F) (w : World F) (m : model F)
    (hs : m.creationStep = 1) :
    handleCreationStep L w m = handleOptionStep L w m (TrimSpace m.creationInput)
      (fun m v => { m with creationData := { m.creationData with Type_ := v } }) id := by
  simp [handleCreationStep, hs]

theorem handleCreationStep_currency [Zero F] (L : Lib F) (w : World F) (m : model F)
    (hs : m.creationStep = 2) :
    handleCreationStep L w m = handleOptionStep L w m (TrimSpace m.creationInput)
      (fun m v => { m with creationData := { m.creationData with Currency := v } })
      (ToUpper L.upperTable) := by
  simp [handleCreationStep, hs]

theorem handleCreationStep_owner [Zero F] (L : Lib F) (w : World F) (m : model F)
    (hs : m.creationStep = 3) :
    handleCreationStep L w m = handleOptionStep L w m (TrimSpace m.creationInput)
      (fun m v => { m with creationData := { m.creationData with Owner := v } }) id := by
  simp [handleCreationStep, hs]

theorem handleOptionStep_select (L : Lib F) (w : World F) (m : model F) (input o : GoString)
    (set : model F → GoString → model F) (commit : GoString → GoString)
    (hc : m.isCustomInput = false) (h0 : 0 ≤ m.selectedOption)
    (hlt : m.selectedOption < (m.creationOptions.length : Int) - 1)
    (ho : m.creationOptions[m.selectedOption.toNat]? = some o) :
    handleOptionStep L w m input set commit =
      some ((nextCreationStep L w (set m o)).1, (nextCreationStep L w (set m o)).2, Cmd.none) := by
  have hidx : index m.creationOptions m.selectedOption = some o := by
    have : 0 ≤ m.selectedOption ∧ m.selectedOption < (m.creationOptions.length : Int) := by omega
    simp [index, this, ho]
  simp [handleOptionStep, hc, hlt, hidx]

theorem handleOptionStep_custom (L : Lib F) (w : World F) (m : model F) (input : GoString)
    (set : model F → GoString → model F) (commit : GoString → GoString)
    (hc : m.isCustomInput = true) (hne : input ≠ []) :
    handleOptionStep L w m input set commit =
      some ((nextCreationStep L w (set m (commit input))).1,
        (nextCreationStep L w (set m (commit input))).2, Cmd.none) := by
  simp [handleOptionStep, hc, hne]

theorem handleOptionStep_empty (L : Lib F) (w : World F) (m : model F)
    (set : model F → GoString → model F) (commit : GoString → GoString)
    (hc : m.isCustomInput = true) :
    handleOptionStep L w m [] set commit = some (w, m, Cmd.none) := by
  simp [handleOptionStep, hc]

/-- C18: at the steps Type (1), Currency (2) and Owner (3), `enter` with free
text off and a suggestion before the trailing entry selected stores that
suggestion in the field of the step and moves to the next step; with free text
on and a trimmed text that is not empty it stores the trimmed text (upper-cased
at the Currency step, as it is at the other two) and moves to the next step;
with free text on and an empty trimmed text world and session are returned as
they were. -/
theorem wizard_option_steps [Zero F] [Add F] (L : Lib F) (w : World F) (m : model F)
    (hscr : m.currentScreen = screen.walletCreationScreen) :
    (∀ o, m.isCustomInput = false → 0 ≤ m.selectedOption →
        m.selectedOption < (m.creationOptions.length : Int) - 1 →
        m.creationOptions[m.selectedOption.toNat]? = some o →
        (m.creationStep = 1 → ∃ w1 opts, Update L w m (Msg.key (str "enter")) =
          some (w1,
            { m with
              creationData := { m.creationData with Type_ := o },
              creationStep := 2, creationInput := [], creationCursorPos := 0,
              selectedOption := 0, isCustomInput := false, creationOptions := opts },
            Cmd.none))
        ∧ (m.creationStep = 2 → ∃ w1 opts, Update L w m (Msg.key (str "enter")) =
          some (w1,
            { m with
              creationData := { m.creationData with Currency := o },
              creationStep := 3, creationInput := [], creationCursorPos := 0,
              selectedOption := 0, isCustomInput := false, creationOptions := opts },
            Cmd.none))
        ∧ (m.creationStep = 3 → ∃ w1 opts, Update L w m (Msg.key (str "enter")) =
          some (w1,
            { m with
              creationData := { m.creationData with Owner := o },
              creationStep := 4, creationInput := [], creationCursorPos := 0,
              selectedOption := 0, isCustomInput := false, creationOptions := opts },
            Cmd.none)))
    ∧ (m.isCustomInput = true → TrimSpace m.creationInput ≠ [] →
        (m.creationStep = 1 → ∃ w1 opts, Update L w m (Msg.key (str "enter")) =
          some (w1,
            { m with
              creationData := { m.creationData with Type_ := TrimSpace m.creationInput },
              creationStep := 2, creationInput := [], creationCursorPos := 0,
              selectedOption := 0, isCustomInput := false, creationOptions := opts },
            Cmd.none))
        ∧ (m.creationStep = 2 → ∃ w1 opts, Update L w m (Msg.key (str "enter")) =
          some (w1,
            { m with
              creationData := { m.creationData with
                Currency := ToUpper L.upperTable (TrimSpace m.creationInput) },
              creationStep := 3, creationInput := [], creationCursorPos := 0,
              selectedOption := 0, isCustomInput := false, creationOptions := opts },
            Cmd.none))
        ∧ (m.creationStep = 3 → ∃ w1 opts, Update L w m (Msg.key (str "enter")) =
          some (w1,
            { m with
              creationData := { m.creationData with Owner := TrimSpace m.creationInput },
              creationStep := 4, creationInput := [], creationCursorPos := 0,
              selectedOption := 0, isCustomInput := false, creationOptions := opts },
            Cmd.none)))
    ∧ (m.isCustomInput = true → TrimSpace m.creationInput = [] →
        (m.creationStep = 1 ∨ m.creationStep = 2 ∨ m.creationStep = 3) →
        Update L w m (Msg.key (str "enter")) = some (w, m, Cmd.none)) := by
  rw [Update_enter_wizard L w m hscr]
  refine ⟨?_, ?_, ?_⟩
  · intro o hc h0 hlt ho
    refine ⟨?_, ?_, ?_⟩
    · intro hs
      obtain ⟨opts, hn, _⟩ := nextCreationStep_result L w
        { m with creationData := { m.creationData with Type_ := o } }
      refine ⟨(nextCreationStep L w
        { m with creationData := { m.creationData with Type_ := o } }).1, opts, ?_⟩
      rw [handleCreationStep_type L w m hs, handleOptionStep_select L w m _ o _ _ hc h0 hlt ho]
      try dsimp only [id]
      rw [hn]
      simp only [hs]
      rfl
    · intro hs
      obtain ⟨opts, hn, _⟩ := nextCreationStep_result L w
        { m with creationData := { m.creationData with Currency := o } }
      refine ⟨(nextCreationStep L w
        { m with creationData := { m.creationData with Currency := o } }).1, opts, ?_⟩
      rw [handleCreationStep_currency L w m hs, handleOptionStep_select L w m _ o _ _ hc h0 hlt ho]
      try dsimp only [id]
      rw [hn]
      simp only [hs]
      rfl
    · intro hs
      obtain ⟨opts, hn, _⟩ := nextCreationStep_result L w
        { m with creationData := { m.creationData with Owner := o } }
      refine ⟨(nextCreationStep L w
        { m with creationData := { m.creationData with Owner := o } }).1, opts, ?_⟩
      rw [handleCreationStep_owner L w m hs, handleOptionStep_select L w m _ o _ _ hc h0 hlt ho]
      try dsimp only [id]
      rw [hn]
      simp only [hs]
      rfl
  · intro hc hne
    refine ⟨?_, ?_, ?_⟩
    · intro hs
      obtain ⟨opts, hn, _⟩ := nextCreationStep_result L w
        { m with creationData := { m.creationData with Type_ := TrimSpace m.creationInput } }
      refine ⟨(nextCreationStep L w
        { m with creationData := { m.creationData with Type_ := TrimSpace m.creationInput } }).1, opts, ?_⟩
      rw [handleCreationStep_type L w m hs, handleOptionStep_custom L w m _ _ _ hc hne]
      try dsimp only [id]
      rw [hn]
      simp only [hs]
      rfl
    · intro hs
      obtain ⟨opts, hn, _⟩ := nextCreationStep_result L w
        { m with creationData := { m.creationData with Currency := ToUpper L.upperTable (TrimSpace m.creationInput) } }
      refine ⟨(nextCreationStep L w
        { m with creationData := { m.creationData with Currency := ToUpper L.upperTable (TrimSpace m.creationInput) } }).1, opts, ?_⟩
      rw [handleCreationStep_currency L w m hs, handleOptionStep_custom L w m _ _ _ hc hne]
      try dsimp only [id]
      rw [hn]
      simp only [hs]
      rfl
    · intro hs
      obtain ⟨opts, hn, _⟩ := nextCreationStep_result L w
        { m with creationData := { m.creationData with Owner := TrimSpace m.creationInput } }
      refine ⟨(nextCreationStep L w
        { m with creationData := { m.creationData with Owner := TrimSpace m.creationInput } }).1, opts, ?_⟩
      rw [handleCreationStep_owner L w m hs, handleOptionStep_custom L w m _ _ _ hc hne]
      try dsimp only [id]
      rw [hn]
      simp only [hs]
      rfl
  · intro hc he hs
    rcases hs with hs | hs | hs
    · rw [handleCreationStep_type L w m hs, he, handleOptionStep_empty L w m _ _ hc]
    · rw [handleCreationStep_currency L w m hs, he, handleOptionStep_empty L w m _ _ hc]
    · rw [handleCreationStep_owner L w m hs, he, handleOptionStep_empty L w m _ _ hc]

theorem lookup_map_replace (fs : List (GoString × FileContent F)) (name f : GoString)
    (c : FileContent F) (h : f ≠ name) :
    (fs.map (fun e => if e.1 = name then (e.1, c) else e)).lookup f = fs.lookup f := by
  induction fs with
  | nil => rfl
  | cons e rest ih =>
    rcases e with ⟨k, v⟩
    simp only [List.map_cons]
    by_cases hn : k = name
    · rw [if_pos hn]
      have hk2 : (f == k) = false := by
        rw [hn]
        simpa using h
      simp only [List.lookup, hk2, ih]
    · rw [if_neg hn]
      cases hk2 : (f == k) <;> simp only [List.lookup, hk2, ih]

theorem lookup_append_other (fs : List (GoString × FileContent F)) (name f : GoString)
    (c : FileContent F) (h : f ≠ name) : (fs ++ [(name, c)]).lookup f = fs.lookup f := by
  induction fs with
  | nil =>
    have hk2 : (f == name) = false := by simpa using h
    simp [List.lookup, hk2]
  | cons e rest ih =>
    rcases e with ⟨k, v⟩
    cases hk2 : (f == k) with
    | false =>
      simp only [List.cons_append, List.lookup, hk2]
      exact ih
    | true => simp only [List.cons_append, List.lookup, hk2]

theorem lookup_writeFile_ne (fs : List (GoString × FileContent F)) (name f : GoString)
    (c : FileContent F) (h : f ≠ name) : (writeFile fs name c).lookup f = fs.lookup f := by
  unfold writeFile
  split
  · exact lookup_map_replace fs name f c h
  · exact lookup_append_other fs name f c h

/-- A file that a failed write has cut short holds no budget, and the other
files are as before: every budget in storage afterwards was there before. -/
theorem failedWrite_budgetFile (w : World F) (name f : GoString) (bf : BudgetFile F)
    (h : lookupFile (failedWrite w name) f = some (FileContent.budgetFile bf)) :
    lookupFile w f = some (FileContent.budgetFile bf) := by
  unfold failedWrite at h
  split at h
  · by_cases hf : f = name
    · subst hf
      simp only [lookupFile] at h
      rw [lookup_writeFile] at h
      cases h
    · simp only [lookupFile] at h ⊢
      rw [lookup_writeFile_ne _ _ _ _ hf] at h
      exact h
  · exact h

/-- A failing `SaveBudgetFile` leaves the world as it was, unless the failure
is the one of `os.WriteFile` after the open, which leaves the file cut short. -/
theorem SaveBudgetFile_error_world (L : Lib F) (w : World F) (bf : BudgetFile F) (e : GoString)
    (h : (SaveBudgetFile L w bf).2 = some e) :
    (SaveBudgetFile L w bf).1 = w
    ∨ ((∃ x, w.writeErr = some x) ∧ w.writeTruncates = true
        ∧ (SaveBudgetFile L w bf).1 = failedWrite w bf.Name) := by
  unfold SaveBudgetFile at h ⊢
  cases hm : w.mkdirErr with
  | some x => simp [hm]
  | none =>
    simp only [hm] at h ⊢
    cases hj : marshalErr L { bf with UpdatedAt := w.now } with
    | some x => simp [hj]
    | none =>
      simp only [hj] at h ⊢
      cases hw : w.writeErr with
      | some x =>
        by_cases ht : w.writeTruncates = true
        · exact Or.inr ⟨⟨x, rfl⟩, ht, rfl⟩
        · exact Or.inl (by simp [failedWrite, ht])
      | none => simp [hw] at h

theorem CreateWallet_error_world (L : Lib F) (w : World F)
    (filename name owner walletType currency : GoString) (balance : F) (e : GoString)
    (h : (CreateWallet L w filename name owner walletType currency balance).2 = some e) :
    (CreateWallet L w filename name owner walletType currency balance).1
        = (LoadBudgetFile L w filename).1
    ∨ ((∃ x, w.writeErr = some x) ∧ w.writeTruncates = true
        ∧ ∃ data, (LoadBudgetFile L w filename).2 = Except.ok data
          ∧ (CreateWallet L w filename name owner walletType currency balance).1
              = failedWrite (LoadBudgetFile L w filename).1 data.Name) := by
  obtain ⟨fs, hfs⟩ := LoadBudgetFile_frame L w filename
  unfold CreateWallet at h ⊢
  rcases hl : LoadBudgetFile L w filename with ⟨w1, _ | bf⟩
  · simp [hl]
  · rw [hl] at hfs
    simp only at hfs
    simp only [hl] at h ⊢
    by_cases hd : (bf.Wallets.any fun wallet => decide (wallet.Name = name)) = true
    · simp [hd]
    · simp only [hd] at h ⊢
      cases hn : normalizeCurrency L currency with
      | error x => simp [hn]
      | ok cur =>
        simp only [hn] at h ⊢
        rcases SaveBudgetFile_error_world L w1 _ e h with h1 | ⟨⟨x, hx⟩, ht, h1⟩
        · exact Or.inl h1
        · refine Or.inr ⟨⟨x, ?_⟩, ?_, bf, rfl, h1⟩
          · rw [hfs] at hx
            exact hx
          · rw [hfs] at ht
            exact ht

theorem handleCreationStep_balance [Zero F] (L : Lib F) (w : World F) (m : model F)
    (hs : m.creationStep = 4) :
    handleCreationStep L w m =
      match (if TrimSpace m.creationInput = [] then some (0 : F)
             else L.parseFloat (TrimSpace m.creationInput)) with
      | none => some (w, m, Cmd.none)
      | some balance =>
        match CreateWallet L w m.currentPath m.creationData.Name m.creationData.Owner
            m.creationData.Type_ m.creationData.Currency balance with
        | (w1, some _) =>
          some (w1, { m with creationData := { m.creationData with Balance := balance } }, Cmd.none)
        | (w1, none) =>
          some ((loadWallets L w1 m).1,
            { m with
              creationData := { m.creationData with Balance := balance },
              currentScreen := screen.walletScreen,
              wallets := (loadWallets L w1 m).2.1, err := (loadWallets L w1 m).2.2 },
            Cmd.none) := by
  simp [handleCreationStep, hs]
  rfl

/-- C19: at the step Balance (4) of the wizard, `enter` with a text that is
neither empty after trimming nor a number returns world and session as they
were; with a balance `b` (0 for the empty text) and a failing `CreateWallet` the
session stays on the wizard at step 4 with only the draft balance set, and
nothing is added to storage: the world is the one left by reading the budget
file, except when it is `os.WriteFile` that fails after opening the file, which
leaves that file cut short; in both cases every budget file in storage
afterwards was there before. With a succeeding `CreateWallet` the session moves
to the wallet screen with the wallets loaded again. So the wallet screen is
reached exactly when the text gives a balance and `CreateWallet` succeeds with
the fields of the draft.  Reading a stored file in the current format leaves the
world as it is. -/
theorem wizard_balance_step [Zero F] [Add F] (L : Lib F) (w : World F) (m : model F)
    (hscr : m.currentScreen = screen.walletCreationScreen) (hs : m.creationStep = 4) :
    (∀ bf, lookupFile w m.currentPath = some (FileContent.budgetFile bf) → bf.Name ≠ [] →
      (LoadBudgetFile L w m.currentPath).1 = w)
    ∧ ((if TrimSpace m.creationInput = [] then some (0 : F)
        else L.parseFloat (TrimSpace m.creationInput)) = none →
      Update L w m (Msg.key (str "enter")) = some (w, m, Cmd.none))
    ∧ (∀ b, (if TrimSpace m.creationInput = [] then some (0 : F)
          else L.parseFloat (TrimSpace m.creationInput)) = some b →
        (∀ e, (CreateWallet L w m.currentPath m.creationData.Name m.creationData.Owner
              m.creationData.Type_ m.creationData.Currency b).2 = some e →
          Update L w m (Msg.key (str "enter")) =
              some ((CreateWallet L w m.currentPath m.creationData.Name m.creationData.Owner
                  m.creationData.Type_ m.creationData.Currency b).1,
                { m with creationData := { m.creationData with Balance := b } }, Cmd.none)
          ∧ ((CreateWallet L w m.currentPath m.creationData.Name m.creationData.Owner
                  m.creationData.Type_ m.creationData.Currency b).1
                = (LoadBudgetFile L w m.currentPath).1
              ∨ ((∃ x, w.writeErr = some x) ∧ w.writeTruncates = true
                  ∧ ∃ data, (LoadBudgetFile L w m.currentPath).2 = Except.ok data
                    ∧ (CreateWallet L w m.currentPath m.creationData.Name m.creationData.Owner
                          m.creationData.Type_ m.creationData.Currency b).1
                        = failedWrite (LoadBudgetFile L w m.currentPath).1 data.Name))
          ∧ (∀ f bf1,
              lookupFile (CreateWallet L w m.currentPath m.creationData.Name m.creationData.Owner
                  m.creationData.Type_ m.creationData.Currency b).1 f
                = some (FileContent.budgetFile bf1) →
              lookupFile (LoadBudgetFile L w m.currentPath).1 f
                = some (FileContent.budgetFile bf1)))
        ∧ ((CreateWallet L w m.currentPath m.creationData.Name m.creationData.Owner
              m.creationData.Type_ m.creationData.Currency b).2 = none →
          ∃ w1 ws e, Update L w m (Msg.key (str "enter")) =
            some (w1,
              { m with
                creationData := { m.creationData with Balance := b },
                currentScreen := screen.walletScreen, wallets := ws, err := e },
              Cmd.none)))
    ∧ (∃ w1 m1, Update L w m (Msg.key (str "enter")) = some (w1, m1, Cmd.none)
        ∧ (m1.currentScreen = screen.walletScreen ↔
            ∃ b, (if TrimSpace m.creationInput = [] then some (0 : F)
                else L.parseFloat (TrimSpace m.creationInput)) = some b
              ∧ (CreateWallet L w m.currentPath m.creationData.Name m.creationData.Owner
                  m.creationData.Type_ m.creationData.Currency b).2 = none)) := by
  refine ⟨fun bf h1 h2 => by rw [LoadBudgetFile_stored L w _ bf h1 h2], ?_⟩
  rw [Update_enter_wizard L w m hscr, handleCreationStep_balance L w m hs]
  cases hp : (if TrimSpace m.creationInput = [] then some (0 : F)
      else L.parseFloat (TrimSpace m.creationInput)) with
  | none =>
    refine ⟨fun _ => rfl, ?_, w, m, rfl, ?_⟩
    · intro b hb
      cases hb
    · simp [hscr]
  | some b0 =>
    dsimp only
    refine ⟨?_, ?_, ?_⟩
    · intro h
      cases h
    · intro b hb
      cases hb
      refine ⟨?_, ?_⟩
      · intro e he
        have hw := CreateWallet_error_world L w m.currentPath m.creationData.Name
          m.creationData.Owner m.creationData.Type_ m.creationData.Currency b0 e he
        refine ⟨?_, hw, ?_⟩
        · rcases hc : CreateWallet L w m.currentPath m.creationData.Name m.creationData.Owner
            m.creationData.Type_ m.creationData.Currency b0 with ⟨wc, _ | x⟩
          · rw [hc] at he; cases he
          · rfl
        · intro f bf1 hf
          rcases hw with hw | ⟨_, _, data, _, hw⟩
          · rw [hw] at hf
            exact hf
          · rw [hw] at hf
            exact failedWrite_budgetFile _ _ _ _ hf
      · intro he
        rcases hc : CreateWallet L w m.currentPath m.creationData.Name m.creationData.Owner
          m.creationData.Type_ m.creationData.Currency b0 with ⟨wc, _ | x⟩
        · exact ⟨_, _, _, rfl⟩
        · rw [hc] at he; cases he
    · rcases hc : CreateWallet L w m.currentPath m.creationData.Name m.creationData.Owner
        m.creationData.Type_ m.creationData.Currency b0 with ⟨wc, _ | x⟩
      · exact ⟨_, _, rfl, by simp [hc]⟩
      · exact ⟨_, _, rfl, by simp [hscr, hc]⟩

theorem handleCreationStep_name [Zero F] (L : Lib F) (w : World F) (m : model F)
    (hs : m.creationStep = 0) :
    handleCreationStep L w m =
      if TrimSpace m.creationInput = [] then some (w, m, Cmd.none)
      else some
        ((nextCreationStep L w
            { m with creationData := { m.creationData with Name := TrimSpace m.creationInput } }).1,
         (nextCreationStep L w
            { m with creationData := { m.creationData with Name := TrimSpace m.creationInput } }).2,
         Cmd.none) := by
  unfold handleCreationStep
  rw [if_pos hs]

theorem handleOptionStep_advance (L : Lib F) (w : World F) (m : model F) (input : GoString)
    (set : model F → GoString → model F) (commit : GoString → GoString)
    (w1 : World F) (m1 : model F) (c : Cmd)
    (hu : handleOptionStep L w m input set commit = some (w1, m1, c))
    (hadv : m1.creationStep = m.creationStep + 1) :
    ∃ v, w1 = (nextCreationStep L w (set m v)).1 ∧ m1 = (nextCreationStep L w (set m v)).2 := by
  unfold handleOptionStep at hu
  by_cases hc : m.isCustomInput = true
  · by_cases hi : input = []
    · simp [hc, hi] at hu
      obtain ⟨_, rfl, _⟩ := hu
      omega
    · simp [hc, hi] at hu
      exact ⟨commit input, hu.1.symm, hu.2.1.symm⟩
  · by_cases hl : m.selectedOption < (m.creationOptions.length : Int) - 1
    · cases hx : index m.creationOptions m.selectedOption with
      | none => simp [hc, hl, hx] at hu
      | some o =>
        simp [hc, hl, hx] at hu
        exact ⟨o, hu.1.symm, hu.2.1.symm⟩
    · simp [hc, hl] at hu
      obtain ⟨_, rfl, _⟩ := hu
      simp at hadv

/-- C20: an `enter` on the wizard that moves the step from `k` to `k + 1`, for
`k` from 0 to 3, leaves the text empty, the cursor at 0, the selected
suggestion at 0 and free text off; the suggestions are those computed from the
budget file in the world for the new step (types at 1, currencies at 2, owners
at 3, none at 4); and every field of the draft other than the one of step `k`
is as before. -/
theorem wizard_advance_resets [Zero F] [Add F] (L : Lib F) (w w1 : World F) (m m1 : model F)
    (c : Cmd) (hscr : m.currentScreen = screen.walletCreationScreen)
    (h0 : 0 ≤ m.creationStep) (h3 : m.creationStep ≤ 3)
    (hu : Update L w m (Msg.key (str "enter")) = some (w1, m1, c))
    (hadv : m1.creationStep = m.creationStep + 1) :
    m1.creationInput = [] ∧ m1.creationCursorPos = 0 ∧ m1.selectedOption = 0
    ∧ m1.isCustomInput = false
    ∧ m1.creationOptions =
        (if m.creationStep = 0 then (populateTypeOptions L w m).2.creationOptions
         else if m.creationStep = 1 then (populateCurrencyOptions L w m).2.creationOptions
         else if m.creationStep = 2 then (populateOwnerOptions L w m).2.creationOptions
         else [])
    ∧ (m.creationStep ≠ 0 → m1.creationData.Name = m.creationData.Name)
    ∧ (m.creationStep ≠ 1 → m1.creationData.Type_ = m.creationData.Type_)
    ∧ (m.creationStep ≠ 2 → m1.creationData.Currency = m.creationData.Currency)
    ∧ (m.creationStep ≠ 3 → m1.creationData.Owner = m.creationData.Owner)
    ∧ m1.creationData.Balance = m.creationData.Balance := by
  rw [Update_enter_wizard L w m hscr] at hu
  have key : ∃ d : Wallet F,
      m1 = (nextCreationStep L w { m with creationData := d }).2
      ∧ (m.creationStep ≠ 0 → d.Name = m.creationData.Name)
      ∧ (m.creationStep ≠ 1 → d.Type_ = m.creationData.Type_)
      ∧ (m.creationStep ≠ 2 → d.Currency = m.creationData.Currency)
      ∧ (m.creationStep ≠ 3 → d.Owner = m.creationData.Owner)
      ∧ d.Balance = m.creationData.Balance := by
    have hk : m.creationStep = 0 ∨ m.creationStep = 1 ∨ m.creationStep = 2
        ∨ m.creationStep = 3 := by omega
    rcases hk with hs | hs | hs | hs
    · rw [handleCreationStep_name L w m hs] at hu
      by_cases hi : TrimSpace m.creationInput = []
      · rw [if_pos hi] at hu
        simp only [Option.some.injEq, Prod.mk.injEq] at hu
        obtain ⟨_, rfl, _⟩ := hu
        omega
      · rw [if_neg hi] at hu
        simp only [Option.some.injEq, Prod.mk.injEq] at hu
        exact ⟨{ m.creationData with Name := TrimSpace m.creationInput }, hu.2.1.symm,
          by simp [hs]⟩
    · rw [handleCreationStep_type L w m hs] at hu
      obtain ⟨v, _, hv⟩ := handleOptionStep_advance L w m _ _ _ w1 m1 c hu hadv
      exact ⟨_, hv, by simp [hs]⟩
    · rw [handleCreationStep_currency L w m hs] at hu
      obtain ⟨v, _, hv⟩ := handleOptionStep_advance L w m _ _ _ w1 m1 c hu hadv
      exact ⟨_, hv, by simp [hs]⟩
    · rw [handleCreationStep_owner L w m hs] at hu
      obtain ⟨v, _, hv⟩ := handleOptionStep_advance L w m _ _ _ w1 m1 c hu hadv
      exact ⟨_, hv, by simp [hs]⟩
  obtain ⟨d, hm, hd⟩ := key
  obtain ⟨opts, hr, _⟩ := nextCreationStep_result L w { m with creationData := d }
  have hopt := nextCreationStep_options L w { m with creationData := d }
  rw [← hm] at hr hopt
  refine ⟨by rw [hr], by rw [hr], by rw [hr], by rw [hr], ?_, ?_⟩
  · rw [hopt]
    have e1 := populateOptions_options_congr L w { m with creationData := d } m
      (fun x => x.Type_) [str "cash", str "bank", str "invest", str "custom: enter new type..."]
      [str "bank", str "cash", str "invest"] (str "custom: enter new type...") rfl
    have e2 := populateOptions_options_congr L w { m with creationData := d } m
      (fun x => x.Currency) [str "USD", str "EUR", str "GBP", str "custom: enter currency code..."]
      [str "USD", str "EUR", str "GBP"] (str "custom: enter currency code...") rfl
    have e3 := populateOptions_options_congr L w { m with creationData := d } m
      (fun x => x.Owner) [str "User", str "custom: enter owner name..."]
      [str "me"] (str "custom: enter owner name...") rfl
    have hk : m.creationStep = 0 ∨ m.creationStep = 1 ∨ m.creationStep = 2
        ∨ m.creationStep = 3 := by omega
    simp only [populateTypeOptions, populateCurrencyOptions, populateOwnerOptions]
    rw [e1, e2, e3]
    rcases hk with hs | hs | hs | hs <;> simp [hs]
  · rw [hr]
    exact hd

theorem wizard_name_step_witness :
    Update sample.lib sample.world (sample.wizardOnHome 0 "  ") (Msg.key (str "enter"))
        = some (sample.world, sample.wizardOnHome 0 "  ", Cmd.none)
    ∧ TrimSpace (sample.wizardOnHome 0 " Car ").creationInput ≠ []
    ∧ TrimSpace (sample.wizardOnHome 0 " Car ").creationInput = str "Car" :=
  ⟨(wizard_name_step sample.lib sample.world (sample.wizardOnHome 0 "  ")
      (by decide) (by decide)).1 (by decide),
    ((wizard_name_step sample.lib sample.world (sample.wizardOnHome 0 " Car ")
      (by decide) (by decide)).2 (by decide)).1,
    by decide⟩

theorem wizard_option_steps_witness :
    sample.atType.creationOptions = [str "cash", str "bank", str "custom: enter new type..."]
    ∧ ∃ w1 opts, Update sample.lib sample.world sample.atType (Msg.key (str "enter")) =
        some (w1,
          { sample.atType with
            creationData := { sample.atType.creationData with Type_ := str "cash" },
            creationStep := 2, creationInput := [], creationCursorPos := 0,
            selectedOption := 0, isCustomInput := false, creationOptions := opts },
          Cmd.none) :=
  ⟨by decide,
    ((wizard_option_steps sample.lib sample.world sample.atType (by decide)).1 (str "cash")
      (by decide) (by decide) (by decide) (by decide)).1 (by decide)⟩

theorem wizard_balance_step_witness :
    Update sample.lib sample.world (sample.atBalance "Car" "1x") (Msg.key (str "enter"))
        = some (sample.world, sample.atBalance "Car" "1x", Cmd.none)
    ∧ (Update sample.lib sample.world (sample.atBalance "Cash" "12") (Msg.key (str "enter"))
        = some ((CreateWallet sample.lib sample.world (str "home") (str "Cash") (str "ann")
              (str "cash") (str "USD") 12).1,
            { sample.atBalance "Cash" "12" with
              creationData := { (sample.atBalance "Cash" "12").creationData with Balance := 12 } },
            Cmd.none)
      ∧ (CreateWallet sample.lib sample.world (str "home") (str "Cash") (str "ann")
              (str "cash") (str "USD") 12).1.files = sample.world.files)
    ∧ (Update sample.lib sample.fullDisk (sample.atBalance "Car" "12") (Msg.key (str "enter"))
        = some ((CreateWallet sample.lib sample.fullDisk (str "home") (str "Car") (str "ann")
              (str "cash") (str "USD") 12).1,
            { sample.atBalance "Car" "12" with
              creationData := { (sample.atBalance "Car" "12").creationData with Balance := 12 } },
            Cmd.none)
      ∧ lookupFile (CreateWallet sample.lib sample.fullDisk (str "home") (str "Car") (str "ann")
              (str "cash") (str "USD") 12).1 (str "home")
          = some (FileContent.unparsable truncatedErr))
    ∧ ∃ w1 ws e, Update sample.lib sample.world (sample.atBalance "Car" "12")
          (Msg.key (str "enter")) =
        some (w1,
          { sample.atBalance "Car" "12" with
            creationData := { (sample.atBalance "Car" "12").creationData with Balance := 12 },
            currentScreen := screen.walletScreen, wallets := ws, err := e },
          Cmd.none) :=
  ⟨(wizard_balance_step sample.lib sample.world (sample.atBalance "Car" "1x")
      (by decide) (by decide)).2.1 (by decide),
    ⟨(((wizard_balance_step sample.lib sample.world (sample.atBalance "Cash" "12")
      (by decide) (by decide)).2.2.1 12 (by decide!)).1
      (str "wallet with name \x27Cash\x27 already exists") (by decide!)).1, by decide!⟩,
    ⟨(((wizard_balance_step sample.lib sample.fullDisk (sample.atBalance "Car" "12")
      (by decide) (by decide)).2.2.1 12 (by decide!)).1
      (str "failed to write budget file \x27home\x27: no space left on device")
      (by decide!)).1, by decide!⟩,
    ((wizard_balance_step sample.lib sample.world (sample.atBalance "Car" "12")
      (by decide) (by decide)).2.2.1 12 (by decide!)).2 (by decide!)⟩

theorem wizard_advance_resets_witness :
    (nextCreationStep sample.lib sample.world
        { sample.atType with
          creationData := { sample.atType.creationData with Type_ := str "cash" } }).2.creationOptions
      = [str "USD", str "EUR", str "custom: enter currency code..."]
    ∧ (nextCreationStep sample.lib sample.world
        { sample.atType with
          creationData := { sample.atType.creationData with Type_ := str "cash" } }).2.creationData.Name
      = str "Car" :=
  have h := wizard_advance_resets sample.lib sample.world _ sample.atType _ Cmd.none
    (by decide) (by decide) (by decide)
    ((Update_enter_wizard sample.lib sample.world sample.atType (by decide)).trans
      ((handleCreationStep_type sample.lib sample.world sample.atType (by decide)).trans
        (handleOptionStep_select sample.lib sample.world sample.atType _ (str "cash") _ _
          (by decide) (by decide) (by decide) (by decide))))
    (by decide)
  ⟨h.2.2.2.2.1.trans (by decide), (h.2.2.2.2.2.1 (by decide)).trans (by decide)⟩

end wizardSteps

section providers
variable {F : Type}

/-- A request to the first provider changes the list of requests only. -/
theorem fetchFromFrankfurter_world (w : World F) (b : GoString) :
    (fetchFromFrankfurter w b).1
      = { w with requests := w.requests ++ [str "https://api.frankfurter.dev/v1/latest?base=" ++ b] } := by
  simp only [fetchFromFrankfurter, httpGet]
  cases w.httpGet (str "https://api.frankfurter.dev/v1/latest?base=" ++ b) with
  | failed e => rfl
  | response st body =>
    simp only
    split_ifs
    · rfl
    · cases body <;> rfl

/-- A request to the second provider changes the list of requests only. -/
theorem fetchFromOpenER_world (w : World F) (b : GoString) :
    (fetchFromOpenER w b).1
      = { w with requests := w.requests ++ [str "https://open.er-api.com/v6/latest/" ++ b] } := by
  simp only [fetchFromOpenER, httpGet]
  cases w.httpGet (str "https://open.er-api.com/v6/latest/" ++ b) with
  | failed e => rfl
  | response st body =>
    simp only
    split_ifs
    · rfl
    · cases body <;> rfl

/-- The answer of the second provider does not depend on the requests made before. -/
theorem fetchFromOpenER_answer (w : World F) (rs : List GoString) (b : GoString) :
    (fetchFromOpenER { w with requests := rs } b).2 = (fetchFromOpenER w b).2 := by
  simp only [fetchFromOpenER, httpGet]
  cases w.httpGet (str "https://open.er-api.com/v6/latest/" ++ b) with
  | failed e => rfl
  | response st body =>
    simp only
    split_ifs
    · rfl
    · cases body <;> rfl

/-- With a working disk and rates that JSON can encode, `saveCache` replaces
the cache file. -/
theorem saveCache_ok (L : Lib F) (w : World F) (c : ExchangeRateCache F)
    (hmk : w.mkdirErr = none) (hfin : ∀ e ∈ c.Rates, L.jsonErr e.2 = none)
    (hwr : w.writeErr = none) :
    (saveCache L w c).1 = { w with cacheFile := CacheFile.stored (jsonCache c) } := by
  have hf : c.Rates.findSome? (fun e => L.jsonErr e.2) = none := by
    rw [List.findSome?_eq_none_iff]
    exact hfin
  simp [saveCache, hmk, hf, hwr]

/-- C11: on a cache miss for a base that normalises to `b`, `getExchangeRates`
asks the first provider; if it answers, its rates are returned and no second
request is made; otherwise the second provider is asked and, if it answers, its
rates are returned; in both cases, when the cache file can be written
(directory, encoding and write succeed), it then holds the record of these
rates, the base as requested, the current time in seconds and a TTL of 3600,
whatever it held before; if both providers fail the call fails with
`both APIs failed: ` followed by the error of the second provider, and the
cache file is as it was. -/
theorem getExchangeRates_provider_order (L : Lib F) (w : World F) (baseCurrency b : GoString)
    (hmiss : ¬ CacheHit w baseCurrency) (hb : normalizeCurrency L baseCurrency = Except.ok b) :
    (∀ rates, (fetchFromFrankfurter w b).2 = Except.ok rates →
        (getExchangeRates L w baseCurrency).2 = Except.ok rates
        ∧ (getExchangeRates L w baseCurrency).1.requests
            = w.requests ++ [str "https://api.frankfurter.dev/v1/latest?base=" ++ b]
        ∧ (w.mkdirErr = none → (∀ e ∈ rates, L.jsonErr e.2 = none) → w.writeErr = none →
            (getExchangeRates L w baseCurrency).1.cacheFile
              = CacheFile.stored (jsonCache
                  { Rates := rates, Base := baseCurrency, Timestamp := unixNow w, TTL := 3600 })))
    ∧ (∀ e1 rates, (fetchFromFrankfurter w b).2 = Except.error e1 →
        (fetchFromOpenER w b).2 = Except.ok rates →
        (getExchangeRates L w baseCurrency).2 = Except.ok rates
        ∧ (getExchangeRates L w baseCurrency).1.requests
            = w.requests ++ [str "https://api.frankfurter.dev/v1/latest?base=" ++ b,
                str "https://open.er-api.com/v6/latest/" ++ b]
        ∧ (w.mkdirErr = none → (∀ e ∈ rates, L.jsonErr e.2 = none) → w.writeErr = none →
            (getExchangeRates L w baseCurrency).1.cacheFile
              = CacheFile.stored (jsonCache
                  { Rates := rates, Base := baseCurrency, Timestamp := unixNow w, TTL := 3600 })))
    ∧ (∀ e1 e2, (fetchFromFrankfurter w b).2 = Except.error e1 →
        (fetchFromOpenER w b).2 = Except.error e2 →
        (getExchangeRates L w baseCurrency).2 = Except.error (str "both APIs failed: " ++ e2)
        ∧ (getExchangeRates L w baseCurrency).1.requests
            = w.requests ++ [str "https://api.frankfurter.dev/v1/latest?base=" ++ b,
                str "https://open.er-api.com/v6/latest/" ++ b]
        ∧ (getExchangeRates L w baseCurrency).1.cacheFile = w.cacheFile) := by
  rw [getExchangeRates_miss L w baseCurrency hmiss]
  have hw := fetchFromFrankfurter_world w b
  rcases hf : fetchFromFrankfurter w b with ⟨w1, r1⟩
  rw [hf] at hw
  simp only at hw
  subst hw
  have ho := fetchFromOpenER_answer w
    (w.requests ++ [str "https://api.frankfurter.dev/v1/latest?base=" ++ b]) b
  have hw2 := fetchFromOpenER_world
    { w with requests := w.requests ++ [str "https://api.frankfurter.dev/v1/latest?base=" ++ b] } b
  rcases hg : fetchFromOpenER
    { w with requests := w.requests ++ [str "https://api.frankfurter.dev/v1/latest?base=" ++ b] }
    b with ⟨w2, r2⟩
  rw [hg] at ho hw2
  simp only at ho hw2
  subst hw2
  refine ⟨?_, ?_, ?_⟩
  · intro rates hr
    simp only at hr
    subst hr
    simp only [fetchAndStore, fetchExchangeRates, hb, hf]
    refine ⟨trivial, ?_, ?_⟩
    · rw [saveCache_requests]
    · intro hmk hfin hwr
      exact congrArg World.cacheFile (saveCache_ok L
        { w with requests := w.requests ++ [str "https://api.frankfurter.dev/v1/latest?base=" ++ b] }
        { Rates := rates, Base := baseCurrency, Timestamp := unixNow w, TTL := 3600 }
        hmk hfin hwr)
  · intro e1 rates he hr
    simp only at he
    subst he
    rw [← ho] at hr
    subst hr
    simp only [fetchAndStore, fetchExchangeRates, hb, hf, hg]
    refine ⟨trivial, ?_, ?_⟩
    · rw [saveCache_requests]
      simp
    · intro hmk hfin hwr
      exact congrArg World.cacheFile (saveCache_ok L
        { w with requests := (w.requests
            ++ [str "https://api.frankfurter.dev/v1/latest?base=" ++ b])
            ++ [str "https://open.er-api.com/v6/latest/" ++ b] }
        { Rates := rates, Base := baseCurrency, Timestamp := unixNow w, TTL := 3600 }
        hmk hfin hwr)
  · intro e1 e2 he hr
    simp only at he
    subst he
    rw [← ho] at hr
    subst hr
    simp only [fetchAndStore, fetchExchangeRates, hb, hf, hg]
    exact ⟨trivial, by simp, trivial⟩

theorem getExchangeRates_provider_order_witness :
    (getExchangeRates sample.lib sample.online (str "USD")).2 = Except.ok sample.usdRates
    ∧ (getExchangeRates sample.lib sample.online (str "USD")).1.requests
        = [str "https://api.frankfurter.dev/v1/latest?base=USD"]
    ∧ (getExchangeRates sample.lib sample.online (str "USD")).1.cacheFile
        = CacheFile.stored
            { Rates := sample.usdRates, Base := str "USD", Timestamp := 1700000000, TTL := 3600 } :=
  have h := (getExchangeRates_provider_order sample.lib sample.online (str "USD") (str "USD")
    (fun ⟨_, hc, hbase, _⟩ => absurd ((CacheFile.stored.inj hc).symm ▸ hbase) (by decide))
    (by decide)).1 sample.usdRates (by decide!)
  ⟨h.1, h.2.1.trans (by decide),
    (h.2.2 (by decide) (by decide) (by decide)).trans (by decide!)⟩

end providers

section adjust
variable {F : Type}

/-- JSON encoding of a list in which one balance was replaced. -/
theorem map_jsonWallet_modify (l : List (Wallet F)) (g : Wallet F → F) (n : Nat)
    (hl : l.map jsonWallet = l) :
    (l.modify (fun x => { x with Balance := g x }) n).map jsonWallet
      = l.modify (fun x => { x with Balance := g x }) n := by
  apply List.ext_getElem?
  intro j
  have hj : (l.map jsonWallet)[j]? = l[j]? := by rw [hl]
  rw [List.getElem?_map] at hj
  rw [List.getElem?_map, List.getElem?_modify]
  cases hx : l[j]? with
  | none => simp
  | some x =>
    rw [hx] at hj
    simp only [Option.map_some', Option.some.injEq] at hj
    by_cases hnj : n = j
    · simp only [hnj, if_true, Option.map_some', Option.map_eq_map, Option.some.injEq]
      have h1 := congrArg Wallet.Name hj
      have h2 := congrArg Wallet.Owner hj
      have h3 := congrArg Wallet.Type_ hj
      have h4 := congrArg Wallet.Currency hj
      simp only [jsonWallet] at h1 h2 h3 h4 ⊢
      rw [h1, h2, h3, h4]
    · simp [hnj, hj]

/-- The balances of a list in which one balance was replaced can be encoded
when the old ones and the new one can. -/
theorem marshalErr_modify (L : Lib F) (bf : BudgetFile F) (g : Wallet F → F) (n : Nat)
    (hfin : marshalErr L bf = none)
    (hnew : ∀ x, bf.Wallets[n]? = some x → L.jsonErr (g x) = none) :
    marshalErr L { bf with Wallets := bf.Wallets.modify (fun x => { x with Balance := g x }) n }
      = none := by
  unfold marshalErr at hfin ⊢
  rw [List.findSome?_eq_none_iff] at hfin ⊢
  intro y hy
  obtain ⟨j, hj⟩ := List.mem_iff_getElem?.mp hy
  simp only at hj
  rw [List.getElem?_modify] at hj
  cases hx : bf.Wallets[j]? with
  | none => simp [hx] at hj
  | some x =>
    rw [hx] at hj
    simp only [Option.map_eq_map, Option.map_some', Option.some.injEq] at hj
    by_cases hnj : n = j
    · subst hnj
      simp only [if_true] at hj
      subst hj
      exact hnew x hx
    · simp only [hnj, if_false] at hj
      subst hj
      exact hfin x (List.mem_iff_getElem?.mpr ⟨j, hx⟩)

/-- On a working disk, saving a stored, well-formed file with one balance
replaced rewrites that file and touches nothing else. -/
theorem SaveBudgetFile_modify (L : Lib F) (w : World F) (path : GoString) (bf : BudgetFile F)
    (n : Nat) (g : Wallet F → F)
    (hname : bf.Name = path)
    (hjson : jsonBudgetFile bf = bf) (hfin : marshalErr L bf = none)
    (hmk : w.mkdirErr = none) (hwr : w.writeErr = none)
    (hnew : ∀ x, bf.Wallets[n]? = some x → L.jsonErr (g x) = none) :
    SaveBudgetFile L w
        { bf with Wallets := bf.Wallets.modify (fun x => { x with Balance := g x }) n } =
      ({ w with
         files := writeFile w.files path
                    (FileContent.budgetFile
                      { bf with
                        UpdatedAt := w.now,
                        Wallets := bf.Wallets.modify (fun x => { x with Balance := g x }) n }) },
       none) := by
  subst hname
  obtain ⟨h1, h2, h3⟩ := jsonBudgetFile_fixed bf hjson
  rw [SaveBudgetFile_ok L w _ hmk hwr (marshalErr_modify L bf g n hfin hnew)]
  simp only [jsonBudgetFile, map_jsonWallet_modify _ g n h2, h1, h3]

/-- The storage effect of `AdjustWalletByIndex` on a working disk. -/
theorem AdjustWalletByIndex_ok [Add F] (L : Lib F) (w : World F) (path : GoString)
    (bf : BudgetFile F) (n : Nat) (a : F)
    (hfile : lookupFile w path = some (FileContent.budgetFile bf))
    (hname : bf.Name = path) (hpath : path ≠ [])
    (hjson : jsonBudgetFile bf = bf) (hfin : marshalErr L bf = none)
    (hmk : w.mkdirErr = none) (hwr : w.writeErr = none) (hn : n < bf.Wallets.length)
    (hnew : ∀ x, bf.Wallets[n]? = some x → L.jsonErr (x.Balance + a) = none) :
    AdjustWalletByIndex L w path (n : Int) a =
      ({ w with
         files := writeFile w.files path
                    (FileContent.budgetFile
                      { bf with
                        UpdatedAt := w.now,
                        Wallets := bf.Wallets.modify
                          (fun x => { x with Balance := x.Balance + a }) n }) },
       none) := by
  have hload := LoadBudgetFile_stored L w path bf hfile (by rw [hname]; exact hpath)
  have hidx : ¬ ((n : Int) < 0 ∨ (n : Int) ≥ (bf.Wallets.length : Int)) := by omega
  simp only [AdjustWalletByIndex, hload, if_neg hidx, Int.toNat_ofNat]
  exact SaveBudgetFile_modify L w path bf n (fun x => x.Balance + a) hname hjson hfin hmk hwr hnew

/-- The storage effect of `SetWalletBalanceByIndex` on a working disk. -/
theorem SetWalletBalanceByIndex_ok (L : Lib F) (w : World F) (path : GoString)
    (bf : BudgetFile F) (n : Nat) (a : F)
    (hfile : lookupFile w path = some (FileContent.budgetFile bf))
    (hname : bf.Name = path) (hpath : path ≠ [])
    (hjson : jsonBudgetFile bf = bf) (hfin : marshalErr L bf = none)
    (hmk : w.mkdirErr = none) (hwr : w.writeErr = none) (hn : n < bf.Wallets.length)
    (hnew : L.jsonErr a = none) :
    SetWalletBalanceByIndex L w path (n : Int) a =
      ({ w with
         files := writeFile w.files path
                    (FileContent.budgetFile
                      { bf with
                        UpdatedAt := w.now,
                        Wallets := bf.Wallets.modify (fun x => { x with Balance := a }) n }) },
       none) := by
  have hload := LoadBudgetFile_stored L w path bf hfile (by rw [hname]; exact hpath)
  have hidx : ¬ ((n : Int) < 0 ∨ (n : Int) ≥ (bf.Wallets.length : Int)) := by omega
  simp only [SetWalletBalanceByIndex, hload, if_neg hidx, Int.toNat_ofNat]
  exact SaveBudgetFile_modify L w path bf n (fun _ => a) hname hjson hfin hmk hwr
    (fun _ _ => hnew)

/-- C12: with a snapshot equal to the wallets of the stored, well-formed file of
the current path, a working disk, an index `n` of the snapshot and an amount
text that parses to `a` (the new balance being one JSON can encode),
`adjust n <text>` returns; afterwards the file holds the same wallets except
that the balance of wallet `n` is the old one plus `a` when the text starts
with `+` or `-`, and `a` otherwise; every other wallet and every other field of
wallet `n` is as before; and the snapshot equals the stored wallets. -/
theorem adjust_command_effect [Add F] (L : Lib F) (w : World F) (m : model F)
    (bf : BudgetFile F) (tok amt : GoString) (n : Nat) (a : F)
    (hpath : m.currentPath ≠ [])
    (hfile : lookupFile w m.currentPath = some (FileContent.budgetFile bf))
    (hname : bf.Name = m.currentPath)
    (hjson : jsonBudgetFile bf = bf) (hfin : marshalErr L bf = none)
    (hsnap : m.wallets = bf.Wallets)
    (hmk : w.mkdirErr = none) (hwr : w.writeErr = none)
    (htok : Atoi tok = some (n : Int)) (hn : n < bf.Wallets.length)
    (hamt : L.parseFloat amt = some a)
    (hnew : ∀ x, bf.Wallets[n]? = some x →
      L.jsonErr (if (startsWith amt (str "+") || startsWith amt (str "-")) = true
        then x.Balance + a else a) = none) :
    ∃ w2 m2 msg bf2,
      handleAdjustCommand L w m tok amt = some (w2, m2, msg)
      ∧ lookupFile w2 m.currentPath = some (FileContent.budgetFile bf2)
      ∧ bf2.Wallets = bf.Wallets.modify
          (fun x => { x with
            Balance := if (startsWith amt (str "+") || startsWith amt (str "-")) = true
              then x.Balance + a else a }) n
      ∧ m2.wallets = bf2.Wallets
      ∧ bf2.Wallets.length = bf.Wallets.length
      ∧ (∀ j, j ≠ n → bf2.Wallets[j]? = bf.Wallets[j]?)
      ∧ (∀ x, bf.Wallets[n]? = some x →
          bf2.Wallets[n]? = some
            { x with
              Balance := if (startsWith amt (str "+") || startsWith amt (str "-")) = true
                then x.Balance + a else a }) := by
  have hidx : ¬ ((n : Int) < 0 ∨ (n : Int) ≥ (m.wallets.length : Int)) := by
    rw [hsnap]; omega
  obtain ⟨x0, hx0⟩ : ∃ x, bf.Wallets[n]? = some x :=
    ⟨bf.Wallets[n], List.getElem?_eq_getElem hn⟩
  by_cases hp : (startsWith amt (str "+") || startsWith amt (str "-")) = true
  · simp only [hp, if_true] at hnew ⊢
    have hst := AdjustWalletByIndex_ok L w m.currentPath bf n a hfile hname hpath hjson hfin
      hmk hwr hn hnew
    have hlook : lookupFile
        { w with
          files := writeFile w.files m.currentPath
            (FileContent.budgetFile
              { bf with
                UpdatedAt := w.now,
                Wallets := bf.Wallets.modify (fun x => { x with Balance := x.Balance + a }) n }) }
        m.currentPath
        = some (FileContent.budgetFile
            { bf with
              UpdatedAt := w.now,
              Wallets := bf.Wallets.modify (fun x => { x with Balance := x.Balance + a }) n }) :=
      lookup_writeFile _ _ _
    have hload := LoadBudgetFile_stored L _ m.currentPath _ hlook (by show bf.Name ≠ []; rw [hname]; exact hpath)
    have hix : index (bf.Wallets.modify (fun x => { x with Balance := x.Balance + a }) n) (n : Int)
        = some { x0 with Balance := x0.Balance + a } := by
      have : (0 : Int) ≤ n ∧ (n : Int)
          < ((bf.Wallets.modify (fun x => { x with Balance := x.Balance + a }) n).length : Int) := by
        rw [List.length_modify]; omega
      unfold index
      rw [if_pos this]
      simp only [Int.toNat_ofNat, List.getElem?_modify_eq, hx0, Option.map_eq_map,
        Option.map_some']
    refine ⟨{ w with
          files := writeFile w.files m.currentPath
            (FileContent.budgetFile
              { bf with
                UpdatedAt := w.now,
                Wallets := bf.Wallets.modify (fun x => { x with Balance := x.Balance + a }) n }) },
      { m with
        wallets := bf.Wallets.modify (fun x => { x with Balance := x.Balance + a }) n,
        err := none },
      str "Adjusted " ++ x0.Name ++ str " by " ++ L.formatFloat2 a,
      { bf with
        UpdatedAt := w.now,
        Wallets := bf.Wallets.modify (fun x => { x with Balance := x.Balance + a }) n },
      ?_, hlook, rfl, rfl, ?_, ?_, ?_⟩
    · simp only [handleAdjustCommand, htok, hidx, if_false, hamt, hp, Bool.not_true,
        Bool.false_eq_true, hst, reloadWallets, loadWallets, hpath, hload, hix]
    · simp
    · intro j hj
      exact List.getElem?_modify_ne _ _ (Ne.symm hj)
    · intro x hx
      simp [hx]
  · simp only [hp, if_false] at hnew ⊢
    have hst := SetWalletBalanceByIndex_ok L w m.currentPath bf n a hfile hname hpath hjson hfin
      hmk hwr hn (hnew x0 hx0)
    have hlook : lookupFile
        { w with
          files := writeFile w.files m.currentPath
            (FileContent.budgetFile
              { bf with
                UpdatedAt := w.now,
                Wallets := bf.Wallets.modify (fun x => { x with Balance := a }) n }) }
        m.currentPath
        = some (FileContent.budgetFile
            { bf with
              UpdatedAt := w.now,
              Wallets := bf.Wallets.modify (fun x => { x with Balance := a }) n }) :=
      lookup_writeFile _ _ _
    have hload := LoadBudgetFile_stored L _ m.currentPath _ hlook (by show bf.Name ≠ []; rw [hname]; exact hpath)
    have hix : index (bf.Wallets.modify (fun x => { x with Balance := a }) n) (n : Int)
        = some { x0 with Balance := a } := by
      have : (0 : Int) ≤ n ∧ (n : Int)
          < ((bf.Wallets.modify (fun x => { x with Balance := a }) n).length : Int) := by
        rw [List.length_modify]; omega
      unfold index
      rw [if_pos this]
      simp only [Int.toNat_ofNat, List.getElem?_modify_eq, hx0, Option.map_eq_map,
        Option.map_some']
    refine ⟨{ w with
          files := writeFile w.files m.currentPath
            (FileContent.budgetFile
              { bf with
                UpdatedAt := w.now,
                Wallets := bf.Wallets.modify (fun x => { x with Balance := a }) n }) },
      { m with
        wallets := bf.Wallets.modify (fun x => { x with Balance := a }) n,
        err := none },
      str "Set " ++ x0.Name ++ str " balance to " ++ L.formatFloat2 a,
      { bf with
        UpdatedAt := w.now,
        Wallets := bf.Wallets.modify (fun x => { x with Balance := a }) n },
      ?_, hlook, rfl, rfl, ?_, ?_, ?_⟩
    · simp only [handleAdjustCommand, htok, hidx, if_false, hamt, hp, Bool.not_false,
        if_true, hst, reloadWallets, loadWallets, hpath, hload, hix]
    · simp
    · intro j hj
      exact List.getElem?_modify_ne _ _ (Ne.symm hj)
    · intro x hx
      simp [hx]

theorem adjust_command_effect_witness :
    ∃ w2 m2 msg bf2,
      handleAdjustCommand sample.lib sample.world sample.onHome (str "1") (str "+50")
        = some (w2, m2, msg)
      ∧ lookupFile w2 sample.onHome.currentPath = some (FileContent.budgetFile bf2)
      ∧ bf2.Wallets = sample.home.Wallets.modify
          (fun x => { x with
            Balance := if (startsWith (str "+50") (str "+") || startsWith (str "+50") (str "-")) = true
              then x.Balance + 50 else 50 }) 1
      ∧ m2.wallets = bf2.Wallets
      ∧ bf2.Wallets.length = sample.home.Wallets.length
      ∧ (∀ j, j ≠ 1 → bf2.Wallets[j]? = sample.home.Wallets[j]?)
      ∧ (∀ x, sample.home.Wallets[1]? = some x →
          bf2.Wallets[1]? = some
            { x with
              Balance := if (startsWith (str "+50") (str "+") || startsWith (str "+50") (str "-")) = true
                then x.Balance + 50 else 50 }) :=
  adjust_command_effect sample.lib sample.world sample.onHome sample.home (str "1") (str "+50") 1 50
    (by decide) (by decide) (by decide) (by decide) (by decide) (by decide) (by decide)
    (by decide) (by decide) (by decide) (by decide!) (fun _ _ => rfl)

/-- The claim of C12 fails when the new balance is not finite: the text `+1e308`
parses as a number, wallet 0 holds `1e308`, the sum overflows to `+Inf`,
`json.Marshal` rejects it, and `adjust 0 +1e308` stores nothing: the file and
the snapshot are as before and the answer is the error. -/
theorem adjust_overflow_stores_nothing :
    sample.floatLib.parseFloat (str "+1e308") = some sample.float1e308
    ∧ sample.float1e308 + sample.float1e308 = Float64.inf false
    ∧ (handleAdjustCommand sample.floatLib sample.floatWorld sample.floatSession
          (str "0") (str "+1e308")).map
        (fun r => (lookupFile r.1 (str "home"), r.2.1.wallets, r.2.2))
      = some (some (FileContent.budgetFile sample.floatHome), sample.floatHome.Wallets,
          str "Failed to adjust wallet: failed to marshal budget file: json: unsupported value: +Inf") := by
  decide!

end adjust

section screens
variable {F : Type}

theorem refreshFiles_screens (L : Lib F) (w : World F) (m : model F) :
    (refreshFiles L w m).2.currentScreen = m.currentScreen
    ∧ (refreshFiles L w m).2.originScreen = m.originScreen := by
  unfold refreshFiles
  rcases ListBudgetFiles L w with ⟨w1, e | fs⟩ <;> exact ⟨rfl, rfl⟩

theorem nextCreationStep_screens (L : Lib F) (w : World F) (m : model F) :
    (nextCreationStep L w m).2.currentScreen = m.currentScreen
    ∧ (nextCreationStep L w m).2.originScreen = m.originScreen := by
  obtain ⟨opts, h, _⟩ := nextCreationStep_result L w m
  rw [h]
  exact ⟨rfl, rfl⟩

theorem hideLoop_screens (m : model F) (toks : List GoString) (count : Int) :
    (hideLoop m toks count).1.currentScreen = m.currentScreen
    ∧ (hideLoop m toks count).1.originScreen = m.originScreen := by
  induction toks generalizing m count with
  | nil => exact ⟨rfl, rfl⟩
  | cons t rest ih =>
    simp only [hideLoop]
    cases Atoi (TrimSpace t) with
    | none => exact ⟨rfl, rfl⟩
    | some idx =>
      simp only
      split_ifs
      · exact ⟨rfl, rfl⟩
      · exact ih _ _

theorem handleOptionStep_screens (L : Lib F) (w : World F) (m : model F) (input : GoString)
    (set : model F → GoString → model F) (commit : GoString → GoString)
    (hset : ∀ m v, (set m v).currentScreen = m.currentScreen
      ∧ (set m v).originScreen = m.originScreen)
    (w1 : World F) (m1 : model F) (c : Cmd)
    (hu : handleOptionStep L w m input set commit = some (w1, m1, c)) :
    m1.currentScreen = m.currentScreen ∧ m1.originScreen = m.originScreen := by
  unfold handleOptionStep at hu
  by_cases hc : m.isCustomInput = true
  · by_cases hi : input = []
    · simp [hc, hi] at hu
      obtain ⟨_, rfl, _⟩ := hu
      exact ⟨rfl, rfl⟩
    · simp [hc, hi] at hu
      obtain ⟨_, rfl, _⟩ := hu
      have h1 := nextCreationStep_screens L w (set m (commit input))
      have h2 := hset m (commit input)
      exact ⟨h1.1.trans h2.1, h1.2.trans h2.2⟩
  · by_cases hl : m.selectedOption < (m.creationOptions.length : Int) - 1
    · cases hx : index m.creationOptions m.selectedOption with
      | none => simp [hc, hl, hx] at hu
      | some o =>
        simp [hc, hl, hx] at hu
        obtain ⟨_, rfl, _⟩ := hu
        have h1 := nextCreationStep_screens L w (set m o)
        have h2 := hset m o
        exact ⟨h1.1.trans h2.1, h1.2.trans h2.2⟩
    · simp [hc, hl] at hu
      obtain ⟨_, rfl, _⟩ := hu
      exact ⟨rfl, rfl⟩

theorem handleAdjustCommand_screens [Add F] (L : Lib F) (w : World F) (m : model F)
    (tok amt : GoString) (w1 : World F) (m1 : model F) (msg : GoString)
    (hu : handleAdjustCommand L w m tok amt = some (w1, m1, msg)) :
    m1.currentScreen = m.currentScreen ∧ m1.originScreen = m.originScreen := by
  unfold handleAdjustCommand at hu
  split at hu
  · simp only [Option.some.injEq, Prod.mk.injEq] at hu
    obtain ⟨_, rfl, _⟩ := hu
    exact ⟨rfl, rfl⟩
  · split at hu
    · simp only [Option.some.injEq, Prod.mk.injEq] at hu
      obtain ⟨_, rfl, _⟩ := hu
      exact ⟨rfl, rfl⟩
    · simp only at hu
      split at hu
      · simp only [Option.some.injEq, Prod.mk.injEq] at hu
        obtain ⟨_, rfl, _⟩ := hu
        exact ⟨rfl, rfl⟩
      · split at hu
        · simp only [Option.some.injEq, Prod.mk.injEq] at hu
          obtain ⟨_, rfl, _⟩ := hu
          exact ⟨rfl, rfl⟩
        · split at hu
          · simp only [Option.some.injEq, Prod.mk.injEq] at hu
            obtain ⟨_, rfl, _⟩ := hu
            exact ⟨rfl, rfl⟩
          · split at hu
            · cases hu
            · split at hu <;>
              · simp only [Option.some.injEq, Prod.mk.injEq] at hu
                obtain ⟨_, rfl, _⟩ := hu
                exact ⟨rfl, rfl⟩

theorem handleDeleteCommand_screens (m : model F) (tok : GoString) :
    ((handleDeleteCommand m tok).1.currentScreen = m.currentScreen
      ∧ (handleDeleteCommand m tok).1.originScreen = m.originScreen)
    ∨ ((handleDeleteCommand m tok).1.currentScreen = screen.confirmationScreen
      ∧ (handleDeleteCommand m tok).1.originScreen = screen.walletScreen) := by
  unfold handleDeleteCommand
  cases Atoi tok with
  | none => exact Or.inl ⟨rfl, rfl⟩
  | some idx =>
    simp only
    cases index m.wallets idx with
    | none => exact Or.inl ⟨rfl, rfl⟩
    | some x => exact Or.inr ⟨rfl, rfl⟩

/-- A command leaves the screen and the origin as they are, or opens the
wizard, or opens the confirmation with the Wallet screen as origin. -/
theorem HandleCommand_screens [Zero F] [Add F] (L : Lib F) (w : World F) (m : model F)
    (cmd : GoString) (w1 : World F) (m1 : model F) (msg : GoString)
    (hu : HandleCommand L w m cmd = some (w1, m1, msg)) :
    (m1.currentScreen = m.currentScreen ∧ m1.originScreen = m.originScreen)
    ∨ (m1.currentScreen = screen.walletCreationScreen ∧ m1.originScreen = m.originScreen)
    ∨ (m1.currentScreen = screen.confirmationScreen
        ∧ m1.originScreen = screen.walletScreen) := by
  unfold HandleCommand at hu
  repeat' split at hu
  all_goals first
    | exact Or.inl (handleAdjustCommand_screens L w m _ _ w1 m1 msg hu)
    | (simp only [Option.some.injEq, Prod.mk.injEq] at hu
       obtain ⟨_, rfl, _⟩ := hu
       first
         | exact Or.inl ⟨rfl, rfl⟩
         | exact Or.inr (Or.inl ⟨rfl, rfl⟩)
         | exact Or.inl (hideLoop_screens _ _ _)
         | exact (handleDeleteCommand_screens _ _).imp id Or.inr)

theorem runContinuation_screens (L : Lib F) (w : World F) (m : model F) (k : Continuation) :
    (runContinuation L w m k).2.1.currentScreen = m.currentScreen
    ∧ (runContinuation L w m k).2.1.originScreen = m.originScreen := by
  cases k with
  | reloadWallets =>
    unfold runContinuation
    simp only
    split <;> exact ⟨rfl, rfl⟩
  | refreshFiles =>
    unfold runContinuation
    exact refreshFiles_screens L w m

theorem handleCreationStep_screens [Zero F] (L : Lib F) (w : World F) (m : model F)
    (w1 : World F) (m1 : model F) (c : Cmd)
    (hu : handleCreationStep L w m = some (w1, m1, c)) :
    (m1.currentScreen = m.currentScreen ∨ m1.currentScreen = screen.walletScreen)
    ∧ m1.originScreen = m.originScreen := by
  by_cases h0 : m.creationStep = 0
  · rw [handleCreationStep_name L w m h0] at hu
    split at hu
    · simp only [Option.some.injEq, Prod.mk.injEq] at hu
      obtain ⟨_, rfl, _⟩ := hu
      exact ⟨Or.inl rfl, rfl⟩
    · simp only [Option.some.injEq, Prod.mk.injEq] at hu
      obtain ⟨_, rfl, _⟩ := hu
      have h := nextCreationStep_screens L w
        { m with creationData := { m.creationData with Name := TrimSpace m.creationInput } }
      exact ⟨Or.inl h.1, h.2⟩
  by_cases h1 : m.creationStep = 1
  · rw [handleCreationStep_type L w m h1] at hu
    have h := handleOptionStep_screens L w m (TrimSpace m.creationInput)
      (fun m v => { m with creationData := { m.creationData with Type_ := v } }) id
      (fun _ _ => ⟨rfl, rfl⟩) w1 m1 c hu
    exact ⟨Or.inl h.1, h.2⟩
  by_cases h2 : m.creationStep = 2
  · rw [handleCreationStep_currency L w m h2] at hu
    have h := handleOptionStep_screens L w m (TrimSpace m.creationInput)
      (fun m v => { m with creationData := { m.creationData with Currency := v } })
      (ToUpper L.upperTable) (fun _ _ => ⟨rfl, rfl⟩) w1 m1 c hu
    exact ⟨Or.inl h.1, h.2⟩
  by_cases h3 : m.creationStep = 3
  · rw [handleCreationStep_owner L w m h3] at hu
    have h := handleOptionStep_screens L w m (TrimSpace m.creationInput)
      (fun m v => { m with creationData := { m.creationData with Owner := v } }) id
      (fun _ _ => ⟨rfl, rfl⟩) w1 m1 c hu
    exact ⟨Or.inl h.1, h.2⟩
  by_cases h4 : m.creationStep = 4
  · rw [handleCreationStep_balance L w m h4] at hu
    split at hu
    · simp only [Option.some.injEq, Prod.mk.injEq] at hu
      obtain ⟨_, rfl, _⟩ := hu
      exact ⟨Or.inl rfl, rfl⟩
    · split at hu
      · simp only [Option.some.injEq, Prod.mk.injEq] at hu
        obtain ⟨_, rfl, _⟩ := hu
        exact ⟨Or.inl rfl, rfl⟩
      · simp only [Option.some.injEq, Prod.mk.injEq] at hu
        obtain ⟨_, rfl, _⟩ := hu
        exact ⟨Or.inr rfl, rfl⟩
  · have hx : handleCreationStep L w m
        = some ((nextCreationStep L w m).1, (nextCreationStep L w m).2, Cmd.none) := by
      unfold handleCreationStep
      simp only [h0, h1, h2, h3, h4, if_false]
    rw [hx] at hu
    simp only [Option.some.injEq, Prod.mk.injEq] at hu
    obtain ⟨_, rfl, _⟩ := hu
    have h := nextCreationStep_screens L w m
    exact ⟨Or.inl h.1, h.2⟩

theorem screenStep_same (m m1 : model F) (ho : originOk m)
    (h1 : m1.currentScreen = m.currentScreen) (h2 : m1.originScreen = m.originScreen) :
    screenStep m m1 := by
  unfold screenStep
  exact ⟨Or.inl h1, by unfold originOk at ho ⊢; rw [h2]; exact ho⟩

theorem screenStep_to (m m1 : model F)
    (h1 : specTransition m.originScreen m.currentScreen m1.currentScreen)
    (h2 : originOk m1) : screenStep m m1 := by
  unfold screenStep
  exact ⟨Or.inr h1, h2⟩

theorem handleGreetingInput_step (w : World F) (m : model F) (msg : GoString)
    (w1 : World F) (m1 : model F) (c : Cmd)
    (hs : m.currentScreen = screen.greetingScreen) (ho : originOk m)
    (hu : handleGreetingInput w m msg = some (w1, m1, c)) : screenStep m m1 := by
  unfold handleGreetingInput at hu
  repeat' split at hu
  all_goals first
    | (simp only [Option.some.injEq, Prod.mk.injEq] at hu
       obtain ⟨_, rfl, _⟩ := hu
       repeat' split
       all_goals first
         | exact screenStep_same _ _ ho rfl rfl
         | exact screenStep_to _ _ (by simp [specTransition, hs, handleNewFileCreation]) ho
         | exact screenStep_to _ _ (by simp [specTransition, hs]) (Or.inr rfl))
    | cases hu

theorem refreshFiles_currentScreen (L : Lib F) (w : World F) (m : model F) :
    (refreshFiles L w m).2.currentScreen = m.currentScreen :=
  (refreshFiles_screens L w m).1

theorem handleBudgetFileCreation_step (w : World F) (m : model F)
    (w1 : World F) (m1 : model F) (c : Cmd)
    (hs : m.currentScreen = screen.budgetCreationScreen) (ho : originOk m)
    (hu : handleBudgetFileCreation w m = (w1, m1, c)) : screenStep m m1 := by
  simp only [handleBudgetFileCreation] at hu
  by_cases h : m.creationInput = []
  · rw [if_pos h] at hu
    simp only [Prod.mk.injEq] at hu
    obtain ⟨_, rfl, _⟩ := hu
    exact screenStep_same _ _ ho rfl rfl
  · rw [if_neg h] at hu
    rcases hc : CreateBudgetFile w m.creationInput with ⟨wc, _ | e⟩
    · rw [hc] at hu
      simp only [Prod.mk.injEq] at hu
      obtain ⟨_, rfl, _⟩ := hu
      exact screenStep_to _ _ (by simp [specTransition, hs]) ho
    · rw [hc] at hu
      simp only [Prod.mk.injEq] at hu
      obtain ⟨_, rfl, _⟩ := hu
      exact screenStep_same _ _ ho rfl rfl

theorem handleBudgetCreationInput_step (L : Lib F) (w : World F) (m : model F) (msg : GoString)
    (w1 : World F) (m1 : model F) (c : Cmd)
    (hs : m.currentScreen = screen.budgetCreationScreen) (ho : originOk m)
    (hu : handleBudgetCreationInput L w m msg = some (w1, m1, c)) : screenStep m m1 := by
  unfold handleBudgetCreationInput at hu
  repeat' split at hu
  all_goals first
    | exact handleBudgetFileCreation_step w m w1 m1 c hs ho (Option.some.inj hu)
    | (simp only [Option.map_eq_some'] at hu
       obtain ⟨r, _, hr⟩ := hu
       simp only [Prod.mk.injEq] at hr
       obtain ⟨_, rfl, _⟩ := hr
       exact screenStep_same _ _ ho rfl rfl)
    | (simp only [Option.some.injEq, Prod.mk.injEq] at hu
       obtain ⟨_, rfl, _⟩ := hu
       all_goals first
         | exact screenStep_same _ _ ho rfl rfl
         | exact screenStep_to _ _
             (by simp [specTransition, hs, CleanSlates, refreshFiles_currentScreen])
             (Or.inr rfl))

theorem handleConfirmationInput_step (L : Lib F) (w : World F) (m : model F) (msg : GoString)
    (w1 : World F) (m1 : model F) (c : Cmd)
    (hs : m.currentScreen = screen.confirmationScreen) (ho : originOk m)
    (hu : handleConfirmationInput L w m msg = some (w1, m1, c)) : screenStep m m1 := by
  have hback : ∀ m0 : model F, m0.originScreen = m.originScreen →
      ∀ m2 : model F, m2.currentScreen = (backToOrigin m0).currentScreen →
        m2.originScreen = (backToOrigin m0).originScreen → screenStep m m2 := by
    intro m0 h0 m2 h1 h2
    refine screenStep_to _ _ ?_ ?_
    · rw [h1]
      simp only [specTransition, hs, backToOrigin, h0]
      exact ⟨trivial, ho⟩
    · unfold originOk
      rw [h2]
      exact Or.inr rfl
  unfold handleConfirmationInput at hu
  repeat' split at hu
  all_goals
    simp only [Option.some.injEq, Prod.mk.injEq] at hu
    first
      | (obtain ⟨_, rfl, _⟩ := hu
         first
           | exact screenStep_same _ _ ho rfl rfl
           | exact hback _ rfl _ rfl rfl)
      | (have h := congrArg (fun r => r.2.1) hu
         simp only at h
         subst h
         exact hback m rfl _ (runContinuation_screens L _ _ _).1
           (runContinuation_screens L _ _ _).2)

theorem handleWalletInput_step [Zero F] [Add F] (L : Lib F) (w : World F) (m : model F)
    (msg : GoString) (w1 : World F) (m1 : model F) (c : Cmd)
    (hs : m.currentScreen = screen.walletScreen) (ho : originOk m)
    (hu : handleWalletInput L w m msg = some (w1, m1, c)) : screenStep m m1 := by
  unfold handleWalletInput at hu
  repeat' split at hu
  all_goals first
    | (simp only [Option.map_eq_some'] at hu
       obtain ⟨r, hr0, hr⟩ := hu
       simp only [Prod.mk.injEq] at hr
       obtain ⟨_, rfl, _⟩ := hr
       first
         | exact screenStep_same _ _ ho rfl rfl
         | (rcases HandleCommand_screens L w m _ r.1 r.2.1 r.2.2 hr0 with h | h | h
            · exact screenStep_same _ _ ho h.1 h.2
            · exact screenStep_to _ _ (by simp [specTransition, hs, h.1])
                (by unfold originOk at ho ⊢; rw [show _ = m.originScreen from h.2]; exact ho)
            · exact screenStep_to _ _ (by simp [specTransition, hs, h.1]) (Or.inl h.2)))
    | (simp only [Option.some.injEq, Prod.mk.injEq] at hu
       obtain ⟨_, rfl, _⟩ := hu
       all_goals first
         | exact screenStep_same _ _ ho rfl rfl
         | exact screenStep_to _ _
             (by simp [specTransition, hs, CleanSlates, refreshFiles_currentScreen])
             (Or.inr rfl))

theorem handleWalletCreationInput_step [Zero F] (L : Lib F) (w : World F) (m : model F)
    (msg : GoString) (w1 : World F) (m1 : model F) (c : Cmd)
    (hs : m.currentScreen = screen.walletCreationScreen) (ho : originOk m)
    (hu : handleWalletCreationInput L w m msg = some (w1, m1, c)) : screenStep m m1 := by
  unfold handleWalletCreationInput at hu
  by_cases h1 : msg = str "enter"
  · rw [if_pos h1] at hu
    obtain ⟨h1, h2⟩ := handleCreationStep_screens L w m w1 m1 c hu
    rcases h1 with h1 | h1
    · exact screenStep_same _ _ ho h1 h2
    · exact screenStep_to _ _ (by simp [specTransition, hs, h1])
        (by unfold originOk at ho ⊢; rw [h2]; exact ho)
  rw [if_neg h1] at hu
  by_cases h2 : msg = str "esc"
  · rw [if_pos h2] at hu
    simp only [Option.some.injEq, Prod.mk.injEq] at hu
    obtain ⟨_, rfl, _⟩ := hu
    exact screenStep_to _ _ (by simp [specTransition, hs, CleanSlates, reloadWallets])
      (Or.inr rfl)
  rw [if_neg h2] at hu
  by_cases h3 : msg = str "backspace"
  · rw [if_pos h3] at hu
    split at hu
    · simp only [Option.map_eq_some'] at hu
      obtain ⟨r, _, hr⟩ := hu
      simp only [Prod.mk.injEq] at hr
      obtain ⟨_, rfl, _⟩ := hr
      exact screenStep_same _ _ ho rfl rfl
    · simp only [Option.some.injEq, Prod.mk.injEq] at hu
      obtain ⟨_, rfl, _⟩ := hu
      exact screenStep_same _ _ ho rfl rfl
  rw [if_neg h3] at hu
  by_cases h4 : msg = str "left"
  · rw [if_pos h4] at hu
    simp only [Option.some.injEq, Prod.mk.injEq] at hu
    obtain ⟨_, rfl, _⟩ := hu
    split <;> exact screenStep_same _ _ ho rfl rfl
  rw [if_neg h4] at hu
  by_cases h5 : msg = str "right"
  · rw [if_pos h5] at hu
    simp only [Option.some.injEq, Prod.mk.injEq] at hu
    obtain ⟨_, rfl, _⟩ := hu
    split <;> exact screenStep_same _ _ ho rfl rfl
  rw [if_neg h5] at hu
  by_cases h6 : msg = str "up" ∨ msg = str "down"
  · rw [if_pos h6] at hu
    split at hu
    · simp only [Option.some.injEq, Prod.mk.injEq] at hu
      obtain ⟨_, rfl, _⟩ := hu
      repeat' split
      all_goals exact screenStep_same _ _ ho rfl rfl
    · simp only [Option.some.injEq, Prod.mk.injEq] at hu
      obtain ⟨_, rfl, _⟩ := hu
      exact screenStep_same _ _ ho rfl rfl
  rw [if_neg h6] at hu
  split at hu
  · simp only [Option.map_eq_some'] at hu
    obtain ⟨r, _, hr⟩ := hu
    simp only [Prod.mk.injEq] at hr
    obtain ⟨_, rfl, _⟩ := hr
    exact screenStep_same _ _ ho rfl rfl
  · simp only [Option.some.injEq, Prod.mk.injEq] at hu
    obtain ⟨_, rfl, _⟩ := hu
    exact screenStep_same _ _ ho rfl rfl

/-- Every step of `Update` from a session whose origin is Wallet or Greeting
respects the table. -/
theorem Update_step [Zero F] [Add F] (L : Lib F) (w : World F) (m : model F) (msg : Msg)
    (w1 : World F) (m1 : model F) (c : Cmd) (ho : originOk m)
    (hu : Update L w m msg = some (w1, m1, c)) : screenStep m m1 := by
  cases msg with
  | windowSize width height =>
    simp only [Update, Option.some.injEq, Prod.mk.injEq] at hu
    obtain ⟨_, rfl, _⟩ := hu
    exact screenStep_same _ _ ho rfl rfl
  | other =>
    simp only [Update, Option.some.injEq, Prod.mk.injEq] at hu
    obtain ⟨_, rfl, _⟩ := hu
    exact screenStep_same _ _ ho rfl rfl
  | key k =>
    simp only [Update] at hu
    by_cases hk : k = str "ctrl+c"
    · rw [if_pos hk] at hu
      simp only [Option.some.injEq, Prod.mk.injEq] at hu
      obtain ⟨_, rfl, _⟩ := hu
      exact screenStep_same _ _ ho rfl rfl
    · rw [if_neg hk] at hu
      cases hs : m.currentScreen with
      | greetingScreen =>
        rw [hs] at hu
        exact handleGreetingInput_step w m k w1 m1 c hs ho hu
      | budgetCreationScreen =>
        rw [hs] at hu
        exact handleBudgetCreationInput_step L w m k w1 m1 c hs ho hu
      | walletScreen =>
        rw [hs] at hu
        exact handleWalletInput_step L w m k w1 m1 c hs ho hu
      | walletCreationScreen =>
        rw [hs] at hu
        exact handleWalletCreationInput_step L w m k w1 m1 c hs ho hu
      | confirmationScreen =>
        rw [hs] at hu
        exact handleConfirmationInput_step L w m k w1 m1 c hs ho hu

theorem Reachable_originOk [Zero F] [Add F] (L : Lib F) (m : model F) (hr : Reachable L m) :
    originOk m := by
  induction hr with
  | init greeting availableFiles => exact Or.inr rfl
  | step w w1 m m1 msg c _ hu ih => exact (Update_step L w m msg w1 m1 c ih hu).2

/-- C15: from every session that is reachable from the initial one, on every
message, the screen after `Update` is the screen before or a successor the
table allows: from Greeting to BudgetCreation, Wallet or Confirmation; from
BudgetCreation to Wallet or Greeting; from Wallet to WalletCreation, Greeting or
Confirmation; from WalletCreation to Wallet; from Confirmation to the origin
screen, which is Wallet or Greeting.  No message takes Greeting to
WalletCreation. -/
theorem screen_transitions [Zero F] [Add F] (L : Lib F) (w w1 : World F) (m m1 : model F)
    (msg : Msg) (c : Cmd) (hr : Reachable L m)
    (hu : Update L w m msg = some (w1, m1, c)) :
    (m1.currentScreen = m.currentScreen
      ∨ specTransition m.originScreen m.currentScreen m1.currentScreen)
    ∧ ¬ (m.currentScreen = screen.greetingScreen
        ∧ m1.currentScreen = screen.walletCreationScreen) := by
  have h := (Update_step L w m msg w1 m1 c (Reachable_originOk L m hr) hu).1
  refine ⟨h, ?_⟩
  rintro ⟨hg, hw⟩
  rw [hg, hw] at h
  simp [specTransition] at h

theorem screen_transitions_witness :
    (screen.walletScreen = sample.start.currentScreen
      ∨ specTransition sample.start.originScreen sample.start.currentScreen
          screen.walletScreen)
    ∧ ¬ (sample.start.currentScreen = screen.greetingScreen
        ∧ screen.walletScreen = screen.walletCreationScreen) :=
  screen_transitions sample.lib sample.world sample.world sample.start
    { sample.start with currentPath := sample.home.Name, wallets := sample.home.Wallets,
                        currentScreen := screen.walletScreen }
    (Msg.key (str "enter")) Cmd.none
    (Reachable.init (str "hi there!") [sample.home, sample.trip]) rfl

end screens

section filters
variable {F : Type}

/-- C21 (as amended): for a command line whose fields are `filter`, a kind and
one or more value tokens, `HandleCommand` returns the world it was given and
the session with exactly one predicate changed: `filter owner` and
`filter type` store the value tokens joined by single spaces, as they are;
`filter currency` stores the upper-cased joined value.  The other predicates,
the hidden set and the snapshot are as before. -/
theorem filter_sets_one_predicate [Zero F] [Add F] (L : Lib F) (w : World F) (m : model F)
    (cmd kind v : GoString) (rest : List GoString)
    (hf : Fields cmd = str "filter" :: kind :: v :: rest) :
    (kind = str "owner" →
        HandleCommand L w m cmd =
          some (w, { m with filterOwner := Join (v :: rest) (str " ") },
            str "Filtering by owner: " ++ Join (v :: rest) (str " ")))
    ∧ (kind = str "type" →
        HandleCommand L w m cmd =
          some (w, { m with filterType := Join (v :: rest) (str " ") },
            str "Filtering by type: " ++ Join (v :: rest) (str " ")))
    ∧ (kind = str "currency" →
        HandleCommand L w m cmd =
          some (w, { m with filterCurrency := ToUpper L.upperTable (Join (v :: rest) (str " ")) },
            str "Filtering by currency: " ++ ToUpper L.upperTable (Join (v :: rest) (str " ")))) := by
  have h1 : str "filter" ≠ str "help" := by decide
  have h2 : str "owner" ≠ str "reset" := by decide
  have h3 : str "type" ≠ str "reset" := by decide
  have h4 : str "currency" ≠ str "reset" := by decide
  have h5 : str "type" ≠ str "owner" := by decide
  have h6 : str "currency" ≠ str "owner" := by decide
  have h7 : str "currency" ≠ str "type" := by decide
  refine ⟨?_, ?_, ?_⟩ <;> intro hk <;> subst hk <;>
    simp only [HandleCommand, hf, h1, h2, h3, h4, h5, h6, h7, if_false, if_true,
      List.isEmpty_cons, Bool.false_eq_true]

theorem filter_sets_one_predicate_witness :
    HandleCommand sample.lib sample.world sample.onHomeHidden (str "filter owner  ann  lee") =
      some (sample.world, { sample.onHomeHidden with filterOwner := str "ann lee" },
        str "Filtering by owner: " ++ str "ann lee") :=
  (filter_sets_one_predicate sample.lib sample.world sample.onHomeHidden
    (str "filter owner  ann  lee") (str "owner") (str "ann") [str "lee"] (by decide)).1 rfl

/-- The claim of C21 fails for `filter currency`: the command `filter currency usd`
stores `USD`, not the value `usd` as typed. -/
theorem filter_currency_is_upper_cased :
    (HandleCommand sample.lib sample.world sample.onHome (str "filter currency usd")).map
        (fun r => r.2.1.filterCurrency) = some (str "USD")
    ∧ str "USD" ≠ Join [str "usd"] (str " ") := by
  decide

end filters

section totals
variable {F : Type}

/-- The loop of `calculateTotal` from index `i` on adds, to the total so far,
the amounts of the visible wallets in order, and counts them. -/
theorem totalLoop_spec [Add F] [Mul F] [Div F] (L : Lib F) (m : model F) (t d : GoString)
    (xs : List (Wallet F)) :
    ∀ (i : Nat) (w : World F) (total : F) (count : Int),
      totalLoop L m t d xs i w total count =
        ((specAddends L t d w
            (((xs.enumFrom i).filter (fun p =>
              decide ((p.1 : Int) ∉ m.hiddenIndexes)
                && decide (m.filterOwner = [] ∨ p.2.Owner = m.filterOwner)
                && decide (m.filterType = [] ∨ p.2.Type_ = m.filterType)
                && decide (m.filterCurrency = [] ∨ p.2.Currency = m.filterCurrency))).map
              Prod.snd)).1,
         (specAddends L t d w
            (((xs.enumFrom i).filter (fun p =>
              decide ((p.1 : Int) ∉ m.hiddenIndexes)
                && decide (m.filterOwner = [] ∨ p.2.Owner = m.filterOwner)
                && decide (m.filterType = [] ∨ p.2.Type_ = m.filterType)
                && decide (m.filterCurrency = [] ∨ p.2.Currency = m.filterCurrency))).map
              Prod.snd)).2.foldl (fun a b => a + b) total,
         count + ((((xs.enumFrom i).filter (fun p =>
              decide ((p.1 : Int) ∉ m.hiddenIndexes)
                && decide (m.filterOwner = [] ∨ p.2.Owner = m.filterOwner)
                && decide (m.filterType = [] ∨ p.2.Type_ = m.filterType)
                && decide (m.filterCurrency = [] ∨ p.2.Currency = m.filterCurrency))).map
              Prod.snd).length : Int)) := by
  induction xs with
  | nil =>
    intro i w total count
    simp [totalLoop, specAddends]
  | cons x xs ih =>
    intro i w total count
    rw [totalLoop]
    by_cases h1 : (i : Int) ∈ m.hiddenIndexes
    · simp [h1, ih, List.enumFrom_cons]
    by_cases h2 : m.filterOwner ≠ [] ∧ x.Owner ≠ m.filterOwner
    · have h2' : ¬ (m.filterOwner = [] ∨ x.Owner = m.filterOwner) := by tauto
      simp [h1, h2, h2', ih, List.enumFrom_cons]
    by_cases h3 : m.filterType ≠ [] ∧ x.Type_ ≠ m.filterType
    · have h3' : ¬ (m.filterType = [] ∨ x.Type_ = m.filterType) := by tauto
      simp [h1, h2, h3, h3', ih, List.enumFrom_cons]
    by_cases h4 : m.filterCurrency ≠ [] ∧ x.Currency ≠ m.filterCurrency
    · have h4' : ¬ (m.filterCurrency = [] ∨ x.Currency = m.filterCurrency) := by tauto
      simp [h1, h2, h3, h4, h4', ih, List.enumFrom_cons]
    have h2' : m.filterOwner = [] ∨ x.Owner = m.filterOwner := by tauto
    have h3' : m.filterType = [] ∨ x.Type_ = m.filterType := by tauto
    have h4' : m.filterCurrency = [] ∨ x.Currency = m.filterCurrency := by tauto
    have hkeep : ((x :: xs).enumFrom i).filter (fun p =>
          decide ((p.1 : Int) ∉ m.hiddenIndexes)
            && decide (m.filterOwner = [] ∨ p.2.Owner = m.filterOwner)
            && decide (m.filterType = [] ∨ p.2.Type_ = m.filterType)
            && decide (m.filterCurrency = [] ∨ p.2.Currency = m.filterCurrency))
        = (i, x) :: (xs.enumFrom (i + 1)).filter (fun p =>
          decide ((p.1 : Int) ∉ m.hiddenIndexes)
            && decide (m.filterOwner = [] ∨ p.2.Owner = m.filterOwner)
            && decide (m.filterType = [] ∨ p.2.Type_ = m.filterType)
            && decide (m.filterCurrency = [] ∨ p.2.Currency = m.filterCurrency)) := by
      rw [List.enumFrom_cons, List.filter_cons]
      simp [h1, h2', h3', h4']
    rw [hkeep, if_neg h1, if_neg h2, if_neg h3, if_neg h4]
    simp only [List.map_cons, specAddends, List.length_cons]
    by_cases h5 : x.Currency = t
    · simp only [h5, if_true, ih, List.foldl_cons]
      refine Prod.ext rfl (Prod.ext rfl ?_)
      simp only [Nat.cast_add, Nat.cast_one]
      ring
    · simp only [h5, if_false]
      rcases hc : ConvertCurrency L w x.Balance x.Currency t d with ⟨w1, e | c⟩
      · simp only [ih, List.foldl_cons]
        refine Prod.ext rfl (Prod.ext rfl ?_)
        simp only [Nat.cast_add, Nat.cast_one]
        ring
      · simp only [ih, List.foldl_cons]
        refine Prod.ext rfl (Prod.ext rfl ?_)
        simp only [Nat.cast_add, Nat.cast_one]
        ring

/-- C22: when the budget file loads and has a default currency `dflt` (the
field `DefaultCurrency`, or the currency of the first stored wallet when the
field is empty), `calculateTotal` prints, for the empty snapshot, the fixed line
of 0 wallets and 0.00, and for any other snapshot the
number of visible wallets, and the sum, taken in the order of the snapshot
starting from 0, of one amount for each visible wallet: its balance when its
currency is the target currency, the converted amount when `ConvertCurrency`
succeeds, its balance when `ConvertCurrency` fails.  Visible are the wallets
whose index is not hidden and that satisfy every filter that is set; the
target currency is `displayCurrency` when it is set and `dflt` otherwise. -/
theorem calculateTotal_sum [Zero F] [Add F] [Mul F] [Div F] (L : Lib F) (w : World F)
    (m : model F) (bf : BudgetFile F) (dflt : GoString)
    (hload : (LoadBudgetFile L w m.currentPath).2 = Except.ok bf)
    (hd : GetDefaultCurrency bf = Except.ok dflt) :
    (m.wallets = [] →
      calculateTotal L w m = (w, str "0 wallets                                     0.00"))
    ∧ (m.wallets ≠ [] →
      calculateTotal L w m =
        ((specAddends L (if m.displayCurrency ≠ [] then m.displayCurrency else dflt) dflt
            (LoadBudgetFile L w m.currentPath).1 (specVisibleWallets m)).1,
         totalLine L
           ((specAddends L (if m.displayCurrency ≠ [] then m.displayCurrency else dflt) dflt
              (LoadBudgetFile L w m.currentPath).1 (specVisibleWallets m)).2.foldl
              (fun a b => a + b) 0)
           (specVisibleWallets m).length
           (if m.displayCurrency ≠ [] then m.displayCurrency else dflt)))
    ∧ (bf.DefaultCurrency ≠ [] → dflt = bf.DefaultCurrency)
    ∧ (bf.DefaultCurrency = [] → ∃ x, bf.Wallets.head? = some x ∧ dflt = x.Currency) := by
  refine ⟨?_, ?_, ?_, ?_⟩
  · intro he
    unfold calculateTotal
    rw [if_pos (by rw [he]; rfl)]
  · intro hne
    have hlen : ¬ m.wallets.length = 0 := by
      intro h
      exact hne (List.length_eq_zero.mp h)
    rcases hl : LoadBudgetFile L w m.currentPath with ⟨w1, e | b⟩
    · rw [hl] at hload
      cases hload
    · rw [hl] at hload
      simp only [Except.ok.injEq] at hload
      subst hload
      unfold calculateTotal
      rw [if_neg hlen, hl]
      simp only [hd]
      rw [totalLoop_spec]
      simp only [specVisibleWallets, List.enum, zero_add]
  · intro h
    unfold GetDefaultCurrency at hd
    rw [if_pos h] at hd
    exact (Except.ok.inj hd).symm
  · intro h
    unfold GetDefaultCurrency at hd
    rw [if_neg (not_not.mpr h)] at hd
    cases hw : bf.Wallets with
    | nil => rw [hw] at hd; cases hd
    | cons x xs =>
      rw [hw] at hd
      exact ⟨x, rfl, (Except.ok.inj hd).symm⟩

theorem calculateTotal_sum_witness :
    (calculateTotal sample.lib sample.cachedWorld sample.onHomeHidden).2
      = totalLine sample.lib 1500 1 (str "USD")
    ∧ (calculateTotal sample.lib sample.cachedWorld
        { sample.onHome with displayCurrency := str "EUR" }).2
      = totalLine sample.lib (250 * 2 + 1500 * 2 + 800) 3 (str "EUR") :=
  ⟨(congrArg Prod.snd ((calculateTotal_sum sample.lib sample.cachedWorld sample.onHomeHidden
      sample.home (str "USD") (by decide!) (by decide)).2.1 (by decide))).trans (by decide!),
    (congrArg Prod.snd ((calculateTotal_sum sample.lib sample.cachedWorld
      { sample.onHome with displayCurrency := str "EUR" }
      sample.home (str "USD") (by decide!) (by decide)).2.1 (by decide))).trans (by decide!)⟩

end totals

section createWallet
variable {F : Type}

/-- A string of ASCII bytes is its own JSON image. -/
theorem jsonString_ascii (s : GoString) (h : ∀ b ∈ s, b.val < 0x80) : jsonString s = s := by
  unfold jsonString runes runeItems
  rw [runeItemsAux_ascii s.length s (Nat.le_refl _) h]
  induction s with
  | nil => rfl
  | cons b rest ih =>
    have hb : b.val < 0x80 := h b (List.mem_cons_self _ _)
    have hr : ∀ x ∈ rest, x.val < 0x80 := fun x hx => h x (List.mem_cons_of_mem _ hx)
    simp only [List.map_cons, List.flatMap_cons, ih hr]
    have he : encodeRune b.val = [b] := by
      unfold encodeRune
      rw [if_pos (by omega)]
      congr 1
      apply Fin.ext
      simp [Fin.ofNat]
    rw [he]
    rfl

/-- A currency code that `normalizeCurrency` returns is made of the letters A to Z. -/
theorem normalizeCurrency_ok_bytes (L : Lib F) (currency c : GoString)
    (h : normalizeCurrency L currency = Except.ok c) : ∀ b ∈ c, 0x41 ≤ b.val ∧ b.val ≤ 0x5A := by
  unfold normalizeCurrency at h
  simp only at h
  split at h
  · cases h
  · split at h
    · cases h
    · rename_i h1 h2
      simp only [Except.ok.injEq] at h
      subst h
      exact (runes_upper_iff _).mp (by simpa using h2)

/-- What `CreateWallet` does on a working disk with a stored, well-formed file
and a balance JSON can encode. -/
theorem CreateWallet_stored (L : Lib F) (w : World F) (filename : GoString) (bf : BudgetFile F)
    (name owner walletType currency : GoString) (balance : F)
    (hfile : lookupFile w filename = some (FileContent.budgetFile bf))
    (hname : bf.Name = filename) (hpath : filename ≠ [])
    (hjson : jsonBudgetFile bf = bf) (hfin : marshalErr L bf = none)
    (hmk : w.mkdirErr = none) (hwr : w.writeErr = none) (hbal : L.jsonErr balance = none) :
    CreateWallet L w filename name owner walletType currency balance =
      if bf.Wallets.any (fun wallet => wallet.Name = name) then
        (w, some (str "wallet with name \x27" ++ name ++ str "\x27 already exists"))
      else
        match normalizeCurrency L currency with
        | Except.error validationErr => (w, some (str "invalid currency: " ++ validationErr))
        | Except.ok c =>
          ({ w with
             files := writeFile w.files filename
               (FileContent.budgetFile
                 { bf with
                   UpdatedAt := w.now,
                   Wallets := bf.Wallets ++
                     [{ Name := jsonString name, Owner := jsonString owner,
                        Type_ := jsonString walletType, Currency := c, Balance := balance }] }) },
           none) := by
  subst hname
  have hload := LoadBudgetFile_stored L w bf.Name bf hfile hpath
  obtain ⟨h1, h2, h3⟩ := jsonBudgetFile_fixed bf hjson
  unfold CreateWallet
  rw [hload]
  simp only
  by_cases hd : (bf.Wallets.any fun wallet => decide (wallet.Name = name)) = true
  · rw [if_pos hd, if_pos hd]
  · rw [if_neg hd, if_neg hd]
    cases hn : normalizeCurrency L currency with
    | error v => rfl
    | ok c =>
      simp only
      have hc : jsonString c = c :=
        jsonString_ascii c (fun b hb => by
          have := normalizeCurrency_ok_bytes L currency c hn b hb
          omega)
      have hm : marshalErr L
          { bf with
            Wallets := bf.Wallets ++
              [{ Name := name, Owner := owner, Type_ := walletType, Currency := c,
                 Balance := balance }] } = none := by
        unfold marshalErr at hfin ⊢
        simp only [List.findSome?_append, hfin, List.findSome?_cons, hbal, List.findSome?_nil,
          Option.none_or]
      rw [SaveBudgetFile_ok L w _ hmk hwr hm]
      simp only [jsonBudgetFile, List.map_append, List.map_cons, List.map_nil, jsonWallet, h1, h2,
        h3, hc]

/-- C23: on a working disk, for a stored, well-formed budget file and a balance
JSON can encode, `CreateWallet` fails exactly when a stored wallet has the name
asked for or `normalizeCurrency` rejects the currency, and then leaves the world
as it is; otherwise it succeeds and the file holds the old wallets followed by
the new one, with the normalized currency.  When the stored names are pairwise
distinct and the new name is valid UTF-8 (its own JSON image), the names are
pairwise distinct afterwards. -/
theorem CreateWallet_keeps_names_distinct (L : Lib F) (w : World F) (filename : GoString)
    (bf : BudgetFile F) (name owner walletType currency : GoString) (balance : F)
    (hfile : lookupFile w filename = some (FileContent.budgetFile bf))
    (hname : bf.Name = filename) (hpath : filename ≠ [])
    (hjson : jsonBudgetFile bf = bf) (hfin : marshalErr L bf = none)
    (hmk : w.mkdirErr = none) (hwr : w.writeErr = none) (hbal : L.jsonErr balance = none) :
    ((CreateWallet L w filename name owner walletType currency balance).2 ≠ none
        ↔ ((∃ x ∈ bf.Wallets, x.Name = name)
            ∨ ∃ e, normalizeCurrency L currency = Except.error e))
    ∧ ((CreateWallet L w filename name owner walletType currency balance).2 ≠ none →
        (CreateWallet L w filename name owner walletType currency balance).1 = w)
    ∧ (∀ c, (∀ x ∈ bf.Wallets, x.Name ≠ name) → normalizeCurrency L currency = Except.ok c →
        CreateWallet L w filename name owner walletType currency balance =
          ({ w with
             files := writeFile w.files filename
               (FileContent.budgetFile
                 { bf with
                   UpdatedAt := w.now,
                   Wallets := bf.Wallets ++
                     [{ Name := jsonString name, Owner := jsonString owner,
                        Type_ := jsonString walletType, Currency := c, Balance := balance }] }) },
           none)
        ∧ (jsonString name = name → (bf.Wallets.map (fun x => x.Name)).Nodup →
            ((bf.Wallets ++
                [({ Name := jsonString name, Owner := jsonString owner,
                    Type_ := jsonString walletType, Currency := c,
                    Balance := balance } : Wallet F)]).map (fun x => x.Name)).Nodup)) := by
  rw [CreateWallet_stored L w filename bf name owner walletType currency balance hfile hname hpath
    hjson hfin hmk hwr hbal]
  have hany : (bf.Wallets.any fun wallet => decide (wallet.Name = name)) = true
      ↔ ∃ x ∈ bf.Wallets, x.Name = name := by
    simp [List.any_eq_true]
  by_cases hd : (bf.Wallets.any fun wallet => decide (wallet.Name = name)) = true
  · rw [if_pos hd]
    refine ⟨?_, fun _ => rfl, ?_⟩
    · exact ⟨fun _ => Or.inl (hany.mp hd), fun _ => by simp⟩
    · intro c hne
      obtain ⟨x, hx, hxn⟩ := hany.mp hd
      exact absurd hxn (hne x hx)
  · rw [if_neg hd]
    have hno : ¬ ∃ x ∈ bf.Wallets, x.Name = name := fun h => hd (hany.mpr h)
    cases hn : normalizeCurrency L currency with
    | error v =>
      refine ⟨?_, fun _ => rfl, ?_⟩
      · exact ⟨fun _ => Or.inr ⟨v, rfl⟩, fun _ => by simp⟩
      · intro c _ hc
        cases hc
    | ok c =>
      refine ⟨?_, ?_, ?_⟩
      · constructor
        · intro h
          exact absurd rfl h
        · rintro (h | ⟨e, he⟩)
          · exact absurd h hno
          · cases he
      · intro h
        exact absurd rfl h
      · intro c1 hne hc
        simp only [Except.ok.injEq] at hc
        subst hc
        refine ⟨rfl, ?_⟩
        intro hv hnd
        rw [hv]
        simp only [List.map_append, List.map_cons, List.map_nil]
        rw [List.nodup_append]
        refine ⟨hnd, List.nodup_singleton _, ?_⟩
        intro a ha hb
        simp only [List.mem_singleton] at hb
        subst hb
        obtain ⟨x, hx, hxn⟩ := List.mem_map.mp ha
        exact hne x hx hxn

theorem CreateWallet_keeps_names_distinct_witness :
    ((CreateWallet sample.lib sample.world (str "home") (str "Car") (str "ann") (str "cash")
        (str " usd ") 90).2 ≠ none
      ↔ ((∃ x ∈ sample.home.Wallets, x.Name = str "Car")
          ∨ ∃ e, normalizeCurrency sample.lib (str " usd ") = Except.error e))
    ∧ sample.storedNames
        (CreateWallet sample.lib sample.world (str "home") (str "Car") (str "ann") (str "cash")
          (str " usd ") 90).1 (str "home")
      = some [str "Cash", str "Bank", str "Fund", str "Car"] :=
  ⟨(CreateWallet_keeps_names_distinct sample.lib sample.world (str "home") sample.home
      (str "Car") (str "ann") (str "cash") (str " usd ") 90
      (by decide) (by decide) (by decide) (by decide) (by decide) (by decide) (by decide)
      (by decide)).1,
    by decide!⟩

/-- The claim of C23 fails in three ways.  A balance without a JSON text (NaN)
makes `CreateWallet` fail although the name is free and the currency valid.  A
disk that fills up makes it fail too, and the stored wallets are lost with the
file that the write cut short.  And a name that is not valid UTF-8 is stored as
U+FFFD while the check compares the bytes given: created a second time, the
wallet is stored a second time under the same name. -/
theorem CreateWallet_fails_otherwise_and_repeats_a_name :
    ((CreateWallet sample.floatLib sample.floatWorld (str "home") (str "Car") (str "ann")
          (str "cash") (str "USD") Float64.nan).2
        = some (str "failed to marshal budget file: json: unsupported value: NaN")
      ∧ (sample.floatHome.Wallets.any (fun x => decide (x.Name = str "Car"))) = false
      ∧ normalizeCurrency sample.floatLib (str "USD") = Except.ok (str "USD"))
    ∧ ((CreateWallet sample.lib sample.fullDisk (str "home") (str "Car") (str "ann")
          (str "cash") (str "USD") 5).2
        = some (str "failed to write budget file \x27home\x27: no space left on device")
      ∧ sample.storedNames sample.fullDisk (str "home")
          = some [str "Cash", str "Bank", str "Fund"]
      ∧ sample.storedNames
          (CreateWallet sample.lib sample.fullDisk (str "home") (str "Car") (str "ann")
            (str "cash") (str "USD") 5).1 (str "home") = none)
    ∧ (sample.storedNames sample.badNameWorld (str "home")
          = some [str "Cash", str "Bank", str "Fund", [0xEF, 0xBF, 0xBD]]
      ∧ (CreateWallet sample.lib sample.badNameWorld (str "home") sample.badName (str "ann")
          (str "cash") (str "USD") 5).2 = none
      ∧ sample.storedNames
          (CreateWallet sample.lib sample.badNameWorld (str "home") sample.badName (str "ann")
            (str "cash") (str "USD") 5).1 (str "home")
          = some [str "Cash", str "Bank", str "Fund", [0xEF, 0xBF, 0xBD], [0xEF, 0xBF, 0xBD]]) := by
  decide!

end createWallet

section greetingSelection
variable {F : Type}

/-- C24 fails on the empty list of budget files: the initial session then has
`selectedFileIndex = 0 = len(availableFiles)` with `isNewFile = false`, and
`enter` on it indexes `availableFiles[0]`, which panics (`none`), in every
world.  The same session arises after the only budget is deleted with `d` and
`y`: the list is empty, the selection is 0, `isNewFile` is false, and `enter`
panics. -/
theorem greeting_enter_on_empty_list [Zero F] [Add F] (L : Lib F) (w : World F)
    (greeting : GoString) :
    (initialModel greeting ([] : List (BudgetFile F))).isNewFile = false
    ∧ (initialModel greeting ([] : List (BudgetFile F))).selectedFileIndex
        = ((initialModel greeting ([] : List (BudgetFile F))).availableFiles.length : Int)
    ∧ Update L w (initialModel greeting []) (Msg.key (str "enter")) = none
    ∧ (sample.runKeys sample.lib sample.tripOnly (initialModel (str "hi") [sample.trip])
          [str "d", str "y"]).map
        (fun r => (r.2.currentScreen, r.2.availableFiles.length, r.2.selectedFileIndex,
          r.2.isNewFile))
        = some (screen.greetingScreen, 0, 0, false)
    ∧ (sample.runKeys sample.lib sample.tripOnly (initialModel (str "hi") [sample.trip])
          [str "d", str "y", str "enter"]).isNone = true := by
  refine ⟨rfl, rfl, rfl, by decide, by decide⟩

end greetingSelection

section cursors
variable {F : Type}

/-- An insertion at a cursor inside the text succeeds, and with a key that is
not empty the new cursor is inside the new text. -/
theorem insertAt_cursor (input s : GoString) (pos : Int) (h0 : 0 ≤ pos)
    (h1 : pos ≤ input.length) :
    ∃ r, insertAt input pos s = some r ∧ 0 ≤ r.2 ∧ (s ≠ [] → r.2 ≤ r.1.length) := by
  have hb : 0 ≤ pos ∧ pos ≤ (input.length : Int) := ⟨h0, h1⟩
  refine ⟨(input.take pos.toNat ++ s ++ input.drop pos.toNat, pos + 1), ?_, ?_, ?_⟩
  · simp [insertAt, sliceTo, sliceFrom, hb]
  · simp only
    omega
  · intro hs
    have hl : 1 ≤ s.length := by
      cases s with
      | nil => exact absurd rfl hs
      | cons a t => simp
    simp only [List.length_append, List.length_take, List.length_drop]
    omega

/-- A backspace at a cursor inside the text succeeds and leaves the cursor
inside the new text. -/
theorem backspaceAt_cursor (input : GoString) (pos : Int) (h0 : 0 ≤ pos)
    (h1 : pos ≤ input.length) :
    ∃ r, backspaceAt input pos = some r ∧ 0 ≤ r.2 ∧ r.2 ≤ r.1.length := by
  unfold backspaceAt
  by_cases hc : input.length > 0 ∧ pos > 0
  · rw [if_pos hc]
    have hb1 : 0 ≤ pos - 1 ∧ pos - 1 ≤ (input.length : Int) := by omega
    have hb2 : 0 ≤ pos ∧ pos ≤ (input.length : Int) := ⟨h0, h1⟩
    refine ⟨(input.take (pos - 1).toNat ++ input.drop pos.toNat, pos - 1), ?_, ?_, ?_⟩
    · simp [sliceTo, sliceFrom, hb1, hb2]
    · simp only
      omega
    · simp only [List.length_append, List.length_take, List.length_drop]
      omega
  · rw [if_neg hc]
    exact ⟨(input, pos), rfl, h0, h1⟩

theorem cursorsOk_of_texts (m m1 : model F) (h : cursorsOk m)
    (e1 : m1.commandInput = m.commandInput) (e2 : m1.cursorPos = m.cursorPos)
    (e3 : m1.creationInput = m.creationInput)
    (e4 : m1.creationCursorPos = m.creationCursorPos) : cursorsOk m1 := by
  unfold cursorsOk at h ⊢
  rw [e1, e2, e3, e4]
  exact h

theorem cursorsOk_of_reset (m m1 : model F) (h : cursorsOk m)
    (e1 : m1.commandInput = m.commandInput) (e2 : m1.cursorPos = m.cursorPos)
    (e3 : m1.creationInput = []) (e4 : m1.creationCursorPos = 0) : cursorsOk m1 := by
  unfold cursorsOk at h ⊢
  rw [e1, e2, e3, e4]
  exact ⟨h.1, h.2.1, le_refl _, by simp⟩

theorem refreshFiles_texts (L : Lib F) (w : World F) (m : model F) :
    (refreshFiles L w m).2.commandInput = m.commandInput
    ∧ (refreshFiles L w m).2.cursorPos = m.cursorPos
    ∧ (refreshFiles L w m).2.creationInput = m.creationInput
    ∧ (refreshFiles L w m).2.creationCursorPos = m.creationCursorPos := by
  unfold refreshFiles
  rcases ListBudgetFiles L w with ⟨w1, e | fs⟩ <;> exact ⟨rfl, rfl, rfl, rfl⟩

theorem nextCreationStep_cursors (L : Lib F) (w : World F) (m : model F) (h : cursorsOk m) :
    cursorsOk (nextCreationStep L w m).2 := by
  obtain ⟨opts, hn, _⟩ := nextCreationStep_result L w m
  rw [hn]
  exact cursorsOk_of_reset m _ h rfl rfl rfl rfl

theorem hideLoop_texts (m : model F) (toks : List GoString) (count : Int) :
    (hideLoop m toks count).1.commandInput = m.commandInput
    ∧ (hideLoop m toks count).1.cursorPos = m.cursorPos
    ∧ (hideLoop m toks count).1.creationInput = m.creationInput
    ∧ (hideLoop m toks count).1.creationCursorPos = m.creationCursorPos := by
  induction toks generalizing m count with
  | nil => exact ⟨rfl, rfl, rfl, rfl⟩
  | cons t rest ih =>
    simp only [hideLoop]
    cases Atoi (TrimSpace t) with
    | none => exact ⟨rfl, rfl, rfl, rfl⟩
    | some idx =>
      simp only
      split_ifs
      · exact ⟨rfl, rfl, rfl, rfl⟩
      · exact ih _ _

theorem handleDeleteCommand_texts (m : model F) (tok : GoString) :
    (handleDeleteCommand m tok).1.commandInput = m.commandInput
    ∧ (handleDeleteCommand m tok).1.cursorPos = m.cursorPos
    ∧ (handleDeleteCommand m tok).1.creationInput = m.creationInput
    ∧ (handleDeleteCommand m tok).1.creationCursorPos = m.creationCursorPos := by
  unfold handleDeleteCommand
  cases Atoi tok with
  | none => exact ⟨rfl, rfl, rfl, rfl⟩
  | some idx =>
    simp only
    cases index m.wallets idx <;> exact ⟨rfl, rfl, rfl, rfl⟩

theorem handleAdjustCommand_texts [Add F] (L : Lib F) (w : World F) (m : model F)
    (tok amt : GoString) (w1 : World F) (m1 : model F) (msg : GoString)
    (hu : handleAdjustCommand L w m tok amt = some (w1, m1, msg)) :
    m1.commandInput = m.commandInput ∧ m1.cursorPos = m.cursorPos
    ∧ m1.creationInput = m.creationInput ∧ m1.creationCursorPos = m.creationCursorPos := by
  unfold handleAdjustCommand at hu
  split at hu
  · simp only [Option.some.injEq, Prod.mk.injEq] at hu
    obtain ⟨_, rfl, _⟩ := hu
    exact ⟨rfl, rfl, rfl, rfl⟩
  · split at hu
    · simp only [Option.some.injEq, Prod.mk.injEq] at hu
      obtain ⟨_, rfl, _⟩ := hu
      exact ⟨rfl, rfl, rfl, rfl⟩
    · simp only at hu
      split at hu
      · simp only [Option.some.injEq, Prod.mk.injEq] at hu
        obtain ⟨_, rfl, _⟩ := hu
        exact ⟨rfl, rfl, rfl, rfl⟩
      · split at hu
        · simp only [Option.some.injEq, Prod.mk.injEq] at hu
          obtain ⟨_, rfl, _⟩ := hu
          exact ⟨rfl, rfl, rfl, rfl⟩
        · split at hu
          · simp only [Option.some.injEq, Prod.mk.injEq] at hu
            obtain ⟨_, rfl, _⟩ := hu
            exact ⟨rfl, rfl, rfl, rfl⟩
          · split at hu
            · cases hu
            · split at hu <;>
              · simp only [Option.some.injEq, Prod.mk.injEq] at hu
                obtain ⟨_, rfl, _⟩ := hu
                exact ⟨rfl, rfl, rfl, rfl⟩

/-- A command leaves the cursors inside their texts. -/
theorem HandleCommand_cursors [Zero F] [Add F] (L : Lib F) (w : World F) (m : model F)
    (cmd : GoString) (w1 : World F) (m1 : model F) (msg : GoString) (h : cursorsOk m)
    (hu : HandleCommand L w m cmd = some (w1, m1, msg)) : cursorsOk m1 := by
  unfold HandleCommand at hu
  repeat' split at hu
  all_goals first
    | (have e := handleAdjustCommand_texts L w m _ _ w1 m1 msg hu
       exact cursorsOk_of_texts m m1 h e.1 e.2.1 e.2.2.1 e.2.2.2)
    | (simp only [Option.some.injEq, Prod.mk.injEq] at hu
       obtain ⟨_, rfl, _⟩ := hu
       first
         | exact cursorsOk_of_texts m _ h rfl rfl rfl rfl
         | exact cursorsOk_of_reset m _ h rfl rfl rfl rfl
         | exact cursorsOk_of_texts m _ h (hideLoop_texts _ _ _).1 (hideLoop_texts _ _ _).2.1
             (hideLoop_texts _ _ _).2.2.1 (hideLoop_texts _ _ _).2.2.2
         | exact cursorsOk_of_texts m _ h (handleDeleteCommand_texts _ _).1
             (handleDeleteCommand_texts _ _).2.1 (handleDeleteCommand_texts _ _).2.2.1
             (handleDeleteCommand_texts _ _).2.2.2)

theorem insertAt_bounds (input s : GoString) (pos : Int) (r : GoString × Int) (h0 : 0 ≤ pos)
    (h1 : pos ≤ input.length) (hs : s ≠ []) (hr : insertAt input pos s = some r) :
    0 ≤ r.2 ∧ r.2 ≤ r.1.length := by
  obtain ⟨r1, e, a, b⟩ := insertAt_cursor input s pos h0 h1
  rw [e] at hr
  cases hr
  exact ⟨a, b hs⟩

theorem backspaceAt_bounds (input : GoString) (pos : Int) (r : GoString × Int) (h0 : 0 ≤ pos)
    (h1 : pos ≤ input.length) (hr : backspaceAt input pos = some r) :
    0 ≤ r.2 ∧ r.2 ≤ r.1.length := by
  obtain ⟨r1, e, a, b⟩ := backspaceAt_cursor input pos h0 h1
  rw [e] at hr
  cases hr
  exact ⟨a, b⟩

theorem cursorsOk_command_edit (m : model F) (r : GoString × Int) (h : cursorsOk m)
    (hr : 0 ≤ r.2 ∧ r.2 ≤ r.1.length) :
    cursorsOk { m with commandInput := r.1, cursorPos := r.2 } :=
  ⟨hr.1, hr.2, h.2.2.1, h.2.2.2⟩

theorem cursorsOk_creation_edit (m : model F) (r : GoString × Int) (h : cursorsOk m)
    (hr : 0 ≤ r.2 ∧ r.2 ≤ r.1.length) :
    cursorsOk { m with creationInput := r.1, creationCursorPos := r.2 } :=
  ⟨h.1, h.2.1, hr.1, hr.2⟩

theorem cursorsOk_CleanSlates (m : model F) : cursorsOk (CleanSlates m) := by
  simp [cursorsOk, CleanSlates]

theorem cursorsOk_backToOrigin (m : model F) : cursorsOk (backToOrigin m) := by
  simp [cursorsOk, backToOrigin, CleanSlates]

theorem runContinuation_cursors (L : Lib F) (w : World F) (m : model F) (k : Continuation)
    (h : cursorsOk m) : cursorsOk (runContinuation L w m k).2.1 := by
  cases k with
  | reloadWallets =>
    unfold runContinuation
    simp only
    split <;> exact cursorsOk_of_texts m _ h rfl rfl rfl rfl
  | refreshFiles =>
    unfold runContinuation
    have e := refreshFiles_texts L w m
    exact cursorsOk_of_texts m _ h e.1 e.2.1 e.2.2.1 e.2.2.2

theorem handleOptionStep_cursors (L : Lib F) (w : World F) (m : model F) (input : GoString)
    (set : model F → GoString → model F) (commit : GoString → GoString)
    (hset : ∀ m v, cursorsOk m → cursorsOk (set m v))
    (w1 : World F) (m1 : model F) (c : Cmd) (h : cursorsOk m)
    (hu : handleOptionStep L w m input set commit = some (w1, m1, c)) : cursorsOk m1 := by
  unfold handleOptionStep at hu
  by_cases hc : m.isCustomInput = true
  · by_cases hi : input = []
    · simp [hc, hi] at hu
      obtain ⟨_, rfl, _⟩ := hu
      exact h
    · simp [hc, hi] at hu
      obtain ⟨_, rfl, _⟩ := hu
      exact nextCreationStep_cursors L w _ (hset m _ h)
  · by_cases hl : m.selectedOption < (m.creationOptions.length : Int) - 1
    · cases hx : index m.creationOptions m.selectedOption with
      | none => simp [hc, hl, hx] at hu
      | some o =>
        simp [hc, hl, hx] at hu
        obtain ⟨_, rfl, _⟩ := hu
        exact nextCreationStep_cursors L w _ (hset m _ h)
    · simp [hc, hl] at hu
      obtain ⟨_, rfl, _⟩ := hu
      exact cursorsOk_of_texts m _ h rfl rfl rfl rfl

theorem handleCreationStep_cursors [Zero F] (L : Lib F) (w : World F) (m : model F)
    (w1 : World F) (m1 : model F) (c : Cmd) (h : cursorsOk m)
    (hu : handleCreationStep L w m = some (w1, m1, c)) : cursorsOk m1 := by
  by_cases h0 : m.creationStep = 0
  · rw [handleCreationStep_name L w m h0] at hu
    split at hu
    · simp only [Option.some.injEq, Prod.mk.injEq] at hu
      obtain ⟨_, rfl, _⟩ := hu
      exact h
    · simp only [Option.some.injEq, Prod.mk.injEq] at hu
      obtain ⟨_, rfl, _⟩ := hu
      exact nextCreationStep_cursors L w _ (cursorsOk_of_texts m _ h rfl rfl rfl rfl)
  by_cases h1 : m.creationStep = 1
  · rw [handleCreationStep_type L w m h1] at hu
    exact handleOptionStep_cursors L w m (TrimSpace m.creationInput)
      (fun m v => { m with creationData := { m.creationData with Type_ := v } }) id
      (fun m _ hm => cursorsOk_of_texts m _ hm rfl rfl rfl rfl) w1 m1 c h hu
  by_cases h2 : m.creationStep = 2
  · rw [handleCreationStep_currency L w m h2] at hu
    exact handleOptionStep_cursors L w m (TrimSpace m.creationInput)
      (fun m v => { m with creationData := { m.creationData with Currency := v } })
      (ToUpper L.upperTable)
      (fun m _ hm => cursorsOk_of_texts m _ hm rfl rfl rfl rfl) w1 m1 c h hu
  by_cases h3 : m.creationStep = 3
  · rw [handleCreationStep_owner L w m h3] at hu
    exact handleOptionStep_cursors L w m (TrimSpace m.creationInput)
      (fun m v => { m with creationData := { m.creationData with Owner := v } }) id
      (fun m _ hm => cursorsOk_of_texts m _ hm rfl rfl rfl rfl) w1 m1 c h hu
  by_cases h4 : m.creationStep = 4
  · rw [handleCreationStep_balance L w m h4] at hu
    split at hu
    · simp only [Option.some.injEq, Prod.mk.injEq] at hu
      obtain ⟨_, rfl, _⟩ := hu
      exact h
    · split at hu <;>
      · simp only [Option.some.injEq, Prod.mk.injEq] at hu
        obtain ⟨_, rfl, _⟩ := hu
        exact cursorsOk_of_texts m _ h rfl rfl rfl rfl
  · have hx : handleCreationStep L w m
        = some ((nextCreationStep L w m).1, (nextCreationStep L w m).2, Cmd.none) := by
      unfold handleCreationStep
      simp only [h0, h1, h2, h3, h4, if_false]
    rw [hx] at hu
    simp only [Option.some.injEq, Prod.mk.injEq] at hu
    obtain ⟨_, rfl, _⟩ := hu
    exact nextCreationStep_cursors L w m h

theorem handleGreetingInput_cursors (w : World F) (m : model F) (msg : GoString)
    (w1 : World F) (m1 : model F) (c : Cmd) (h : cursorsOk m)
    (hu : handleGreetingInput w m msg = some (w1, m1, c)) : cursorsOk m1 := by
  unfold handleGreetingInput at hu
  repeat' split at hu
  all_goals first
    | (simp only [Option.some.injEq, Prod.mk.injEq] at hu
       obtain ⟨_, rfl, _⟩ := hu
       repeat' split
       all_goals first
         | exact cursorsOk_of_texts m _ h rfl rfl rfl rfl
         | exact cursorsOk_of_reset m _ h rfl rfl rfl rfl)
    | cases hu

theorem handleBudgetFileCreation_cursors (w : World F) (m : model F)
    (w1 : World F) (m1 : model F) (c : Cmd) (h : cursorsOk m)
    (hu : handleBudgetFileCreation w m = (w1, m1, c)) : cursorsOk m1 := by
  simp only [handleBudgetFileCreation] at hu
  by_cases he : m.creationInput = []
  · rw [if_pos he] at hu
    simp only [Prod.mk.injEq] at hu
    obtain ⟨_, rfl, _⟩ := hu
    exact h
  · rw [if_neg he] at hu
    rcases hc : CreateBudgetFile w m.creationInput with ⟨wc, _ | e⟩
    · rw [hc] at hu
      simp only [Prod.mk.injEq] at hu
      obtain ⟨_, rfl, _⟩ := hu
      exact cursorsOk_of_reset m _ h rfl rfl rfl rfl
    · rw [hc] at hu
      simp only [Prod.mk.injEq] at hu
      obtain ⟨_, rfl, _⟩ := hu
      exact h

theorem handleBudgetCreationInput_cursors (L : Lib F) (w : World F) (m : model F)
    (msg : GoString) (w1 : World F) (m1 : model F) (c : Cmd) (h : cursorsOk m)
    (hk : msg ≠ []) (hu : handleBudgetCreationInput L w m msg = some (w1, m1, c)) :
    cursorsOk m1 := by
  unfold handleBudgetCreationInput at hu
  repeat' split at hu
  all_goals first
    | exact handleBudgetFileCreation_cursors w m w1 m1 c h (Option.some.inj hu)
    | (simp only [Option.map_eq_some'] at hu
       obtain ⟨r, hr0, hr⟩ := hu
       simp only [Prod.mk.injEq] at hr
       obtain ⟨_, rfl, _⟩ := hr
       first
         | exact cursorsOk_creation_edit m r h
             (backspaceAt_bounds _ _ r h.2.2.1 h.2.2.2 hr0)
         | exact cursorsOk_creation_edit m r h
             (insertAt_bounds _ _ _ r h.2.2.1 h.2.2.2 hk hr0))
    | (simp only [Option.some.injEq, Prod.mk.injEq] at hu
       obtain ⟨_, rfl, _⟩ := hu
       first
         | exact cursorsOk_CleanSlates _
         | exact h
         | (unfold cursorsOk at h ⊢
            simp only
            omega))

theorem handleConfirmationInput_cursors (L : Lib F) (w : World F) (m : model F)
    (msg : GoString) (w1 : World F) (m1 : model F) (c : Cmd) (h : cursorsOk m)
    (hu : handleConfirmationInput L w m msg = some (w1, m1, c)) : cursorsOk m1 := by
  unfold handleConfirmationInput at hu
  repeat' split at hu
  all_goals
    simp only [Option.some.injEq, Prod.mk.injEq] at hu
    first
      | (obtain ⟨_, rfl, _⟩ := hu
         first
           | exact h
           | exact cursorsOk_backToOrigin _)
      | (have e := congrArg (fun r => r.2.1) hu
         simp only at e
         subst e
         exact runContinuation_cursors L _ _ _ (cursorsOk_backToOrigin m))

theorem handleWalletInput_cursors [Zero F] [Add F] (L : Lib F) (w : World F) (m : model F)
    (msg : GoString) (w1 : World F) (m1 : model F) (c : Cmd) (h : cursorsOk m)
    (hk : msg ≠ []) (hu : handleWalletInput L w m msg = some (w1, m1, c)) : cursorsOk m1 := by
  unfold handleWalletInput at hu
  repeat' split at hu
  all_goals first
    | (simp only [Option.map_eq_some'] at hu
       obtain ⟨r, hr0, hr⟩ := hu
       simp only [Prod.mk.injEq] at hr
       obtain ⟨_, rfl, _⟩ := hr
       first
         | exact cursorsOk_command_edit m r h (backspaceAt_bounds _ _ r h.1 h.2.1 hr0)
         | exact cursorsOk_command_edit m r h (insertAt_bounds _ _ _ r h.1 h.2.1 hk hr0)
         | (have hc := HandleCommand_cursors L w m _ r.1 r.2.1 r.2.2 h hr0
            unfold cursorsOk at hc ⊢
            exact ⟨le_refl _, by simp, hc.2.2.1, hc.2.2.2⟩))
    | (simp only [Option.some.injEq, Prod.mk.injEq] at hu
       obtain ⟨_, rfl, _⟩ := hu
       first
         | exact cursorsOk_CleanSlates _
         | exact h
         | (unfold cursorsOk at h ⊢
            simp only
            omega))

theorem handleWalletCreationInput_cursors [Zero F] (L : Lib F) (w : World F) (m : model F)
    (msg : GoString) (w1 : World F) (m1 : model F) (c : Cmd) (h : cursorsOk m)
    (hk : msg ≠ []) (hu : handleWalletCreationInput L w m msg = some (w1, m1, c)) :
    cursorsOk m1 := by
  unfold handleWalletCreationInput at hu
  by_cases h1 : msg = str "enter"
  · rw [if_pos h1] at hu
    exact handleCreationStep_cursors L w m w1 m1 c h hu
  rw [if_neg h1] at hu
  by_cases h2 : msg = str "esc"
  · rw [if_pos h2] at hu
    simp only [Option.some.injEq, Prod.mk.injEq] at hu
    obtain ⟨_, rfl, _⟩ := hu
    exact cursorsOk_CleanSlates _
  rw [if_neg h2] at hu
  by_cases h3 : msg = str "backspace"
  · rw [if_pos h3] at hu
    split at hu
    · simp only [Option.map_eq_some'] at hu
      obtain ⟨r, hr0, hr⟩ := hu
      simp only [Prod.mk.injEq] at hr
      obtain ⟨_, rfl, _⟩ := hr
      exact cursorsOk_creation_edit m r h (backspaceAt_bounds _ _ r h.2.2.1 h.2.2.2 hr0)
    · simp only [Option.some.injEq, Prod.mk.injEq] at hu
      obtain ⟨_, rfl, _⟩ := hu
      exact h
  rw [if_neg h3] at hu
  by_cases h4 : msg = str "left"
  · rw [if_pos h4] at hu
    simp only [Option.some.injEq, Prod.mk.injEq] at hu
    obtain ⟨_, rfl, _⟩ := hu
    split
    · unfold cursorsOk at h ⊢
      simp only
      omega
    · exact h
  rw [if_neg h4] at hu
  by_cases h5 : msg = str "right"
  · rw [if_pos h5] at hu
    simp only [Option.some.injEq, Prod.mk.injEq] at hu
    obtain ⟨_, rfl, _⟩ := hu
    split
    · unfold cursorsOk at h ⊢
      simp only
      omega
    · exact h
  rw [if_neg h5] at hu
  by_cases h6 : msg = str "up" ∨ msg = str "down"
  · rw [if_pos h6] at hu
    split at hu
    · simp only [Option.some.injEq, Prod.mk.injEq] at hu
      obtain ⟨_, rfl, _⟩ := hu
      repeat' split
      all_goals first
        | exact cursorsOk_of_texts m _ h rfl rfl rfl rfl
        | exact cursorsOk_of_reset m _ h rfl rfl rfl rfl
    · simp only [Option.some.injEq, Prod.mk.injEq] at hu
      obtain ⟨_, rfl, _⟩ := hu
      exact h
  rw [if_neg h6] at hu
  split at hu
  · simp only [Option.map_eq_some'] at hu
    obtain ⟨r, hr0, hr⟩ := hu
    simp only [Prod.mk.injEq] at hr
    obtain ⟨_, rfl, _⟩ := hr
    exact cursorsOk_creation_edit m r h (insertAt_bounds _ _ _ r h.2.2.1 h.2.2.2 hk hr0)
  · simp only [Option.some.injEq, Prod.mk.injEq] at hu
    obtain ⟨_, rfl, _⟩ := hu
    exact h

/-- A step of `Update` on a message that is not an empty key keeps both
cursors inside their texts. -/
theorem Update_cursors [Zero F] [Add F] (L : Lib F) (w : World F) (m : model F) (msg : Msg)
    (w1 : World F) (m1 : model F) (c : Cmd) (h : cursorsOk m) (hk : nonEmptyKey msg)
    (hu : Update L w m msg = some (w1, m1, c)) : cursorsOk m1 := by
  cases msg with
  | windowSize width height =>
    simp only [Update, Option.some.injEq, Prod.mk.injEq] at hu
    obtain ⟨_, rfl, _⟩ := hu
    exact cursorsOk_of_texts m _ h rfl rfl rfl rfl
  | other =>
    simp only [Update, Option.some.injEq, Prod.mk.injEq] at hu
    obtain ⟨_, rfl, _⟩ := hu
    exact h
  | key k =>
    have hk1 : k ≠ [] := hk
    simp only [Update] at hu
    by_cases hq : k = str "ctrl+c"
    · rw [if_pos hq] at hu
      simp only [Option.some.injEq, Prod.mk.injEq] at hu
      obtain ⟨_, rfl, _⟩ := hu
      exact h
    · rw [if_neg hq] at hu
      cases hs : m.currentScreen with
      | greetingScreen =>
        rw [hs] at hu
        exact handleGreetingInput_cursors w m k w1 m1 c h hu
      | budgetCreationScreen =>
        rw [hs] at hu
        exact handleBudgetCreationInput_cursors L w m k w1 m1 c h hk1 hu
      | walletScreen =>
        rw [hs] at hu
        exact handleWalletInput_cursors L w m k w1 m1 c h hk1 hu
      | walletCreationScreen =>
        rw [hs] at hu
        exact handleWalletCreationInput_cursors L w m k w1 m1 c h hk1 hu
      | confirmationScreen =>
        rw [hs] at hu
        exact handleConfirmationInput_cursors L w m k w1 m1 c h hu

theorem ReachableVia_cursorsOk [Zero F] [Add F] (L : Lib F) (okWorld : World F → Prop)
    (m : model F) (hr : ReachableVia L okWorld nonEmptyKey m) : cursorsOk m := by
  induction hr with
  | init greeting availableFiles => simp [cursorsOk, initialModel]
  | step w w1 m m1 msg c _ _ hk hu ih => exact Update_cursors L w m msg w1 m1 c ih hk hu

/-- The session after a key pressed in the sample world is reachable when the
session before is. -/
theorem press_reachable (okWorld : World ℚ → Prop) (okMsg : Msg → Prop) (m : model ℚ)
    (k : String) (hw : okWorld sample.world) (hk : okMsg (Msg.key (str k)))
    (hr : ReachableVia sample.lib okWorld okMsg m) :
    ReachableVia sample.lib okWorld okMsg (sample.press m k) := by
  unfold sample.press
  cases hu : Update sample.lib sample.world m (Msg.key (str k)) with
  | none => exact hr
  | some r => exact ReachableVia.step sample.world r.1 m r.2.1 (Msg.key (str k)) r.2.2 hr hw hk hu

/-- The same for a list of keys. -/
theorem pressAll_reachable (okWorld : World ℚ → Prop) (okMsg : Msg → Prop)
    (ks : List String) (hw : okWorld sample.world) (hk : ∀ k ∈ ks, okMsg (Msg.key (str k))) :
    ∀ m : model ℚ, ReachableVia sample.lib okWorld okMsg m →
      ReachableVia sample.lib okWorld okMsg (sample.pressAll m ks) := by
  induction ks with
  | nil => exact fun m hr => hr
  | cons k rest ih =>
    intro m hr
    exact ih (fun x hx => hk x (List.mem_cons_of_mem _ hx)) _
      (press_reachable okWorld okMsg m k hw (hk k (List.mem_cons_self _ _)) hr)

/-- C25: in every session reachable from the initial one by messages whose key
strings are not empty, both cursors are inside their texts, so the slices of
backspace and of text insertion on the command line and on the creation text do
not go out of range: `backspaceAt` and `insertAt` return a result for every
key. -/
theorem cursors_stay_in_bounds [Zero F] [Add F] (L : Lib F) (m : model F)
    (hr : ReachableVia L (fun _ => True) nonEmptyKey m) :
    (0 ≤ m.cursorPos ∧ m.cursorPos ≤ m.commandInput.length
      ∧ 0 ≤ m.creationCursorPos ∧ m.creationCursorPos ≤ m.creationInput.length)
    ∧ (∀ k : GoString,
        (backspaceAt m.commandInput m.cursorPos).isSome = true
        ∧ (insertAt m.commandInput m.cursorPos k).isSome = true
        ∧ (backspaceAt m.creationInput m.creationCursorPos).isSome = true
        ∧ (insertAt m.creationInput m.creationCursorPos k).isSome = true) := by
  have h := ReachableVia_cursorsOk L (fun _ => True) m hr
  refine ⟨h, fun k => ?_⟩
  obtain ⟨r1, e1, _⟩ := backspaceAt_cursor m.commandInput m.cursorPos h.1 h.2.1
  obtain ⟨r2, e2, _⟩ := insertAt_cursor m.commandInput k m.cursorPos h.1 h.2.1
  obtain ⟨r3, e3, _⟩ := backspaceAt_cursor m.creationInput m.creationCursorPos h.2.2.1 h.2.2.2
  obtain ⟨r4, e4, _⟩ := insertAt_cursor m.creationInput k m.creationCursorPos h.2.2.1 h.2.2.2
  rw [e1, e2, e3, e4]
  exact ⟨rfl, rfl, rfl, rfl⟩

theorem cursors_stay_in_bounds_witness :
    (sample.pressAll sample.start ["enter", "h", "é", "left", "x"]).commandInput.length = 4
    ∧ (sample.pressAll sample.start ["enter", "h", "é", "left", "x"]).cursorPos = 2
    ∧ (0 ≤ (sample.pressAll sample.start ["enter", "h", "é", "left", "x"]).cursorPos
      ∧ (sample.pressAll sample.start ["enter", "h", "é", "left", "x"]).cursorPos
        ≤ (sample.pressAll sample.start ["enter", "h", "é", "left", "x"]).commandInput.length) :=
  ⟨by decide, by decide,
    (cursors_stay_in_bounds sample.lib
      (sample.pressAll sample.start ["enter", "h", "é", "left", "x"])
      (pressAll_reachable (fun _ => True) nonEmptyKey ["enter", "h", "é", "left", "x"] trivial
        (by decide) sample.start
        (ReachableVia.init (str "hi there!") [sample.home, sample.trip]))).1.1,
    (cursors_stay_in_bounds sample.lib
      (sample.pressAll sample.start ["enter", "h", "é", "left", "x"])
      (pressAll_reachable (fun _ => True) nonEmptyKey ["enter", "h", "é", "left", "x"] trivial
        (by decide) sample.start
        (ReachableVia.init (str "hi there!") [sample.home, sample.trip]))).1.2.1⟩

end cursors

section suggestions
variable {F : Type}


/-- A suggestion list computed by `populateOptions` has two entries or more,
when the fixed lists it uses have and `range` yields every key of a map. -/
theorem populateOptions_length (L : Lib F) (w : World F) (m : model F)
    (field : Wallet F → GoString) (onError defaults : List GoString) (custom : GoString)
    (hw : rangeIsPerm w) (h1 : 2 ≤ onError.length) (h2 : 1 ≤ defaults.length) :
    2 ≤ (populateOptions L w m field onError defaults custom).2.creationOptions.length := by
  obtain ⟨_, opts, ho, h⟩ := populateOptions_result L w m field onError defaults custom
  have he : (populateOptions L w m field onError defaults custom).2.creationOptions = opts := by
    rcases h with h | h <;> rw [h]
  rw [he, ho]
  obtain ⟨fs, hfs⟩ := LoadBudgetFile_frame L w m.currentPath
  cases hl : (LoadBudgetFile L w m.currentPath).2 with
  | error e => exact h1
  | ok bf =>
    simp only
    by_cases hb : bf.Wallets.isEmpty = true
    · rw [if_pos hb]
      simp only [List.length_append, List.length_singleton]
      omega
    · rw [if_neg hb]
      unfold distinctOptions
      rw [hfs]
      simp only [List.length_append, List.length_singleton]
      rw [(hw _).length_eq]
      have hne : (bf.Wallets.map field).dedup ≠ [] := by
        intro hd
        rw [List.dedup_eq_nil] at hd
        simp only [List.map_eq_nil_iff] at hd
        rw [hd] at hb
        exact hb rfl
      have : 1 ≤ (bf.Wallets.map field).dedup.length := by
        cases hx : (bf.Wallets.map field).dedup with
        | nil => exact absurd hx hne
        | cons a t => simp
      omega

/-- After `nextCreationStep` the suggestions of the steps 1 to 3 are in order. -/
theorem nextCreationStep_suggestions (L : Lib F) (w : World F) (m : model F)
    (hw : rangeIsPerm w)
    (h1 : 1 ≤ (nextCreationStep L w m).2.creationStep)
    (h3 : (nextCreationStep L w m).2.creationStep ≤ 3) :
    suggestionsOk (nextCreationStep L w m).2 := by
  obtain ⟨opts, hn, _⟩ := nextCreationStep_result L w m
  have hopt := nextCreationStep_options L w m
  have hstep : (nextCreationStep L w m).2.creationStep = m.creationStep + 1 := by rw [hn]
  have hsel : (nextCreationStep L w m).2.selectedOption = 0 := by rw [hn]
  have hcus : (nextCreationStep L w m).2.isCustomInput = false := by rw [hn]
  rw [hstep] at h1 h3
  have hlen : 2 ≤ (nextCreationStep L w m).2.creationOptions.length := by
    rw [hopt]
    by_cases a1 : m.creationStep + 1 = 1
    · rw [if_pos a1]
      exact populateOptions_length L w m _ _ _ _ hw (by decide) (by decide)
    by_cases a2 : m.creationStep + 1 = 2
    · rw [if_neg a1, if_pos a2]
      exact populateOptions_length L w m _ _ _ _ hw (by decide) (by decide)
    by_cases a3 : m.creationStep + 1 = 3
    · rw [if_neg a1, if_neg a2, if_pos a3]
      exact populateOptions_length L w m _ _ _ _ hw (by decide) (by decide)
    omega
  unfold suggestionsOk
  rw [hsel, hcus]
  refine ⟨hlen, le_refl _, by omega, ?_⟩
  constructor
  · intro h
    cases h
  · intro h
    omega

theorem handleOptionStep_wizardOk (L : Lib F) (w : World F) (m : model F) (input : GoString)
    (set : model F → GoString → model F) (commit : GoString → GoString)
    (w1 : World F) (m1 : model F) (c : Cmd) (hw : rangeIsPerm w) (h : wizardOk m)
    (hu : handleOptionStep L w m input set commit = some (w1, m1, c)) : wizardOk m1 := by
  unfold handleOptionStep at hu
  by_cases hc : m.isCustomInput = true
  · by_cases hi : input = []
    · simp [hc, hi] at hu
      obtain ⟨_, rfl, _⟩ := hu
      exact h
    · simp [hc, hi] at hu
      obtain ⟨_, rfl, _⟩ := hu
      exact fun _ a b => nextCreationStep_suggestions L w _ hw a b
  · by_cases hl : m.selectedOption < (m.creationOptions.length : Int) - 1
    · cases hx : index m.creationOptions m.selectedOption with
      | none => simp [hc, hl, hx] at hu
      | some o =>
        simp [hc, hl, hx] at hu
        obtain ⟨_, rfl, _⟩ := hu
        exact fun _ a b => nextCreationStep_suggestions L w _ hw a b
    · simp [hc, hl] at hu
      obtain ⟨_, rfl, _⟩ := hu
      intro hs a b
      have so := h hs a b
      unfold suggestionsOk at so ⊢
      refine ⟨so.1, so.2.1, so.2.2.1, ?_⟩
      constructor
      · intro _
        have := so.2.2.1
        simp only at this ⊢
        omega
      · intro _
        rfl

theorem handleCreationStep_wizardOk [Zero F] (L : Lib F) (w : World F) (m : model F)
    (w1 : World F) (m1 : model F) (c : Cmd) (hw : rangeIsPerm w) (h : wizardOk m)
    (hu : handleCreationStep L w m = some (w1, m1, c)) : wizardOk m1 := by
  by_cases h0 : m.creationStep = 0
  · rw [handleCreationStep_name L w m h0] at hu
    split at hu
    · simp only [Option.some.injEq, Prod.mk.injEq] at hu
      obtain ⟨_, rfl, _⟩ := hu
      exact h
    · simp only [Option.some.injEq, Prod.mk.injEq] at hu
      obtain ⟨_, rfl, _⟩ := hu
      exact fun _ a b => nextCreationStep_suggestions L w _ hw a b
  by_cases h1 : m.creationStep = 1
  · rw [handleCreationStep_type L w m h1] at hu
    exact handleOptionStep_wizardOk L w m (TrimSpace m.creationInput)
      (fun m v => { m with creationData := { m.creationData with Type_ := v } }) id
      w1 m1 c hw h hu
  by_cases h2 : m.creationStep = 2
  · rw [handleCreationStep_currency L w m h2] at hu
    exact handleOptionStep_wizardOk L w m (TrimSpace m.creationInput)
      (fun m v => { m with creationData := { m.creationData with Currency := v } })
      (ToUpper L.upperTable) w1 m1 c hw h hu
  by_cases h3 : m.creationStep = 3
  · rw [handleCreationStep_owner L w m h3] at hu
    exact handleOptionStep_wizardOk L w m (TrimSpace m.creationInput)
      (fun m v => { m with creationData := { m.creationData with Owner := v } }) id
      w1 m1 c hw h hu
  by_cases h4 : m.creationStep = 4
  · rw [handleCreationStep_balance L w m h4] at hu
    split at hu
    · simp only [Option.some.injEq, Prod.mk.injEq] at hu
      obtain ⟨_, rfl, _⟩ := hu
      exact h
    · split at hu
      · simp only [Option.some.injEq, Prod.mk.injEq] at hu
        obtain ⟨_, rfl, _⟩ := hu
        exact h
      · simp only [Option.some.injEq, Prod.mk.injEq] at hu
        obtain ⟨_, rfl, _⟩ := hu
        intro hs
        cases hs
  · have hx : handleCreationStep L w m
        = some ((nextCreationStep L w m).1, (nextCreationStep L w m).2, Cmd.none) := by
      unfold handleCreationStep
      simp only [h0, h1, h2, h3, h4, if_false]
    rw [hx] at hu
    simp only [Option.some.injEq, Prod.mk.injEq] at hu
    obtain ⟨_, rfl, _⟩ := hu
    exact fun _ a b => nextCreationStep_suggestions L w _ hw a b

theorem handleWalletCreationInput_wizardOk [Zero F] (L : Lib F) (w : World F) (m : model F)
    (msg : GoString) (w1 : World F) (m1 : model F) (c : Cmd) (hw : rangeIsPerm w)
    (h : wizardOk m) (hu : handleWalletCreationInput L w m msg = some (w1, m1, c)) :
    wizardOk m1 := by
  unfold handleWalletCreationInput at hu
  by_cases h1 : msg = str "enter"
  · rw [if_pos h1] at hu
    exact handleCreationStep_wizardOk L w m w1 m1 c hw h hu
  rw [if_neg h1] at hu
  by_cases h2 : msg = str "esc"
  · rw [if_pos h2] at hu
    simp only [Option.some.injEq, Prod.mk.injEq] at hu
    obtain ⟨_, rfl, _⟩ := hu
    intro hs
    simp [CleanSlates, reloadWallets] at hs
  rw [if_neg h2] at hu
  by_cases h3 : msg = str "backspace"
  · rw [if_pos h3] at hu
    split at hu
    · simp only [Option.map_eq_some'] at hu
      obtain ⟨r, hr0, hr⟩ := hu
      simp only [Prod.mk.injEq] at hr
      obtain ⟨_, rfl, _⟩ := hr
      exact h
    · simp only [Option.some.injEq, Prod.mk.injEq] at hu
      obtain ⟨_, rfl, _⟩ := hu
      exact h
  rw [if_neg h3] at hu
  by_cases h4 : msg = str "left"
  · rw [if_pos h4] at hu
    simp only [Option.some.injEq, Prod.mk.injEq] at hu
    obtain ⟨_, rfl, _⟩ := hu
    split <;> exact h
  rw [if_neg h4] at hu
  by_cases h5 : msg = str "right"
  · rw [if_pos h5] at hu
    simp only [Option.some.injEq, Prod.mk.injEq] at hu
    obtain ⟨_, rfl, _⟩ := hu
    split <;> exact h
  rw [if_neg h5] at hu
  by_cases h6 : msg = str "up" ∨ msg = str "down"
  · rw [if_pos h6] at hu
    split at hu
    · simp only [Option.some.injEq, Prod.mk.injEq] at hu
      obtain ⟨_, rfl, _⟩ := hu
      repeat' split
      all_goals
        intro hs a b
        have so := h hs a b
        unfold suggestionsOk at so ⊢
        simp only [decide_eq_true_eq] at so ⊢
        refine ⟨so.1, by omega, by omega, ?_⟩
        trivial
    · simp only [Option.some.injEq, Prod.mk.injEq] at hu
      obtain ⟨_, rfl, _⟩ := hu
      exact h
  rw [if_neg h6] at hu
  split at hu
  · simp only [Option.map_eq_some'] at hu
    obtain ⟨r, hr0, hr⟩ := hu
    simp only [Prod.mk.injEq] at hr
    obtain ⟨_, rfl, _⟩ := hr
    exact h
  · simp only [Option.some.injEq, Prod.mk.injEq] at hu
    obtain ⟨_, rfl, _⟩ := hu
    exact h

/-- A command keeps the screen, or opens the confirmation, or starts the wizard
at step 0. -/
theorem HandleCommand_entry [Zero F] [Add F] (L : Lib F) (w : World F) (m : model F)
    (cmd : GoString) (w1 : World F) (m1 : model F) (msg : GoString)
    (hu : HandleCommand L w m cmd = some (w1, m1, msg)) :
    m1.currentScreen = m.currentScreen ∨ m1.currentScreen = screen.confirmationScreen
      ∨ m1.creationStep = 0 := by
  unfold HandleCommand at hu
  repeat' split at hu
  all_goals first
    | exact Or.inl (handleAdjustCommand_screens L w m _ _ w1 m1 msg hu).1
    | (simp only [Option.some.injEq, Prod.mk.injEq] at hu
       obtain ⟨_, rfl, _⟩ := hu
       first
         | exact Or.inl rfl
         | exact Or.inr (Or.inr rfl)
         | exact Or.inl (hideLoop_screens _ _ _).1
         | exact (handleDeleteCommand_screens _ _).elim (fun h => Or.inl h.1)
             (fun h => Or.inr (Or.inl h.1)))

/-- From the Wallet screen the wizard is entered at step 0 only. -/
theorem handleWalletInput_entry [Zero F] [Add F] (L : Lib F) (w : World F) (m : model F)
    (msg : GoString) (w1 : World F) (m1 : model F) (c : Cmd)
    (hs : m.currentScreen = screen.walletScreen)
    (hu : handleWalletInput L w m msg = some (w1, m1, c))
    (h1 : m1.currentScreen = screen.walletCreationScreen) : m1.creationStep = 0 := by
  unfold handleWalletInput at hu
  repeat' split at hu
  all_goals first
    | (simp only [Option.map_eq_some'] at hu
       obtain ⟨r, hr0, hr⟩ := hu
       simp only [Prod.mk.injEq] at hr
       obtain ⟨_, rfl, _⟩ := hr
       first
         | (rcases HandleCommand_entry L w m _ r.1 r.2.1 r.2.2 hr0 with e | e | e
            · simp only at h1
              rw [e, hs] at h1
              cases h1
            · simp only at h1
              rw [e] at h1
              cases h1
            · exact e)
         | (simp only at h1
            rw [hs] at h1
            cases h1))
    | (simp only [Option.some.injEq, Prod.mk.injEq] at hu
       obtain ⟨_, rfl, _⟩ := hu
       first
         | rfl
         | (rw [hs] at h1
            cases h1))

/-- A step of `Update` in a world where `range` yields every key keeps the
suggestions of the wizard in order. -/
theorem Update_wizardOk [Zero F] [Add F] (L : Lib F) (w : World F) (m : model F) (msg : Msg)
    (w1 : World F) (m1 : model F) (c : Cmd) (hw : rangeIsPerm w) (h : wizardOk m)
    (ho : originOk m) (hu : Update L w m msg = some (w1, m1, c)) : wizardOk m1 := by
  have hstep := Update_step L w m msg w1 m1 c ho hu
  cases hs : m.currentScreen with
  | walletCreationScreen =>
    cases msg with
    | windowSize width height =>
      simp only [Update, Option.some.injEq, Prod.mk.injEq] at hu
      obtain ⟨_, rfl, _⟩ := hu
      exact h
    | other =>
      simp only [Update, Option.some.injEq, Prod.mk.injEq] at hu
      obtain ⟨_, rfl, _⟩ := hu
      exact h
    | key k =>
      simp only [Update] at hu
      by_cases hq : k = str "ctrl+c"
      · rw [if_pos hq] at hu
        simp only [Option.some.injEq, Prod.mk.injEq] at hu
        obtain ⟨_, rfl, _⟩ := hu
        exact h
      · rw [if_neg hq, hs] at hu
        exact handleWalletCreationInput_wizardOk L w m k w1 m1 c hw h hu
  | walletScreen =>
    intro h1 a b
    have hz : m1.creationStep = 0 := by
      cases msg with
      | windowSize width height =>
        simp only [Update, Option.some.injEq, Prod.mk.injEq] at hu
        obtain ⟨_, rfl, _⟩ := hu
        simp only at h1
        rw [hs] at h1
        cases h1
      | other =>
        simp only [Update, Option.some.injEq, Prod.mk.injEq] at hu
        obtain ⟨_, rfl, _⟩ := hu
        rw [hs] at h1
        cases h1
      | key k =>
        simp only [Update] at hu
        by_cases hq : k = str "ctrl+c"
        · rw [if_pos hq] at hu
          simp only [Option.some.injEq, Prod.mk.injEq] at hu
          obtain ⟨_, rfl, _⟩ := hu
          rw [hs] at h1
          cases h1
        · rw [if_neg hq, hs] at hu
          exact handleWalletInput_entry L w m k w1 m1 c hs hu h1
    omega
  | greetingScreen =>
    intro h1
    unfold screenStep at hstep
    rw [hs, h1] at hstep
    simp [specTransition] at hstep
  | budgetCreationScreen =>
    intro h1
    unfold screenStep at hstep
    rw [hs, h1] at hstep
    simp [specTransition] at hstep
  | confirmationScreen =>
    intro h1
    unfold screenStep at hstep
    rw [hs, h1] at hstep
    unfold originOk at ho
    simp only [specTransition] at hstep
    rcases hstep.1 with e | ⟨e, _⟩
    · cases e
    · rw [← e] at ho
      rcases ho with e1 | e1 <;> cases e1

theorem ReachableVia_wizardOk [Zero F] [Add F] (L : Lib F) (okMsg : Msg → Prop)
    (m : model F) (hr : ReachableVia L rangeIsPerm okMsg m) : wizardOk m ∧ originOk m := by
  induction hr with
  | init greeting availableFiles =>
    refine ⟨?_, Or.inr rfl⟩
    intro hs
    cases hs
  | step w w1 m m1 msg c _ hw _ hu ih =>
    exact ⟨Update_wizardOk L w m msg w1 m1 c hw ih.1 ih.2 hu,
      (Update_step L w m msg w1 m1 c ih.2 hu).2⟩

/-- With the suggestions in order, `enter` at a step with suggestions either is
rejected for an empty free text or moves to the next step. -/
theorem handleOptionStep_commits (L : Lib F) (w : World F) (m : model F) (input : GoString)
    (set : model F → GoString → model F) (commit : GoString → GoString)
    (so : suggestionsOk m) (hset : ∀ m v, (set m v).creationStep = m.creationStep) :
    (m.isCustomInput = true ∧ input = []
        ∧ handleOptionStep L w m input set commit = some (w, m, Cmd.none))
    ∨ (∃ w1 m1, handleOptionStep L w m input set commit = some (w1, m1, Cmd.none)
        ∧ m1.creationStep = m.creationStep + 1) := by
  have hnext : ∀ x : model F, (nextCreationStep L w x).2.creationStep = x.creationStep + 1 := by
    intro x
    obtain ⟨opts, hn, _⟩ := nextCreationStep_result L w x
    rw [hn]
  unfold suggestionsOk at so
  by_cases hc : m.isCustomInput = true
  · by_cases hi : input = []
    · subst hi
      exact Or.inl ⟨hc, rfl, handleOptionStep_empty L w m set commit hc⟩
    · refine Or.inr ⟨_, _, handleOptionStep_custom L w m input set commit hc hi, ?_⟩
      rw [hnext, hset]
  · have hc1 : m.isCustomInput = false := by
      cases h : m.isCustomInput with
      | true => exact absurd h hc
      | false => rfl
    have hlt : m.selectedOption < (m.creationOptions.length : Int) - 1 := by
      have := so.2.2.2
      have hne : ¬ m.selectedOption = (m.creationOptions.length : Int) - 1 :=
        fun e => hc (this.mpr e)
      omega
    have hb : m.selectedOption.toNat < m.creationOptions.length := by omega
    refine Or.inr ⟨_, _, handleOptionStep_select L w m input
      (m.creationOptions.get ⟨m.selectedOption.toNat, hb⟩) set commit hc1 so.2.1 hlt
      (List.getElem?_eq_getElem hb), ?_⟩
    rw [hnext, hset]

/-- C26: in every session reachable from the initial one, in worlds where
`range` yields every key of a map, that is on the wizard at a step from 1 to 3:
the suggestion list has two entries or more, the selection is an index of it,
and free text is on exactly when the selection is the last entry.  So the test
that guards the branch of `enter` which only switches free text on is false,
and `enter` either is rejected for an empty free text or moves to the next
step. -/
theorem wizard_suggestions_in_order [Zero F] [Add F] (L : Lib F) (m : model F)
    (hr : ReachableVia L rangeIsPerm (fun _ => True) m)
    (hscr : m.currentScreen = screen.walletCreationScreen)
    (h1 : 1 ≤ m.creationStep) (h3 : m.creationStep ≤ 3) :
    (2 ≤ m.creationOptions.length
      ∧ 0 ≤ m.selectedOption ∧ m.selectedOption < (m.creationOptions.length : Int)
      ∧ (m.isCustomInput = true ↔ m.selectedOption = (m.creationOptions.length : Int) - 1))
    ∧ ¬ (m.isCustomInput = false ∧ ¬ m.selectedOption < (m.creationOptions.length : Int) - 1)
    ∧ (∀ w : World F,
        (m.isCustomInput = true ∧ TrimSpace m.creationInput = []
          ∧ Update L w m (Msg.key (str "enter")) = some (w, m, Cmd.none))
        ∨ (∃ w1 m1, Update L w m (Msg.key (str "enter")) = some (w1, m1, Cmd.none)
            ∧ m1.creationStep = m.creationStep + 1)) := by
  have so : suggestionsOk m := (ReachableVia_wizardOk L (fun _ => True) m hr).1 hscr h1 h3
  refine ⟨so, ?_, ?_⟩
  · rintro ⟨hc, hl⟩
    unfold suggestionsOk at so
    have he : m.selectedOption = (m.creationOptions.length : Int) - 1 := by
      have := so.2.2.1
      omega
    have := so.2.2.2.mpr he
    rw [hc] at this
    cases this
  · intro w
    rw [Update_enter_wizard L w m hscr]
    have hk : m.creationStep = 1 ∨ m.creationStep = 2 ∨ m.creationStep = 3 := by omega
    rcases hk with hs | hs | hs
    · rw [handleCreationStep_type L w m hs]
      exact handleOptionStep_commits L w m _ _ _ so (fun _ _ => rfl)
    · rw [handleCreationStep_currency L w m hs]
      exact handleOptionStep_commits L w m _ _ _ so (fun _ _ => rfl)
    · rw [handleCreationStep_owner L w m hs]
      exact handleOptionStep_commits L w m _ _ _ so (fun _ _ => rfl)

theorem wizard_suggestions_in_order_witness :
    (sample.pressAll sample.start ["enter", "n", "e", "w", "enter", "C", "enter", "down"]).creationOptions
      = [str "cash", str "bank", str "custom: enter new type..."]
    ∧ (sample.pressAll sample.start
        ["enter", "n", "e", "w", "enter", "C", "enter", "down"]).selectedOption = 1
    ∧ (2 ≤ (sample.pressAll sample.start
          ["enter", "n", "e", "w", "enter", "C", "enter", "down"]).creationOptions.length
      ∧ 0 ≤ (sample.pressAll sample.start
          ["enter", "n", "e", "w", "enter", "C", "enter", "down"]).selectedOption
      ∧ (sample.pressAll sample.start
          ["enter", "n", "e", "w", "enter", "C", "enter", "down"]).selectedOption
        < ((sample.pressAll sample.start
          ["enter", "n", "e", "w", "enter", "C", "enter", "down"]).creationOptions.length : Int)
      ∧ ((sample.pressAll sample.start
          ["enter", "n", "e", "w", "enter", "C", "enter", "down"]).isCustomInput = true
        ↔ (sample.pressAll sample.start
          ["enter", "n", "e", "w", "enter", "C", "enter", "down"]).selectedOption
          = ((sample.pressAll sample.start
            ["enter", "n", "e", "w", "enter", "C", "enter", "down"]).creationOptions.length : Int)
            - 1)) :=
  ⟨by decide, by decide,
    (wizard_suggestions_in_order sample.lib
      (sample.pressAll sample.start ["enter", "n", "e", "w", "enter", "C", "enter", "down"])
      (pressAll_reachable rangeIsPerm (fun _ => True)
        ["enter", "n", "e", "w", "enter", "C", "enter", "down"]
        (fun keys => List.Perm.refl keys) (fun _ _ => trivial) sample.start
        (ReachableVia.init (str "hi there!") [sample.home, sample.trip]))
      (by decide) (by decide) (by decide)).1⟩

end suggestions
